import Mathlib

/-!
Soul kernel: control-block store, stack frame builder and thread admission.

A shallow embedding of `src/common/kernel.c`.

* The global table `Pcbs` is passed explicitly as a list of process control blocks.
* Array accesses are bounds checked: an out-of-range index (undefined behaviour in C) makes
  the embedded function return `Exec.fault`.
* The loop counters `Pid` and `Tid` are `uint8_t` in the source, so `Pid++` and `Tid++` are
  modelled as `(n + 1) % 256`.  A loop is run with a bound on its number of iterations and
  returns `Exec.timeout` when the bound is reached before the loop exits.
* `disableInterrupts`, `enableInterrupts`, `setSystemClock` and `initializeUart` are external
  services which do not touch the table; they are not part of the table-passing functions.
* The namespace `Traced` repeats the functions on a machine that carries, beside the table,
  the interrupt mask and the trace of the steps taken (calls of the external services,
  accesses to `Pcbs`, invocations of `stackInitForTcb`); the logged functions are shown to
  compute what the table-passing ones compute.
-/

namespace Soul

/-! ## Results of an execution -/

/-- Outcome of running a piece of the kernel: a value, an out-of-range access, or a loop that
has not exited within the allowed number of iterations. -/
inductive Exec (α : Type) where
  | ok (a : α)
  | fault
  | timeout
deriving DecidableEq, Repr

/-- Sequencing of two executions. -/
def Exec.bind {α β : Type} (x : Exec α) (f : α → Exec β) : Exec β :=
  match x with
  | .ok a => f a
  | .fault => .fault
  | .timeout => .timeout

/-! ## Configuration constants and data model -/

/-- Compile-time constants used by `kernel.c`.  They are defined in headers (`kernel.h`,
`stack.h`) outside the sources at hand and are therefore parameters of the embedding.
`STACK_SIZE` is the number of 32-bit words of `StackMem`; `DEFAULT_STACK_PSR_VALUE` is a
32-bit word. -/
structure Config where
  MAXIMUM_NUMBER_OF_PROCESSES : Nat
  MAXIMUM_NUMBER_OF_THREADS : Nat
  STACK_SIZE : Nat
  INITIAL_STACK_POINTER : Nat
  STACK_LOCATION_PSR : Nat
  STACK_LOCATION_PC : Nat
  STACK_LOCATION_R9 : Nat
  END_OF_STACK : Nat
  DEFAULT_STACK_PSR_VALUE : Nat
deriving DecidableEq, Repr

/-- Modelled from the spec: the return type `OS_STATUS` of `osAddForegroundThread` is declared
in `kernel.h`; the two values are the ones named in the source (`@retval`). -/
inductive OS_STATUS where
  | OsSuccess
  | OsOutOfResource
deriving DecidableEq, Repr

/-- Modelled from the spec: the status enumeration of a thread entry is declared in `kernel.h`.
`Ready` is its zero value, `Running` is set on admission, and further run-time states, such as
`Blocked`, are reserved for the scheduler. -/
inductive THREAD_STATUS where
  | Ready
  | Running
  | Blocked
deriving DecidableEq, Repr

/-- Modelled from the spec: `THREAD_CONTROL_BLOCK` is declared in `kernel.h`.  The fields are the
ones `kernel.c` accesses.  `StackMem` is the inline array of 32-bit words; `StackPointer` is a
pointer into the entry's own `StackMem`, represented by the index it points at (`none` is the
null pointer). -/
structure THREAD_CONTROL_BLOCK where
  ThreadId : Nat
  Status : THREAD_STATUS
  Priority : Nat
  StackPointer : Option Nat
  StackMem : List Nat
deriving DecidableEq, Repr

/-- Modelled from the spec: `PROCESS_CONTROL_BLOCK` is declared in `kernel.h`.  The fields are
the ones `kernel.c` accesses.  `DataSection` is a pointer, represented by its address (`0` is
the null pointer). -/
structure PROCESS_CONTROL_BLOCK where
  ProcessId : Nat
  NumberOfThreads : Nat
  DataSection : Nat
  Tcbs : List THREAD_CONTROL_BLOCK
deriving DecidableEq, Repr

/-- A state of the global array `Pcbs`. -/
abbrev PcbTable := List PROCESS_CONTROL_BLOCK

/-- The shape the C types give the table: `MAXIMUM_NUMBER_OF_PROCESSES` process entries, each
with `MAXIMUM_NUMBER_OF_THREADS` thread entries, each with `STACK_SIZE` stack words. -/
def WellFormed (cfg : Config) (s : PcbTable) : Prop :=
  s.length = cfg.MAXIMUM_NUMBER_OF_PROCESSES ∧
  ∀ pcb ∈ s, pcb.Tcbs.length = cfg.MAXIMUM_NUMBER_OF_THREADS ∧
    ∀ tcb ∈ pcb.Tcbs, tcb.StackMem.length = cfg.STACK_SIZE

instance (cfg : Config) (s : PcbTable) : Decidable (WellFormed cfg s) := by
  unfold WellFormed
  infer_instance

/-- A zero-initialised thread entry. -/
def zeroTcb (cfg : Config) : THREAD_CONTROL_BLOCK :=
  { ThreadId := 0, Status := .Ready, Priority := 0, StackPointer := none,
    StackMem := List.replicate cfg.STACK_SIZE 0 }

/-- A zero-initialised process entry. -/
def zeroPcb (cfg : Config) : PROCESS_CONTROL_BLOCK :=
  { ProcessId := 0, NumberOfThreads := 0, DataSection := 0,
    Tcbs := List.replicate cfg.MAXIMUM_NUMBER_OF_THREADS (zeroTcb cfg) }

/-- The power-on value of the global:
`PROCESS_CONTROL_BLOCK Pcbs[MAXIMUM_NUMBER_OF_PROCESSES] = {0};`. -/
def Pcbs (cfg : Config) : PcbTable :=
  List.replicate cfg.MAXIMUM_NUMBER_OF_PROCESSES (zeroPcb cfg)

/-! ## Memory accesses -/

/-- Conversion to `uint32_t`. -/
def toUint32 (x : Nat) : Nat := x % 2 ^ 32

/-- Increment of a `uint8_t` counter. -/
def incUint8 (x : Nat) : Nat := (x + 1) % 256

/-- Read of `Pcbs[Pid]`. -/
def readPcb (s : PcbTable) (Pid : Nat) : Exec PROCESS_CONTROL_BLOCK :=
  match s[Pid]? with
  | none => .fault
  | some pcb => .ok pcb

/-- Read of `Pcbs[Pid].Tcbs[Tid]`. -/
def readTcb (s : PcbTable) (Pid Tid : Nat) : Exec THREAD_CONTROL_BLOCK :=
  match s[Pid]? with
  | none => .fault
  | some pcb =>
    match pcb.Tcbs[Tid]? with
    | none => .fault
    | some tcb => .ok tcb

/-- An assignment to fields of `Pcbs[Pid]` other than `Tcbs`. -/
def modifyPcb (s : PcbTable) (Pid : Nat)
    (f : PROCESS_CONTROL_BLOCK → PROCESS_CONTROL_BLOCK) : Exec PcbTable :=
  match s[Pid]? with
  | none => .fault
  | some pcb => .ok (s.set Pid (f pcb))

/-- An assignment through a pointer to `Pcbs[Pid].Tcbs[Tid]`. -/
def modifyTcb (s : PcbTable) (Pid Tid : Nat)
    (f : THREAD_CONTROL_BLOCK → Exec THREAD_CONTROL_BLOCK) : Exec PcbTable :=
  match s[Pid]? with
  | none => .fault
  | some pcb =>
    match pcb.Tcbs[Tid]? with
    | none => .fault
    | some tcb =>
      match f tcb with
      | .ok tcb1 => .ok (s.set Pid { pcb with Tcbs := pcb.Tcbs.set Tid tcb1 })
      | .fault => .fault
      | .timeout => .timeout

/-- The assignment `Tcb->StackMem[i] = v`. -/
def storeStack (i v : Nat) (Tcb : THREAD_CONTROL_BLOCK) : Exec THREAD_CONTROL_BLOCK :=
  if i < Tcb.StackMem.length then .ok { Tcb with StackMem := Tcb.StackMem.set i v }
  else .fault

/-- The assignment `Tcb->StackPointer = &(Tcb->StackMem[i])`.  Forming the address is defined
up to one past the last element. -/
def pointStack (i : Nat) (Tcb : THREAD_CONTROL_BLOCK) : Exec THREAD_CONTROL_BLOCK :=
  if i ≤ Tcb.StackMem.length then .ok { Tcb with StackPointer := some i }
  else .fault

/-! ## `pcbAndTcbInit` -/

/-- The inner loop of `pcbAndTcbInit`:
`for (Tid = 0; Tid < MAXIMUM_NUMBER_OF_THREADS; Tid++) { Tcbs[Tid].ThreadId = Tid; }`
with `Tcbs = Pcbs[Pid].Tcbs`, started at counter value `Tid`. -/
def pcbAndTcbInit.threadLoop (cfg : Config) (Pid : Nat) : Nat → Nat → PcbTable → Exec PcbTable
  | 0, _, _ => .timeout
  | fuel + 1, Tid, s =>
    if Tid < cfg.MAXIMUM_NUMBER_OF_THREADS then
      (modifyTcb s Pid Tid fun Tcb => .ok { Tcb with ThreadId := Tid }).bind fun s1 =>
      pcbAndTcbInit.threadLoop cfg Pid fuel (incUint8 Tid) s1
    else .ok s

/-- The outer loop of `pcbAndTcbInit`:
`for (Pid = 0; Pid < MAXIMUM_NUMBER_OF_PROCESSES; Pid++) { Pcbs[Pid].ProcessId = Pid; ... }`,
started at counter value `Pid`.  `bound` limits the iterations of each inner loop. -/
def pcbAndTcbInit.processLoop (cfg : Config) (bound : Nat) : Nat → Nat → PcbTable → Exec PcbTable
  | 0, _, _ => .timeout
  | fuel + 1, Pid, s =>
    if Pid < cfg.MAXIMUM_NUMBER_OF_PROCESSES then
      (modifyPcb s Pid fun Pcb => { Pcb with ProcessId := Pid }).bind fun s1 =>
      (pcbAndTcbInit.threadLoop cfg Pid bound 0 s1).bind fun s2 =>
      pcbAndTcbInit.processLoop cfg bound fuel (incUint8 Pid) s2
    else .ok s

/-- The function `pcbAndTcbInit`, every loop allowed `fuel` iterations. -/
def pcbAndTcbInit (cfg : Config) (fuel : Nat) (s : PcbTable) : Exec PcbTable :=
  pcbAndTcbInit.processLoop cfg fuel fuel 0 s

/-! ## `stackInitForTcb` -/

/-- The function `stackInitForTcb (Pid, Tid)`. -/
def stackInitForTcb (cfg : Config) (s : PcbTable) (Pid Tid : Nat) : Exec PcbTable :=
  -- Tcb->StackPointer = &(Tcb->StackMem[INITIAL_STACK_POINTER]);
  (modifyTcb s Pid Tid (pointStack cfg.INITIAL_STACK_POINTER)).bind fun s1 =>
  -- Tcb->StackMem[STACK_LOCATION_PSR] = DEFAULT_STACK_PSR_VALUE;
  (modifyTcb s1 Pid Tid
    (storeStack cfg.STACK_LOCATION_PSR cfg.DEFAULT_STACK_PSR_VALUE)).bind fun s2 =>
  -- Tcb->StackMem[END_OF_STACK] = 0x12345678;
  modifyTcb s2 Pid Tid (storeStack cfg.END_OF_STACK 0x12345678)

/-! ## `osAddForegroundThread` -/

/-- The body of `if (Pcbs[Pid].Tcbs[Tid].Status == Ready) { ... }` in `osAddForegroundThread`,
up to `Tcb->Priority = Priority;`. -/
def osAddForegroundThread.found (cfg : Config) (s : PcbTable) (Pid Tid : Nat)
    (Thread Priority : Nat) : Exec PcbTable :=
  -- Tcb = &(Pcbs[Pid].Tcbs[Tid]);  Tcb->Status = Running;
  (modifyTcb s Pid Tid fun Tcb => .ok { Tcb with Status := .Running }).bind fun s1 =>
  -- stackInitForTcb (Pid, Tid);
  (stackInitForTcb cfg s1 Pid Tid).bind fun s2 =>
  -- Tcb->StackMem[STACK_LOCATION_PC] = (uint32_t) (Thread);
  (modifyTcb s2 Pid Tid (storeStack cfg.STACK_LOCATION_PC (toUint32 Thread))).bind fun s3 =>
  (readPcb s3 Pid).bind fun Pcb =>
  -- if (Pcbs[Pid].DataSection != NULL)
  --   Tcb->StackMem[STACK_LOCATION_R9] = (uint32_t) Pcbs[Pid].DataSection;
  (if Pcb.DataSection ≠ 0 then
      modifyTcb s3 Pid Tid (storeStack cfg.STACK_LOCATION_R9 (toUint32 Pcb.DataSection))
    else .ok s3).bind fun s4 =>
  -- Tcb->Priority = Priority;
  modifyTcb s4 Pid Tid fun Tcb => .ok { Tcb with Priority := Priority }

/-- The scan loop of `osAddForegroundThread`:
`for (Tid = 0; Tid < MAXIMUM_NUMBER_OF_THREADS; Tid++) { if (... == Ready) { ...; break; } }`,
started at counter value `Tid` with `Status == OsOutOfResource`; the result is the value of
`Status` at loop exit and the table. -/
def osAddForegroundThread.scan (cfg : Config) (Pid Thread Priority : Nat) :
    Nat → Nat → PcbTable → Exec (OS_STATUS × PcbTable)
  | 0, _, _ => .timeout
  | fuel + 1, Tid, s =>
    if Tid < cfg.MAXIMUM_NUMBER_OF_THREADS then
      (readTcb s Pid Tid).bind fun Tcb =>
      if Tcb.Status = .Ready then
        (osAddForegroundThread.found cfg s Pid Tid Thread Priority).bind fun s1 =>
        .ok (.OsSuccess, s1)
      else osAddForegroundThread.scan cfg Pid Thread Priority fuel (incUint8 Tid) s
    else .ok (.OsOutOfResource, s)

/-- The function `osAddForegroundThread (Thread, StackSize, Priority)`, the scan loop
allowed `fuel` iterations.  The result is the returned status and the table after the call. -/
def osAddForegroundThread (cfg : Config) (fuel : Nat) (s : PcbTable)
    (Thread StackSize Priority : Nat) : Exec (OS_STATUS × PcbTable) :=
  -- Status = OsOutOfResource;  Pid = 0;
  (readPcb s 0).bind fun Pcb =>
  if Pcb.NumberOfThreads = cfg.MAXIMUM_NUMBER_OF_THREADS then
    .ok (.OsOutOfResource, s)
  else
    osAddForegroundThread.scan cfg 0 Thread Priority fuel 0 s

/-! ## Table-level view of an admission -/

/-- The entry `Pcbs[Pid].Tcbs[Tid]` of a table, when both indices are in range. -/
def entry (s : PcbTable) (Pid Tid : Nat) : Option THREAD_CONTROL_BLOCK :=
  match s[Pid]? with
  | none => none
  | some pcb => pcb.Tcbs[Tid]?

/-- The table `s` with `Pcbs[Pid].Tcbs[Tid]` replaced by `tcb`, where `pcb` is the process
entry at `Pid`. -/
def put (s : PcbTable) (Pid Tid : Nat) (pcb : PROCESS_CONTROL_BLOCK)
    (tcb : THREAD_CONTROL_BLOCK) : PcbTable :=
  s.set Pid { pcb with Tcbs := pcb.Tcbs.set Tid tcb }

/-- The effect of the admission body on the thread entry it is applied to, given the
`DataSection` of the owning process: the assignments of `osAddForegroundThread.found` and of
`stackInitForTcb` in program order. -/
def admitTcb (cfg : Config) (DataSection Thread Priority : Nat)
    (Tcb : THREAD_CONTROL_BLOCK) : Exec THREAD_CONTROL_BLOCK :=
  (pointStack cfg.INITIAL_STACK_POINTER { Tcb with Status := .Running }).bind fun t1 =>
  (storeStack cfg.STACK_LOCATION_PSR cfg.DEFAULT_STACK_PSR_VALUE t1).bind fun t2 =>
  (storeStack cfg.END_OF_STACK 0x12345678 t2).bind fun t3 =>
  (storeStack cfg.STACK_LOCATION_PC (toUint32 Thread) t3).bind fun t4 =>
  (if DataSection ≠ 0 then storeStack cfg.STACK_LOCATION_R9 (toUint32 DataSection) t4
    else .ok t4).bind fun t5 =>
  .ok { t5 with Priority := Priority }

/-- The stack words after an admission, written in program order. -/
def admittedStack (cfg : Config) (DataSection Thread : Nat) (mem : List Nat) : List Nat :=
  let m := ((mem.set cfg.STACK_LOCATION_PSR cfg.DEFAULT_STACK_PSR_VALUE).set
    cfg.END_OF_STACK 0x12345678).set cfg.STACK_LOCATION_PC (toUint32 Thread)
  if DataSection ≠ 0 then m.set cfg.STACK_LOCATION_R9 (toUint32 DataSection) else m

/-- The stack slots the admission body writes lie inside a stack of `n` words. -/
def SlotsInRange (cfg : Config) (DataSection n : Nat) : Prop :=
  cfg.INITIAL_STACK_POINTER ≤ n ∧ cfg.STACK_LOCATION_PSR < n ∧ cfg.END_OF_STACK < n ∧
  cfg.STACK_LOCATION_PC < n ∧ (DataSection ≠ 0 → cfg.STACK_LOCATION_R9 < n)

instance (cfg : Config) (D n : Nat) : Decidable (SlotsInRange cfg D n) := by
  unfold SlotsInRange
  infer_instance

/-- No thread entry of process `Pid` with index below `Tid` has status `Ready`. -/
def NoReadyBelow (s : PcbTable) (Pid Tid : Nat) : Prop :=
  ∀ j, j < Tid → ∀ tcb, entry s Pid j = some tcb → tcb.Status ≠ .Ready

/-! ## Closed forms for `pcbAndTcbInit` -/

/-- The thread entries with `ThreadId` set to the index, for the indices from `k` on. -/
def setThreadIdsFrom (k : Nat) (Tcbs : List THREAD_CONTROL_BLOCK) :
    List THREAD_CONTROL_BLOCK :=
  Tcbs.mapIdx fun t Tcb => if k ≤ t then { Tcb with ThreadId := t } else Tcb

/-- The table with `ProcessId` set to the index and all thread identifiers set to theirs, for
the process indices from `k` on. -/
def setIdsFrom (k : Nat) (s : PcbTable) : PcbTable :=
  s.mapIdx fun p Pcb =>
    if k ≤ p then { Pcb with ProcessId := p, Tcbs := setThreadIdsFrom 0 Pcb.Tcbs } else Pcb

/-- A thread entry with its identifier blanked. -/
def eraseThreadId (Tcb : THREAD_CONTROL_BLOCK) : THREAD_CONTROL_BLOCK :=
  { Tcb with ThreadId := 0 }

/-- A process entry with its identifier and the identifiers of its threads blanked. -/
def eraseProcessIds (Pcb : PROCESS_CONTROL_BLOCK) : PROCESS_CONTROL_BLOCK :=
  { Pcb with ProcessId := 0, Tcbs := Pcb.Tcbs.map eraseThreadId }

/-- A table with all identifiers blanked: what is left of it is everything `pcbAndTcbInit`
does not assign. -/
def eraseIds (s : PcbTable) : PcbTable := s.map eraseProcessIds

/-! ## Consecutive admissions -/

/-- Consecutive calls `osAddForegroundThread (Thread, StackSize, Priority)`, one for each
triple of the list, each on the table left by the previous one; the result is the list of
returned statuses and the final table. -/
def osAddForegroundThreadCalls (cfg : Config) (fuel : Nat) :
    PcbTable → List (Nat × Nat × Nat) → Exec (List OS_STATUS × PcbTable)
  | s, [] => .ok ([], s)
  | s, call :: rest =>
    (osAddForegroundThread cfg fuel s call.1 call.2.1 call.2.2).bind fun r =>
    (osAddForegroundThreadCalls cfg fuel r.2 rest).bind fun rs =>
    .ok (r.1 :: rs.1, rs.2)

/-- The `Priority` argument of a call `(Thread, StackSize, Priority)`. -/
def callPriority (call : Nat × Nat × Nat) : Nat := call.2.2

/-- The thread entries of process 0 carry their index as identifier; those with an index
below the length of `prios` are `Running` with the priority listed at their index, and the
others are `Ready`. -/
def AdmittedPrefix (cfg : Config) (prios : List Nat) (s : PcbTable) : Prop :=
  ∀ t, t < cfg.MAXIMUM_NUMBER_OF_THREADS →
    ∃ tcb, entry s 0 t = some tcb ∧ tcb.ThreadId = t ∧
      match prios[t]? with
      | some pr => tcb.Status = .Running ∧ tcb.Priority = pr
      | none => tcb.Status = .Ready

/-- The table is well formed, process 0 has thread count 0 and no data section, and its
thread entries are admitted up to the length of `prios`. -/
def Filled (cfg : Config) (prios : List Nat) (s : PcbTable) : Prop :=
  WellFormed cfg s ∧ AdmittedPrefix cfg prios s ∧
    ∃ pcb, s[0]? = some pcb ∧ pcb.NumberOfThreads = 0 ∧ pcb.DataSection = 0

/-! ## Effects: interrupt mask and trace -/

/-- What a step of the kernel does to its surroundings: a call of an external service, an
access to an element of `Pcbs`, or the invocation of `stackInitForTcb`. -/
inductive Event where
  | disableInterrupts
  | enableInterrupts
  | setSystemClock
  | initializeUart
  | readPcb (Pid : Nat)
  | writePcb (Pid : Nat)
  | readTcb (Pid Tid : Nat)
  | writeTcb (Pid Tid : Nat)
  | stackInitForTcb (Pid Tid : Nat)
deriving DecidableEq, Repr

/-- An event is an access to `Pcbs` or the invocation of `stackInitForTcb`, not a call of an
external service. -/
def Event.isTableEvent : Event → Bool
  | .readPcb _ => true
  | .writePcb _ => true
  | .readTcb _ _ => true
  | .writeTcb _ _ => true
  | .stackInitForTcb _ _ => true
  | _ => false

/-- An event is a read of a thread entry. -/
def Event.isReadTcb : Event → Bool
  | .readTcb _ _ => true
  | _ => false

/-- An event is a write to a thread entry. -/
def Event.isWriteTcb : Event → Bool
  | .writeTcb _ _ => true
  | _ => false

/-- An entry of the trace: an event, with the interrupt mask and the table as they are when
the event takes place. -/
structure Step where
  event : Event
  interruptsEnabled : Bool
  table : PcbTable
deriving DecidableEq, Repr

/-- The table, the interrupt mask (`true` when interrupts are enabled) and the events so
far, oldest first. -/
structure Machine where
  table : PcbTable
  interruptsEnabled : Bool
  trace : List Step
deriving DecidableEq, Repr

/-- The function applied to the value of an execution. -/
def Exec.map {α β : Type} (f : α → β) (x : Exec α) : Exec β :=
  x.bind fun a => .ok (f a)

namespace Traced

/-- The machine with one more event on its trace. -/
def log (e : Event) (m : Machine) : Machine :=
  { m with trace := m.trace ++
      [{ event := e, interruptsEnabled := m.interruptsEnabled, table := m.table }] }

/-- Modelled from the spec: `disableInterrupts ()` of `interrupts.h`, the global interrupt
mask control: it masks all interrupts. -/
def disableInterrupts (m : Machine) : Machine :=
  { log .disableInterrupts m with interruptsEnabled := false }

/-- Modelled from the spec: `enableInterrupts ()` of `interrupts.h`, the global interrupt
mask control: it unmasks the interrupts. -/
def enableInterrupts (m : Machine) : Machine :=
  { log .enableInterrupts m with interruptsEnabled := true }

/-- Modelled from the spec: `setSystemClock ()` of `clock.h`, the one-shot time-base
configuration, an external service that touches neither the table nor the mask. -/
def setSystemClock (m : Machine) : Machine := log .setSystemClock m

/-- Modelled from the spec: `initializeUart ()` of `uart.h`, the one-shot bring-up of the
diagnostic console, an external service that touches neither the table nor the mask. -/
def initializeUart (m : Machine) : Machine := log .initializeUart m

/-- Read of `Pcbs[Pid]`, logged. -/
def readPcb (m : Machine) (Pid : Nat) : Exec (PROCESS_CONTROL_BLOCK × Machine) :=
  (Soul.readPcb m.table Pid).bind fun Pcb => .ok (Pcb, log (.readPcb Pid) m)

/-- Read of `Pcbs[Pid].Tcbs[Tid]`, logged. -/
def readTcb (m : Machine) (Pid Tid : Nat) : Exec (THREAD_CONTROL_BLOCK × Machine) :=
  (Soul.readTcb m.table Pid Tid).bind fun Tcb => .ok (Tcb, log (.readTcb Pid Tid) m)

/-- An assignment to fields of `Pcbs[Pid]` other than `Tcbs`, logged. -/
def modifyPcb (m : Machine) (Pid : Nat)
    (f : PROCESS_CONTROL_BLOCK → PROCESS_CONTROL_BLOCK) : Exec Machine :=
  (Soul.modifyPcb m.table Pid f).bind fun t => .ok { log (.writePcb Pid) m with table := t }

/-- An assignment through a pointer to `Pcbs[Pid].Tcbs[Tid]`, logged. -/
def modifyTcb (m : Machine) (Pid Tid : Nat)
    (f : THREAD_CONTROL_BLOCK → Exec THREAD_CONTROL_BLOCK) : Exec Machine :=
  (Soul.modifyTcb m.table Pid Tid f).bind fun t =>
    .ok { log (.writeTcb Pid Tid) m with table := t }

/-- The inner loop of `pcbAndTcbInit`, with its accesses logged. -/
def pcbAndTcbInit.threadLoop (cfg : Config) (Pid : Nat) : Nat → Nat → Machine → Exec Machine
  | 0, _, _ => .timeout
  | fuel + 1, Tid, m =>
    if Tid < cfg.MAXIMUM_NUMBER_OF_THREADS then
      (modifyTcb m Pid Tid fun Tcb => .ok { Tcb with ThreadId := Tid }).bind fun m1 =>
      pcbAndTcbInit.threadLoop cfg Pid fuel (incUint8 Tid) m1
    else .ok m

/-- The outer loop of `pcbAndTcbInit`, with its accesses logged. -/
def pcbAndTcbInit.processLoop (cfg : Config) (bound : Nat) : Nat → Nat → Machine → Exec Machine
  | 0, _, _ => .timeout
  | fuel + 1, Pid, m =>
    if Pid < cfg.MAXIMUM_NUMBER_OF_PROCESSES then
      (modifyPcb m Pid fun Pcb => { Pcb with ProcessId := Pid }).bind fun m1 =>
      (pcbAndTcbInit.threadLoop cfg Pid bound 0 m1).bind fun m2 =>
      pcbAndTcbInit.processLoop cfg bound fuel (incUint8 Pid) m2
    else .ok m

/-- The function `pcbAndTcbInit`, with its accesses logged. -/
def pcbAndTcbInit (cfg : Config) (fuel : Nat) (m : Machine) : Exec Machine :=
  pcbAndTcbInit.processLoop cfg fuel fuel 0 m

/-- The function `stackInitForTcb (Pid, Tid)`, with its invocation and its accesses
logged. -/
def stackInitForTcb (cfg : Config) (m : Machine) (Pid Tid : Nat) : Exec Machine :=
  (modifyTcb (log (.stackInitForTcb Pid Tid) m) Pid Tid
    (pointStack cfg.INITIAL_STACK_POINTER)).bind fun m1 =>
  (modifyTcb m1 Pid Tid
    (storeStack cfg.STACK_LOCATION_PSR cfg.DEFAULT_STACK_PSR_VALUE)).bind fun m2 =>
  modifyTcb m2 Pid Tid (storeStack cfg.END_OF_STACK 0x12345678)

/-- The function `osInit`:
`disableInterrupts (); setSystemClock (); initializeUart(); pcbAndTcbInit ();`. -/
def osInit (cfg : Config) (fuel : Nat) (m : Machine) : Exec Machine :=
  pcbAndTcbInit cfg fuel (initializeUart (setSystemClock (disableInterrupts m)))

/-- The body of `if (Pcbs[Pid].Tcbs[Tid].Status == Ready) { ... }` in `osAddForegroundThread`,
up to `Tcb->Priority = Priority;`, with its accesses logged. -/
def osAddForegroundThread.found (cfg : Config) (m : Machine) (Pid Tid : Nat)
    (Thread Priority : Nat) : Exec Machine :=
  -- Tcb = &(Pcbs[Pid].Tcbs[Tid]);  Tcb->Status = Running;
  (modifyTcb m Pid Tid fun Tcb => .ok { Tcb with Status := .Running }).bind fun m1 =>
  -- stackInitForTcb (Pid, Tid);
  (stackInitForTcb cfg m1 Pid Tid).bind fun m2 =>
  -- Tcb->StackMem[STACK_LOCATION_PC] = (uint32_t) (Thread);
  (modifyTcb m2 Pid Tid (storeStack cfg.STACK_LOCATION_PC (toUint32 Thread))).bind fun m3 =>
  -- if (Pcbs[Pid].DataSection != NULL)
  (readPcb m3 Pid).bind fun r =>
  (if r.1.DataSection ≠ 0 then
      --   Tcb->StackMem[STACK_LOCATION_R9] = (uint32_t) Pcbs[Pid].DataSection;
      (readPcb r.2 Pid).bind fun r2 =>
      modifyTcb r2.2 Pid Tid (storeStack cfg.STACK_LOCATION_R9 (toUint32 r2.1.DataSection))
    else .ok r.2).bind fun m4 =>
  -- Tcb->Priority = Priority;
  modifyTcb m4 Pid Tid fun Tcb => .ok { Tcb with Priority := Priority }

/-- The scan loop of `osAddForegroundThread`, with its accesses logged. -/
def osAddForegroundThread.scan (cfg : Config) (Pid Thread Priority : Nat) :
    Nat → Nat → Machine → Exec (OS_STATUS × Machine)
  | 0, _, _ => .timeout
  | fuel + 1, Tid, m =>
    if Tid < cfg.MAXIMUM_NUMBER_OF_THREADS then
      (readTcb m Pid Tid).bind fun r =>
      if r.1.Status = .Ready then
        (osAddForegroundThread.found cfg r.2 Pid Tid Thread Priority).bind fun m1 =>
        .ok (.OsSuccess, m1)
      else osAddForegroundThread.scan cfg Pid Thread Priority fuel (incUint8 Tid) r.2
    else .ok (.OsOutOfResource, m)

/-- The function `osAddForegroundThread (Thread, StackSize, Priority)` with the calls of
`disableInterrupts` and `enableInterrupts` and its accesses logged. -/
def osAddForegroundThread (cfg : Config) (fuel : Nat) (m : Machine)
    (Thread StackSize Priority : Nat) : Exec (OS_STATUS × Machine) :=
  -- disableInterrupts ();  Status = OsOutOfResource;  Pid = 0;
  (readPcb (disableInterrupts m) 0).bind fun r =>
  if r.1.NumberOfThreads = cfg.MAXIMUM_NUMBER_OF_THREADS then
    -- enableInterrupts ();  return Status;
    .ok (.OsOutOfResource, enableInterrupts r.2)
  else
    (osAddForegroundThread.scan cfg 0 Thread Priority fuel 0 r.2).bind fun q =>
    -- enableInterrupts ();  return Status;
    .ok (q.1, enableInterrupts q.2)

end Traced

/-- For every invocation of `stackInitForTcb` on a trace: the process index, the thread index
and the status that entry has in the table at the moment of the invocation. -/
def builderCalls (trace : List Step) : List (Nat × Nat × Option THREAD_STATUS) :=
  trace.filterMap fun st =>
    match st.event with
    | .stackInitForTcb Pid Tid =>
      some (Pid, Tid, (entry st.table Pid Tid).map THREAD_CONTROL_BLOCK.Status)
    | _ => none

/-- The machine `m1` is reached from `m` with the interrupt mask unchanged, by steps that
all take place under that mask and satisfy `P`. -/
def Run (P : Step → Prop) (m m1 : Machine) : Prop :=
  m1.interruptsEnabled = m.interruptsEnabled ∧
  ∃ body, m1.trace = m.trace ++ body ∧
    ∀ st ∈ body, st.interruptsEnabled = m.interruptsEnabled ∧ P st

/-- The step is the invocation of `stackInitForTcb (Pid, Tid)` on the table `s` with that
entry set to `Running`. -/
def BuilderCall (s : PcbTable) (Pid Tid : Nat) (st : Step) : Prop :=
  st.event = .stackInitForTcb Pid Tid ∧
  ∃ pcb tcb, s[Pid]? = some pcb ∧ pcb.Tcbs[Tid]? = some tcb ∧
    st.table = put s Pid Tid pcb { tcb with Status := .Running }

/-- The steps of the admission body for the entry `(Pid, Tid)` of the table `s`: writes of
that entry, reads of its process, and the invocation of `stackInitForTcb`. -/
def FoundStep (s : PcbTable) (Pid Tid : Nat) (st : Step) : Prop :=
  st.event = .writeTcb Pid Tid ∨ st.event = .readPcb Pid ∨ BuilderCall s Pid Tid st

/-- The steps of the scan over process `Pid` of the table `s`: reads of thread entries
below the capacity, and the steps of the admission body for an entry that is `Ready`
in `s`. -/
def ScanStep (cfg : Config) (s : PcbTable) (Pid : Nat) (st : Step) : Prop :=
  (∃ j, j < cfg.MAXIMUM_NUMBER_OF_THREADS ∧ st.event = .readTcb Pid j) ∨
  ∃ T tcb, T < cfg.MAXIMUM_NUMBER_OF_THREADS ∧ entry s Pid T = some tcb ∧
    tcb.Status = .Ready ∧ FoundStep s Pid T st

/-- The steps of `osAddForegroundThread` between the two interrupt calls, on the table `s`:
the read of process 0 for the count test, and the steps of the scan over process 0. -/
def CallStep (cfg : Config) (s : PcbTable) (st : Step) : Prop :=
  st.event = .readPcb 0 ∨ ScanStep cfg s 0 st

/-- The number of writes to thread entries on a trace. -/
def writeTcbCount (trace : List Step) : Nat :=
  trace.countP fun st => st.event.isWriteTcb

/-- The number of reads of thread entries on a trace. -/
def readTcbCount (trace : List Step) : Nat :=
  trace.countP fun st => st.event.isReadTcb

/-! ## Reachable tables -/

/-- The tables reachable from the power-on table by `pcbAndTcbInit` followed by any sequence
of calls of `osAddForegroundThread` that return, together with the statuses those calls
returned, in order. -/
inductive Reached (cfg : Config) : List OS_STATUS → PcbTable → Prop where
  | boot (fuel : Nat) (s0 : PcbTable) :
      pcbAndTcbInit cfg fuel (Pcbs cfg) = .ok s0 → Reached cfg [] s0
  | call (fuel : Nat) (sts : List OS_STATUS) (s : PcbTable)
      (Thread StackSize Priority : Nat) (st : OS_STATUS) (s1 : PcbTable) :
      Reached cfg sts s →
      osAddForegroundThread cfg fuel s Thread StackSize Priority = .ok (st, s1) →
      Reached cfg (sts ++ [st]) s1

/-- The number of thread entries whose status is `Running`. -/
def runningCount (Tcbs : List THREAD_CONTROL_BLOCK) : Nat :=
  Tcbs.countP fun Tcb => decide (Tcb.Status = .Running)

/-- The number of returned statuses that are `OsSuccess`. -/
def successCount (sts : List OS_STATUS) : Nat :=
  sts.countP fun st => decide (st = .OsSuccess)

/-! ## Concrete configurations and tables -/

/-- A small configuration: one process, two threads, four stack words. -/
def smallCfg : Config :=
  { MAXIMUM_NUMBER_OF_PROCESSES := 1, MAXIMUM_NUMBER_OF_THREADS := 2, STACK_SIZE := 4,
    INITIAL_STACK_POINTER := 1, STACK_LOCATION_PSR := 3, STACK_LOCATION_PC := 2,
    STACK_LOCATION_R9 := 1, END_OF_STACK := 0, DEFAULT_STACK_PSR_VALUE := 0x01000000 }

/-- Process 0 of `smallCfg` after `pcbAndTcbInit` on the power-on value. -/
def bootedSmallPcb : PROCESS_CONTROL_BLOCK :=
  { ProcessId := 0, NumberOfThreads := 0, DataSection := 0,
    Tcbs := [{ ThreadId := 0, Status := .Ready, Priority := 0, StackPointer := none,
               StackMem := [0, 0, 0, 0] },
             { ThreadId := 1, Status := .Ready, Priority := 0, StackPointer := none,
               StackMem := [0, 0, 0, 0] }] }

/-- The table of `smallCfg` after `pcbAndTcbInit` on the power-on value. -/
def bootedSmall : PcbTable := [bootedSmallPcb]

/-- A table of `smallCfg` whose thread count equals the capacity while both entries are
`Ready`. -/
def countedSmall : PcbTable :=
  [{ ProcessId := 0, NumberOfThreads := 2, DataSection := 0,
     Tcbs := [{ ThreadId := 0, Status := .Ready, Priority := 0, StackPointer := none,
                StackMem := [0, 0, 0, 0] },
              { ThreadId := 1, Status := .Ready, Priority := 0, StackPointer := none,
                StackMem := [0, 0, 0, 0] }] }]

/-- A table of `smallCfg` in which no entry is `Ready`. -/
def fullSmall : PcbTable :=
  [{ ProcessId := 0, NumberOfThreads := 0, DataSection := 0,
     Tcbs := [{ ThreadId := 0, Status := .Running, Priority := 5, StackPointer := some 1,
                StackMem := [0x12345678, 0, 0x8001, 0x01000000] },
              { ThreadId := 1, Status := .Blocked, Priority := 6, StackPointer := some 1,
                StackMem := [0x12345678, 0, 0x8005, 0x01000000] }] }]

/-- A process entry of `smallCfg` with a data section at address `0x20000400`; entry 0 is
`Running`, entry 1 is `Ready`. -/
def dataSmallPcb : PROCESS_CONTROL_BLOCK :=
  { ProcessId := 0, NumberOfThreads := 0, DataSection := 0x20000400,
    Tcbs := [{ ThreadId := 0, Status := .Running, Priority := 5, StackPointer := some 1,
               StackMem := [0x12345678, 0x20000400, 0x8001, 0x01000000] },
             { ThreadId := 1, Status := .Ready, Priority := 0, StackPointer := none,
               StackMem := [0, 0, 0, 0] }] }

/-- The table of `smallCfg` whose only process is `dataSmallPcb`. -/
def dataSmall : PcbTable := [dataSmallPcb]

/-- Process 0 of `bootedSmall` after admitting entry point `0x8001` with priority `7`. -/
def admittedSmallPcb : PROCESS_CONTROL_BLOCK :=
  { ProcessId := 0, NumberOfThreads := 0, DataSection := 0,
    Tcbs := [{ ThreadId := 0, Status := .Running, Priority := 7, StackPointer := some 1,
               StackMem := [0x12345678, 0, 0x8001, 0x01000000] },
             { ThreadId := 1, Status := .Ready, Priority := 0, StackPointer := none,
               StackMem := [0, 0, 0, 0] }] }

/-- The table `bootedSmall` after admitting entry point `0x8001` with priority `7`. -/
def admittedSmall : PcbTable := [admittedSmallPcb]

/-- The table `dataSmall` after admitting entry point `0x8005` with priority `9`. -/
def admittedData : PcbTable :=
  [{ ProcessId := 0, NumberOfThreads := 0, DataSection := 0x20000400,
     Tcbs := [{ ThreadId := 0, Status := .Running, Priority := 5, StackPointer := some 1,
                StackMem := [0x12345678, 0x20000400, 0x8001, 0x01000000] },
              { ThreadId := 1, Status := .Running, Priority := 9, StackPointer := some 1,
                StackMem := [0x12345678, 0x20000400, 0x8005, 0x01000000] }] }]

/-- A table of `smallCfg` with arbitrary identifiers and live thread state. -/
def scrambledSmall : PcbTable :=
  [{ ProcessId := 7, NumberOfThreads := 1, DataSection := 0x20000400,
     Tcbs := [{ ThreadId := 9, Status := .Running, Priority := 5, StackPointer := some 1,
                StackMem := [0x12345678, 0x20000400, 0x8001, 0x01000000] },
              { ThreadId := 9, Status := .Blocked, Priority := 2, StackPointer := none,
                StackMem := [1, 2, 3, 4] }] }]

/-- The configuration of the admission scenario: capacity of four threads. -/
def scenarioCfg : Config :=
  { MAXIMUM_NUMBER_OF_PROCESSES := 2, MAXIMUM_NUMBER_OF_THREADS := 4, STACK_SIZE := 20,
    INITIAL_STACK_POINTER := 4, STACK_LOCATION_PSR := 19, STACK_LOCATION_PC := 18,
    STACK_LOCATION_R9 := 9, END_OF_STACK := 0, DEFAULT_STACK_PSR_VALUE := 0x01000000 }

/-- The calls of the admission scenario: distinct entry points, priorities 1, 2, 3, 4. -/
def scenarioCalls : List (Nat × Nat × Nat) :=
  [(0x8001, 64, 1), (0x8101, 64, 2), (0x8201, 64, 3), (0x8301, 64, 4)]

/-- A configuration whose thread capacity does not fit an 8-bit counter. -/
def wideCfg : Config :=
  { MAXIMUM_NUMBER_OF_PROCESSES := 1, MAXIMUM_NUMBER_OF_THREADS := 256, STACK_SIZE := 4,
    INITIAL_STACK_POINTER := 1, STACK_LOCATION_PSR := 3, STACK_LOCATION_PC := 2,
    STACK_LOCATION_R9 := 1, END_OF_STACK := 0, DEFAULT_STACK_PSR_VALUE := 0x01000000 }

/-- A process entry of `wideCfg` in which all 256 thread entries are `Running`. -/
def runningWidePcb : PROCESS_CONTROL_BLOCK :=
  { ProcessId := 0, NumberOfThreads := 0, DataSection := 0,
    Tcbs := (List.range 256).map fun t =>
      { ThreadId := t, Status := .Running, Priority := t + 1, StackPointer := some 1,
        StackMem := [0x12345678, 0, 0x8001, 0x01000000] } }

/-- The table of `wideCfg` in which all 256 thread entries of process 0 are `Running`. -/
def runningWide : PcbTable := [runningWidePcb]

/-- A table of `smallCfg` with the given entry 0 of process 0 and a zero-initialised
entry 1. -/
def smallWith (Tcb0 : THREAD_CONTROL_BLOCK) : PcbTable :=
  [{ ProcessId := 0, NumberOfThreads := 0, DataSection := 0,
     Tcbs := [Tcb0, { ThreadId := 1, Status := .Ready, Priority := 0, StackPointer := none,
                      StackMem := [0, 0, 0, 0] }] }]

/-- The machine with the table `bootedSmall`, interrupts enabled and an empty trace. -/
def bootedMachine : Machine :=
  { table := bootedSmall, interruptsEnabled := true, trace := [] }

/-- The machine after `osAddForegroundThread (0x8001, 64, 7)` on `bootedMachine`: the table
`admittedSmall`, interrupts enabled, and the twelve steps of the call with the tables they
take place on. -/
def admittedMachine : Machine :=
  { table := admittedSmall, interruptsEnabled := true,
    trace :=
      [{ event := .disableInterrupts, interruptsEnabled := true, table := bootedSmall },
       { event := .readPcb 0, interruptsEnabled := false, table := bootedSmall },
       { event := .readTcb 0 0, interruptsEnabled := false, table := bootedSmall },
       { event := .writeTcb 0 0, interruptsEnabled := false, table := bootedSmall },
       { event := .stackInitForTcb 0 0, interruptsEnabled := false,
         table := smallWith { ThreadId := 0, Status := .Running, Priority := 0,
                              StackPointer := none, StackMem := [0, 0, 0, 0] } },
       { event := .writeTcb 0 0, interruptsEnabled := false,
         table := smallWith { ThreadId := 0, Status := .Running, Priority := 0,
                              StackPointer := none, StackMem := [0, 0, 0, 0] } },
       { event := .writeTcb 0 0, interruptsEnabled := false,
         table := smallWith { ThreadId := 0, Status := .Running, Priority := 0,
                              StackPointer := some 1, StackMem := [0, 0, 0, 0] } },
       { event := .writeTcb 0 0, interruptsEnabled := false,
         table := smallWith { ThreadId := 0, Status := .Running, Priority := 0,
                              StackPointer := some 1, StackMem := [0, 0, 0, 0x01000000] } },
       { event := .writeTcb 0 0, interruptsEnabled := false,
         table := smallWith { ThreadId := 0, Status := .Running, Priority := 0,
                              StackPointer := some 1,
                              StackMem := [0x12345678, 0, 0, 0x01000000] } },
       { event := .readPcb 0, interruptsEnabled := false,
         table := smallWith { ThreadId := 0, Status := .Running, Priority := 0,
                              StackPointer := some 1,
                              StackMem := [0x12345678, 0, 0x8001, 0x01000000] } },
       { event := .writeTcb 0 0, interruptsEnabled := false,
         table := smallWith { ThreadId := 0, Status := .Running, Priority := 0,
                              StackPointer := some 1,
                              StackMem := [0x12345678, 0, 0x8001, 0x01000000] } },
       { event := .enableInterrupts, interruptsEnabled := false, table := admittedSmall }] }

/-- The machine with the power-on table of `smallCfg`, interrupts enabled and an empty
trace. -/
def powerOnMachine : Machine :=
  { table := Pcbs smallCfg, interruptsEnabled := true, trace := [] }

/-- The machine after `osInit` on `powerOnMachine`: the table `bootedSmall`, interrupts
disabled, and the six steps of the call (the first two writes assign the value 0 the
identifiers already have). -/
def initMachine : Machine :=
  { table := bootedSmall, interruptsEnabled := false,
    trace :=
      [{ event := .disableInterrupts, interruptsEnabled := true, table := Pcbs smallCfg },
       { event := .setSystemClock, interruptsEnabled := false, table := Pcbs smallCfg },
       { event := .initializeUart, interruptsEnabled := false, table := Pcbs smallCfg },
       { event := .writePcb 0, interruptsEnabled := false, table := Pcbs smallCfg },
       { event := .writeTcb 0 0, interruptsEnabled := false, table := Pcbs smallCfg },
       { event := .writeTcb 0 1, interruptsEnabled := false, table := Pcbs smallCfg }] }

/-- The machine with the table `runningWide`, interrupts enabled and an empty trace. -/
def wideMachine : Machine :=
  { table := runningWide, interruptsEnabled := true, trace := [] }

/-! ## Basic lemmas -/

@[simp] theorem Exec.bind_ok {α β : Type} (a : α) (f : α → Exec β) :
    (Exec.ok a).bind f = f a := rfl

@[simp] theorem Exec.bind_fault {α β : Type} (f : α → Exec β) :
    (Exec.fault : Exec α).bind f = .fault := rfl

@[simp] theorem Exec.bind_timeout {α β : Type} (f : α → Exec β) :
    (Exec.timeout : Exec α).bind f = .timeout := rfl

theorem Exec.bind_eq_ok {α β : Type} {x : Exec α} {f : α → Exec β} {b : β} :
    x.bind f = .ok b ↔ ∃ a, x = .ok a ∧ f a = .ok b := by
  cases x <;> simp

theorem incUint8_of_lt {n : Nat} (h : n < 255) : incUint8 n = n + 1 := by
  unfold incUint8
  omega

theorem incUint8_lt (n : Nat) : incUint8 n < 256 := by
  unfold incUint8
  omega

theorem incUint8_le (n : Nat) : incUint8 n ≤ n + 1 := by
  unfold incUint8
  omega

theorem entry_eq_some {s : PcbTable} {Pid Tid : Nat} {tcb : THREAD_CONTROL_BLOCK} :
    entry s Pid Tid = some tcb ↔ ∃ pcb, s[Pid]? = some pcb ∧ pcb.Tcbs[Tid]? = some tcb := by
  unfold entry
  cases h : s[Pid]? <;> simp

theorem readTcb_eq_ok {s : PcbTable} {Pid Tid : Nat} {tcb : THREAD_CONTROL_BLOCK} :
    readTcb s Pid Tid = .ok tcb ↔ entry s Pid Tid = some tcb := by
  unfold readTcb entry
  cases h : s[Pid]? with
  | none => simp
  | some pcb => cases h2 : pcb.Tcbs[Tid]? <;> simp [h2]

theorem readTcb_ne_timeout (s : PcbTable) (Pid Tid : Nat) : readTcb s Pid Tid ≠ .timeout := by
  unfold readTcb
  cases h : s[Pid]? with
  | none => simp
  | some pcb => cases h2 : pcb.Tcbs[Tid]? <;> simp [h2]

theorem modifyTcb_of_entry {s : PcbTable} {Pid Tid : Nat} {pcb : PROCESS_CONTROL_BLOCK}
    {tcb : THREAD_CONTROL_BLOCK} (hp : s[Pid]? = some pcb) (ht : pcb.Tcbs[Tid]? = some tcb)
    (f : THREAD_CONTROL_BLOCK → Exec THREAD_CONTROL_BLOCK) :
    modifyTcb s Pid Tid f = (f tcb).bind fun t => .ok (put s Pid Tid pcb t) := by
  unfold modifyTcb put
  rw [hp]
  simp only [ht]
  cases f tcb <;> rfl

theorem put_getElem? {s : PcbTable} {Pid : Nat} {pcb : PROCESS_CONTROL_BLOCK}
    (hp : s[Pid]? = some pcb) (Tid : Nat) (t : THREAD_CONTROL_BLOCK) :
    (put s Pid Tid pcb t)[Pid]? = some { pcb with Tcbs := pcb.Tcbs.set Tid t } := by
  unfold put
  have hlt : Pid < s.length := (List.getElem?_eq_some.mp hp).1
  simp [List.getElem?_set, hlt]

theorem put_put (s : PcbTable) (Pid Tid : Nat) (pcb : PROCESS_CONTROL_BLOCK)
    (t1 t2 : THREAD_CONTROL_BLOCK) :
    put (put s Pid Tid pcb t1) Pid Tid { pcb with Tcbs := pcb.Tcbs.set Tid t1 } t2
      = put s Pid Tid pcb t2 := by
  unfold put
  simp [List.set_set]

theorem modifyTcb_put {s : PcbTable} {Pid Tid : Nat} {pcb : PROCESS_CONTROL_BLOCK}
    {tcb : THREAD_CONTROL_BLOCK} (hp : s[Pid]? = some pcb) (ht : pcb.Tcbs[Tid]? = some tcb)
    (t1 : THREAD_CONTROL_BLOCK) (f : THREAD_CONTROL_BLOCK → Exec THREAD_CONTROL_BLOCK) :
    modifyTcb (put s Pid Tid pcb t1) Pid Tid f
      = (f t1).bind fun t => .ok (put s Pid Tid pcb t) := by
  have hlt : Tid < pcb.Tcbs.length := (List.getElem?_eq_some.mp ht).1
  have ht1 : (pcb.Tcbs.set Tid t1)[Tid]? = some t1 := by simp [List.getElem?_set, hlt]
  rw [modifyTcb_of_entry (put_getElem? hp Tid t1) ht1]
  simp only [put_put]

theorem readPcb_put {s : PcbTable} {Pid : Nat} {pcb : PROCESS_CONTROL_BLOCK}
    (hp : s[Pid]? = some pcb) (Tid : Nat) (t : THREAD_CONTROL_BLOCK) :
    readPcb (put s Pid Tid pcb t) Pid = .ok { pcb with Tcbs := pcb.Tcbs.set Tid t } := by
  unfold readPcb
  rw [put_getElem? hp]

/-! ## The admission body -/

theorem found_of_entry (cfg : Config) {s : PcbTable} {Pid Tid : Nat}
    {pcb : PROCESS_CONTROL_BLOCK} {tcb : THREAD_CONTROL_BLOCK}
    (hp : s[Pid]? = some pcb) (ht : pcb.Tcbs[Tid]? = some tcb) (Thread Priority : Nat) :
    osAddForegroundThread.found cfg s Pid Tid Thread Priority
      = (admitTcb cfg pcb.DataSection Thread Priority tcb).bind fun t =>
          .ok (put s Pid Tid pcb t) := by
  unfold osAddForegroundThread.found stackInitForTcb admitTcb
  rw [modifyTcb_of_entry hp ht]
  simp only [Exec.bind_ok, modifyTcb_put hp ht]
  cases pointStack cfg.INITIAL_STACK_POINTER { tcb with Status := .Running } with
  | fault => rfl
  | timeout => rfl
  | ok t1 =>
    simp only [Exec.bind_ok, modifyTcb_put hp ht]
    cases storeStack cfg.STACK_LOCATION_PSR cfg.DEFAULT_STACK_PSR_VALUE t1 with
    | fault => rfl
    | timeout => rfl
    | ok t2 =>
      simp only [Exec.bind_ok, modifyTcb_put hp ht]
      cases storeStack cfg.END_OF_STACK 0x12345678 t2 with
      | fault => rfl
      | timeout => rfl
      | ok t3 =>
        simp only [Exec.bind_ok, modifyTcb_put hp ht]
        cases storeStack cfg.STACK_LOCATION_PC (toUint32 Thread) t3 with
        | fault => rfl
        | timeout => rfl
        | ok t4 =>
          simp only [Exec.bind_ok, modifyTcb_put hp ht, readPcb_put hp]
          by_cases hD : pcb.DataSection = 0
          · simp only [hD, ne_eq, not_true_eq_false, if_false, Exec.bind_ok,
              modifyTcb_put hp ht]
          · simp only [hD, ne_eq, not_false_eq_true, if_true, modifyTcb_put hp ht]
            cases storeStack cfg.STACK_LOCATION_R9 (toUint32 pcb.DataSection) t4 with
            | fault => rfl
            | timeout => rfl
            | ok t5 => simp only [Exec.bind_ok, modifyTcb_put hp ht]

theorem admitTcb_eq_ok {cfg : Config} {D Thread Priority : Nat}
    {tcb tcb1 : THREAD_CONTROL_BLOCK} :
    admitTcb cfg D Thread Priority tcb = .ok tcb1 ↔
      SlotsInRange cfg D tcb.StackMem.length ∧
      tcb1 = { ThreadId := tcb.ThreadId, Status := .Running, Priority := Priority,
               StackPointer := some cfg.INITIAL_STACK_POINTER,
               StackMem := admittedStack cfg D Thread tcb.StackMem } := by
  unfold admitTcb SlotsInRange admittedStack pointStack storeStack
  by_cases h1 : cfg.INITIAL_STACK_POINTER ≤ tcb.StackMem.length
  · by_cases h2 : cfg.STACK_LOCATION_PSR < tcb.StackMem.length
    · by_cases h3 : cfg.END_OF_STACK < tcb.StackMem.length
      · by_cases h4 : cfg.STACK_LOCATION_PC < tcb.StackMem.length
        · by_cases hD : D = 0
          · simp [h1, h2, h3, h4, hD, eq_comm]
          · by_cases h5 : cfg.STACK_LOCATION_R9 < tcb.StackMem.length
            · simp [h1, h2, h3, h4, hD, h5, eq_comm]
            · simp [h1, h2, h3, h4, hD, h5]
        · simp [h1, h2, h3, h4]
      · simp [h1, h2, h3]
    · simp [h1, h2]
  · simp [h1]

theorem admitTcb_ne_timeout (cfg : Config) (D Thread Priority : Nat)
    (tcb : THREAD_CONTROL_BLOCK) : admitTcb cfg D Thread Priority tcb ≠ .timeout := by
  unfold admitTcb pointStack storeStack
  by_cases h1 : cfg.INITIAL_STACK_POINTER ≤ tcb.StackMem.length
  · by_cases h2 : cfg.STACK_LOCATION_PSR < tcb.StackMem.length
    · by_cases h3 : cfg.END_OF_STACK < tcb.StackMem.length
      · by_cases h4 : cfg.STACK_LOCATION_PC < tcb.StackMem.length
        · by_cases hD : D = 0
          · simp [h1, h2, h3, h4, hD]
          · by_cases h5 : cfg.STACK_LOCATION_R9 < tcb.StackMem.length
            · simp [h1, h2, h3, h4, hD, h5]
            · simp [h1, h2, h3, h4, hD, h5]
        · simp [h1, h2, h3, h4]
      · simp [h1, h2, h3]
    · simp [h1, h2]
  · simp [h1]

/-! ## The scan loop -/

theorem noReadyBelow_incUint8 {s : PcbTable} {Pid Tid : Nat} {tcb : THREAD_CONTROL_BLOCK}
    (hinv : NoReadyBelow s Pid Tid) (he : entry s Pid Tid = some tcb)
    (hs : tcb.Status ≠ .Ready) : NoReadyBelow s Pid (incUint8 Tid) := by
  intro j hj t ht
  have hle := incUint8_le Tid
  by_cases hjt : j = Tid
  · subst hjt
    rw [he] at ht
    cases ht
    exact hs
  · exact hinv j (by omega) t ht

theorem scan_eq_success {cfg : Config} {Pid Thread Priority : Nat} :
    ∀ (fuel Tid : Nat) (s s1 : PcbTable),
      osAddForegroundThread.scan cfg Pid Thread Priority fuel Tid s = .ok (.OsSuccess, s1) →
      NoReadyBelow s Pid Tid →
      ∃ T pcb tcb tcb1, T < cfg.MAXIMUM_NUMBER_OF_THREADS ∧ s[Pid]? = some pcb ∧
        pcb.Tcbs[T]? = some tcb ∧ tcb.Status = .Ready ∧ NoReadyBelow s Pid T ∧
        admitTcb cfg pcb.DataSection Thread Priority tcb = .ok tcb1 ∧
        s1 = put s Pid T pcb tcb1 := by
  intro fuel
  induction fuel with
  | zero =>
    intro Tid s s1 h
    simp [osAddForegroundThread.scan] at h
  | succ n ih =>
    intro Tid s s1 h hinv
    unfold osAddForegroundThread.scan at h
    by_cases hlt : Tid < cfg.MAXIMUM_NUMBER_OF_THREADS
    · rw [if_pos hlt] at h
      obtain ⟨tcb, hread, h⟩ := Exec.bind_eq_ok.mp h
      have he := readTcb_eq_ok.mp hread
      obtain ⟨pcb, hp, ht⟩ := entry_eq_some.mp he
      by_cases hr : tcb.Status = .Ready
      · rw [if_pos hr, found_of_entry cfg hp ht] at h
        obtain ⟨s2, h2, h3⟩ := Exec.bind_eq_ok.mp h
        obtain ⟨tcb1, h4, h5⟩ := Exec.bind_eq_ok.mp h2
        cases h3
        cases h5
        exact ⟨Tid, pcb, tcb, tcb1, hlt, hp, ht, hr, hinv, h4, rfl⟩
      · rw [if_neg hr] at h
        exact ih _ s s1 h (noReadyBelow_incUint8 hinv he hr)
    · rw [if_neg hlt] at h
      cases h

theorem scan_eq_outOfResource {cfg : Config} {Pid Thread Priority : Nat} :
    ∀ (fuel Tid : Nat) (s s1 : PcbTable),
      osAddForegroundThread.scan cfg Pid Thread Priority fuel Tid s
        = .ok (.OsOutOfResource, s1) →
      NoReadyBelow s Pid Tid →
      s1 = s ∧ NoReadyBelow s Pid cfg.MAXIMUM_NUMBER_OF_THREADS := by
  intro fuel
  induction fuel with
  | zero =>
    intro Tid s s1 h
    simp [osAddForegroundThread.scan] at h
  | succ n ih =>
    intro Tid s s1 h hinv
    unfold osAddForegroundThread.scan at h
    by_cases hlt : Tid < cfg.MAXIMUM_NUMBER_OF_THREADS
    · rw [if_pos hlt] at h
      obtain ⟨tcb, hread, h⟩ := Exec.bind_eq_ok.mp h
      have he := readTcb_eq_ok.mp hread
      by_cases hr : tcb.Status = .Ready
      · rw [if_pos hr] at h
        obtain ⟨s2, _, h3⟩ := Exec.bind_eq_ok.mp h
        cases h3
      · rw [if_neg hr] at h
        exact ih _ s s1 h (noReadyBelow_incUint8 hinv he hr)
    · rw [if_neg hlt] at h
      cases h
      refine ⟨rfl, ?_⟩
      intro j hj t ht
      exact hinv j (by omega) t ht

/-- The scan returns when the capacity fits the 8-bit counter, the thread entries below the
capacity exist and the stack slots are in range. -/
theorem scan_returns {cfg : Config} {Pid Thread Priority : Nat} {s : PcbTable}
    {pcb : PROCESS_CONTROL_BLOCK} (hp : s[Pid]? = some pcb)
    (h255 : cfg.MAXIMUM_NUMBER_OF_THREADS ≤ 255)
    (hlen : cfg.MAXIMUM_NUMBER_OF_THREADS ≤ pcb.Tcbs.length)
    (hslots : ∀ tcb ∈ pcb.Tcbs, SlotsInRange cfg pcb.DataSection tcb.StackMem.length) :
    ∀ (fuel Tid : Nat), cfg.MAXIMUM_NUMBER_OF_THREADS - Tid < fuel →
      ∃ r, osAddForegroundThread.scan cfg Pid Thread Priority fuel Tid s = .ok r := by
  intro fuel
  induction fuel with
  | zero =>
    intro Tid h
    omega
  | succ n ih =>
    intro Tid hfuel
    unfold osAddForegroundThread.scan
    by_cases hlt : Tid < cfg.MAXIMUM_NUMBER_OF_THREADS
    · rw [if_pos hlt]
      have hT : Tid < pcb.Tcbs.length := by omega
      have ht : pcb.Tcbs[Tid]? = some pcb.Tcbs[Tid] := List.getElem?_eq_getElem hT
      have hread : readTcb s Pid Tid = .ok pcb.Tcbs[Tid] :=
        readTcb_eq_ok.mpr (entry_eq_some.mpr ⟨pcb, hp, ht⟩)
      rw [hread, Exec.bind_ok]
      by_cases hr : pcb.Tcbs[Tid].Status = .Ready
      · rw [if_pos hr, found_of_entry cfg hp ht]
        have hmem : pcb.Tcbs[Tid] ∈ pcb.Tcbs := List.getElem_mem hT
        have hok : admitTcb cfg pcb.DataSection Thread Priority pcb.Tcbs[Tid] = .ok _ :=
          admitTcb_eq_ok.mpr ⟨hslots _ hmem, rfl⟩
        rw [hok]
        exact ⟨_, rfl⟩
      · rw [if_neg hr]
        apply ih
        rw [incUint8_of_lt (by omega)]
        omega
    · rw [if_neg hlt]
      exact ⟨_, rfl⟩

/-! ## `osAddForegroundThread` as a whole -/

theorem osAdd_eq_success {cfg : Config} {fuel : Nat} {s s1 : PcbTable}
    {Thread StackSize Priority : Nat}
    (h : osAddForegroundThread cfg fuel s Thread StackSize Priority = .ok (.OsSuccess, s1)) :
    ∃ T pcb tcb tcb1, T < cfg.MAXIMUM_NUMBER_OF_THREADS ∧ s[0]? = some pcb ∧
      pcb.NumberOfThreads ≠ cfg.MAXIMUM_NUMBER_OF_THREADS ∧
      pcb.Tcbs[T]? = some tcb ∧ tcb.Status = .Ready ∧ NoReadyBelow s 0 T ∧
      admitTcb cfg pcb.DataSection Thread Priority tcb = .ok tcb1 ∧
      s1 = put s 0 T pcb tcb1 := by
  unfold osAddForegroundThread at h
  obtain ⟨pcb0, hread, h⟩ := Exec.bind_eq_ok.mp h
  by_cases hn : pcb0.NumberOfThreads = cfg.MAXIMUM_NUMBER_OF_THREADS
  · rw [if_pos hn] at h
    cases h
  · rw [if_neg hn] at h
    obtain ⟨T, pcb, tcb, tcb1, hT, hp, ht, hr, hlow, hadm, hs1⟩ :=
      scan_eq_success fuel 0 s s1 h (fun j hj => absurd hj (Nat.not_lt_zero j))
    have hpcb : pcb0 = pcb := by
      unfold readPcb at hread
      rw [hp] at hread
      cases hread
      rfl
    subst hpcb
    exact ⟨T, pcb0, tcb, tcb1, hT, hp, hn, ht, hr, hlow, hadm, hs1⟩

theorem osAdd_eq_outOfResource {cfg : Config} {fuel : Nat} {s s1 : PcbTable}
    {Thread StackSize Priority : Nat}
    (h : osAddForegroundThread cfg fuel s Thread StackSize Priority
      = .ok (.OsOutOfResource, s1)) :
    s1 = s ∧ ∃ pcb, s[0]? = some pcb ∧
      (pcb.NumberOfThreads = cfg.MAXIMUM_NUMBER_OF_THREADS ∨
        NoReadyBelow s 0 cfg.MAXIMUM_NUMBER_OF_THREADS) := by
  unfold osAddForegroundThread at h
  obtain ⟨pcb0, hread, h⟩ := Exec.bind_eq_ok.mp h
  have hp : s[0]? = some pcb0 := by
    unfold readPcb at hread
    cases hs : s[0]? with
    | none => simp [hs] at hread
    | some p =>
      simp only [hs, Exec.ok.injEq] at hread
      rw [hread]
  by_cases hn : pcb0.NumberOfThreads = cfg.MAXIMUM_NUMBER_OF_THREADS
  · rw [if_pos hn] at h
    cases h
    exact ⟨rfl, pcb0, hp, Or.inl hn⟩
  · rw [if_neg hn] at h
    obtain ⟨h1, h2⟩ :=
      scan_eq_outOfResource fuel 0 s s1 h (fun j hj => absurd hj (Nat.not_lt_zero j))
    exact ⟨h1, pcb0, hp, Or.inr h2⟩

theorem entry_put_self {s : PcbTable} {Pid Tid : Nat} {pcb : PROCESS_CONTROL_BLOCK}
    {tcb : THREAD_CONTROL_BLOCK} (hp : s[Pid]? = some pcb) (ht : pcb.Tcbs[Tid]? = some tcb)
    (t1 : THREAD_CONTROL_BLOCK) : entry (put s Pid Tid pcb t1) Pid Tid = some t1 := by
  have hlt : Tid < pcb.Tcbs.length := (List.getElem?_eq_some.mp ht).1
  unfold entry
  rw [put_getElem? hp]
  simp [List.getElem?_set, hlt]

theorem entry_put_other {s : PcbTable} {Pid Tid : Nat} {pcb : PROCESS_CONTROL_BLOCK}
    (hp : s[Pid]? = some pcb) (t1 : THREAD_CONTROL_BLOCK) (p t : Nat)
    (hne : p ≠ Pid ∨ t ≠ Tid) : entry (put s Pid Tid pcb t1) p t = entry s p t := by
  unfold entry
  by_cases hpp : p = Pid
  · subst hpp
    have htt : t ≠ Tid := by
      rcases hne with h | h
      · exact absurd rfl h
      · exact h
    rw [put_getElem? hp, hp]
    simp [List.getElem?_set, Ne.symm htt]
  · unfold put
    rw [List.getElem?_set_ne (Ne.symm hpp)]

theorem admittedStack_length (cfg : Config) (D Thread : Nat) (mem : List Nat) :
    (admittedStack cfg D Thread mem).length = mem.length := by
  unfold admittedStack
  by_cases hD : D = 0 <;> simp [hD]

/-! ## Admission: return status (C1, C2) -/

/-- C1 (as stated, refuted): in the table `countedSmall` the thread count of process 0 equals
`MAXIMUM_NUMBER_OF_THREADS`, so the call returns `OsOutOfResource` although entry 0 of
process 0 is `Ready`. -/
theorem osAddForegroundThread_count_guard_counterexample :
    osAddForegroundThread smallCfg 3 countedSmall 0x8001 64 7
        = .ok (.OsOutOfResource, countedSmall) ∧
      ∃ tcb, entry countedSmall 0 0 = some tcb ∧ tcb.Status = .Ready := by
  refine ⟨by decide, ⟨_, rfl, rfl⟩⟩

theorem wellFormed_shape {cfg : Config} {s : PcbTable} (hwf : WellFormed cfg s)
    (p : Nat) (pcb : PROCESS_CONTROL_BLOCK) (h : s[p]? = some pcb) :
    pcb.Tcbs.length = cfg.MAXIMUM_NUMBER_OF_THREADS :=
  (hwf.2 pcb (List.mem_iff_getElem?.mpr ⟨p, h⟩)).1

/-- The call returns on a well-formed table when the capacity fits the 8-bit counter and the
stack slots are in range. -/
theorem osAdd_returns (cfg : Config) (fuel : Nat) (s : PcbTable)
    (Thread StackSize Priority : Nat) (pcb : PROCESS_CONTROL_BLOCK)
    (hwf : WellFormed cfg s) (h0 : s[0]? = some pcb)
    (h255 : cfg.MAXIMUM_NUMBER_OF_THREADS ≤ 255)
    (hfuel : cfg.MAXIMUM_NUMBER_OF_THREADS < fuel)
    (hslots : SlotsInRange cfg pcb.DataSection cfg.STACK_SIZE) :
    ∃ r, osAddForegroundThread cfg fuel s Thread StackSize Priority = .ok r := by
  have hmem : pcb ∈ s := List.mem_iff_getElem?.mpr ⟨0, h0⟩
  obtain ⟨hlen, hstk⟩ := hwf.2 pcb hmem
  unfold osAddForegroundThread readPcb
  rw [h0]
  simp only [Exec.bind_ok]
  by_cases hn : pcb.NumberOfThreads = cfg.MAXIMUM_NUMBER_OF_THREADS
  · rw [if_pos hn]
    exact ⟨_, rfl⟩
  · rw [if_neg hn]
    apply scan_returns h0 h255 (le_of_eq hlen.symm)
    · intro tcb htcb
      rw [hstk tcb htcb]
      exact hslots
    · omega

/-- C1 (amended): on a well-formed table whose process 0 is `pcb`, with
`MAXIMUM_NUMBER_OF_THREADS ≤ 255` and the written stack slots in range, the call returns;
it returns `OsOutOfResource` exactly when `Pcbs[0].NumberOfThreads` equals
`MAXIMUM_NUMBER_OF_THREADS` or no thread entry of process 0 is `Ready`, and `OsSuccess`
otherwise. -/
theorem osAddForegroundThread_status_iff (cfg : Config) (fuel : Nat) (s : PcbTable)
    (Thread StackSize Priority : Nat) (pcb : PROCESS_CONTROL_BLOCK)
    (hwf : WellFormed cfg s) (h0 : s[0]? = some pcb)
    (h255 : cfg.MAXIMUM_NUMBER_OF_THREADS ≤ 255)
    (hfuel : cfg.MAXIMUM_NUMBER_OF_THREADS < fuel)
    (hslots : SlotsInRange cfg pcb.DataSection cfg.STACK_SIZE) :
    ∃ st s1, osAddForegroundThread cfg fuel s Thread StackSize Priority = .ok (st, s1) ∧
      (st = .OsOutOfResource ↔
        (pcb.NumberOfThreads = cfg.MAXIMUM_NUMBER_OF_THREADS ∨
          ∀ tcb ∈ pcb.Tcbs, tcb.Status ≠ .Ready)) ∧
      (st = .OsSuccess ↔
        ¬ (pcb.NumberOfThreads = cfg.MAXIMUM_NUMBER_OF_THREADS ∨
          ∀ tcb ∈ pcb.Tcbs, tcb.Status ≠ .Ready)) := by
  obtain ⟨⟨st, s1⟩, hr⟩ :=
    osAdd_returns cfg fuel s Thread StackSize Priority pcb hwf h0 h255 hfuel hslots
  refine ⟨st, s1, hr, ?_⟩
  cases st with
  | OsSuccess =>
    obtain ⟨T, pcb1, tcb, tcb1, _, hp, hn, ht, hrdy, _, _, _⟩ := osAdd_eq_success hr
    rw [h0] at hp
    cases hp
    have hnot : ¬ (pcb.NumberOfThreads = cfg.MAXIMUM_NUMBER_OF_THREADS ∨
        ∀ tcb ∈ pcb.Tcbs, tcb.Status ≠ .Ready) := by
      rintro (h | h)
      · exact hn h
      · exact h tcb (List.mem_iff_getElem?.mpr ⟨T, ht⟩) hrdy
    simp [hnot]
  | OsOutOfResource =>
    obtain ⟨_, pcb1, hp, hcase⟩ := osAdd_eq_outOfResource hr
    rw [h0] at hp
    cases hp
    have hlen := wellFormed_shape hwf 0 pcb h0
    have hyes : pcb.NumberOfThreads = cfg.MAXIMUM_NUMBER_OF_THREADS ∨
        ∀ tcb ∈ pcb.Tcbs, tcb.Status ≠ .Ready := by
      rcases hcase with h | h
      · exact Or.inl h
      · right
        intro tcb htcb
        obtain ⟨n, hn⟩ := List.mem_iff_getElem?.mp htcb
        have hnlt : n < pcb.Tcbs.length := (List.getElem?_eq_some.mp hn).1
        exact h n (by omega) tcb (entry_eq_some.mpr ⟨pcb, h0, hn⟩)
    simp [hyes]

/-- Instance of C1 (amended) on `admittedSmall`, where entry 1 is still `Ready`. -/
theorem osAddForegroundThread_status_iff_witness :
    WellFormed smallCfg admittedSmall ∧
    ∃ st s1, osAddForegroundThread smallCfg 3 admittedSmall 0x8005 64 9 = .ok (st, s1) ∧
      (st = .OsOutOfResource ↔
        (admittedSmallPcb.NumberOfThreads = smallCfg.MAXIMUM_NUMBER_OF_THREADS ∨
          ∀ tcb ∈ admittedSmallPcb.Tcbs, tcb.Status ≠ .Ready)) ∧
      (st = .OsSuccess ↔
        ¬ (admittedSmallPcb.NumberOfThreads = smallCfg.MAXIMUM_NUMBER_OF_THREADS ∨
          ∀ tcb ∈ admittedSmallPcb.Tcbs, tcb.Status ≠ .Ready)) :=
  ⟨by decide,
    osAddForegroundThread_status_iff smallCfg 3 admittedSmall 0x8005 64 9
      admittedSmallPcb (by decide) rfl (by decide) (by decide) (by decide)⟩

/-- C2: whenever the call returns `OsOutOfResource`, on the early-return path as well as
after a scan that found no `Ready` entry, the table after the call is the table before it. -/
theorem osAddForegroundThread_outOfResource_unchanged (cfg : Config) (fuel : Nat)
    (s s1 : PcbTable) (Thread StackSize Priority : Nat)
    (h : osAddForegroundThread cfg fuel s Thread StackSize Priority
      = .ok (.OsOutOfResource, s1)) :
    s1 = s :=
  (osAdd_eq_outOfResource h).1

/-- Instance of C2 on `fullSmall`, where the scan finds no `Ready` entry. -/
theorem osAddForegroundThread_outOfResource_unchanged_witness :
    osAddForegroundThread smallCfg 3 fullSmall 0x8009 64 3
        = .ok (.OsOutOfResource, fullSmall) ∧ fullSmall = fullSmall :=
  ⟨by decide,
    osAddForegroundThread_outOfResource_unchanged smallCfg 3 fullSmall fullSmall 0x8009 64 3
      (by decide)⟩

/-! ## Admission: the admitted entry (C3, C4) -/

/-- C3: when the call returns `OsSuccess` there is an index `Tid` below
`MAXIMUM_NUMBER_OF_THREADS` whose entry of process 0 is `Ready` before the call while no
entry of process 0 with a smaller index is; after the call that entry is `Running` and its
priority is the supplied one. -/
theorem osAddForegroundThread_admits_lowest_ready (cfg : Config) (fuel : Nat)
    (s s1 : PcbTable) (Thread StackSize Priority : Nat)
    (h : osAddForegroundThread cfg fuel s Thread StackSize Priority = .ok (.OsSuccess, s1)) :
    ∃ Tid tcb tcb1, Tid < cfg.MAXIMUM_NUMBER_OF_THREADS ∧
      entry s 0 Tid = some tcb ∧ tcb.Status = .Ready ∧ NoReadyBelow s 0 Tid ∧
      entry s1 0 Tid = some tcb1 ∧ tcb1.Status = .Running ∧ tcb1.Priority = Priority := by
  obtain ⟨T, pcb, tcb, tcb1, hT, hp, _, ht, hrdy, hlow, hadm, hs1⟩ := osAdd_eq_success h
  obtain ⟨_, htcb1⟩ := admitTcb_eq_ok.mp hadm
  refine ⟨T, tcb, tcb1, hT, entry_eq_some.mpr ⟨pcb, hp, ht⟩, hrdy, hlow, ?_, ?_, ?_⟩
  · rw [hs1]
    exact entry_put_self hp ht tcb1
  · rw [htcb1]
  · rw [htcb1]

/-- Instance of C3: the first admission on the booted table of `smallCfg`. -/
theorem osAddForegroundThread_admits_lowest_ready_witness :
    ∃ Tid tcb tcb1, Tid < smallCfg.MAXIMUM_NUMBER_OF_THREADS ∧
      entry bootedSmall 0 Tid = some tcb ∧ tcb.Status = .Ready ∧
      NoReadyBelow bootedSmall 0 Tid ∧
      entry admittedSmall 0 Tid = some tcb1 ∧ tcb1.Status = .Running ∧ tcb1.Priority = 7 :=
  osAddForegroundThread_admits_lowest_ready smallCfg 3 bootedSmall admittedSmall 0x8001 64 7
    (by decide)

/-- C4: when the call returns `OsSuccess`, the table after the call is the table before it
with one thread entry of process 0 replaced: that entry goes from `Ready` to `Running` and
keeps its `ThreadId`; every other thread entry of every process is unchanged, and every
process keeps its `ProcessId`, `NumberOfThreads`, `DataSection` and number of thread
entries. -/
theorem osAddForegroundThread_success_frame (cfg : Config) (fuel : Nat)
    (s s1 : PcbTable) (Thread StackSize Priority : Nat)
    (h : osAddForegroundThread cfg fuel s Thread StackSize Priority = .ok (.OsSuccess, s1)) :
    ∃ Tid pcb tcb tcb1, Tid < cfg.MAXIMUM_NUMBER_OF_THREADS ∧
      s[0]? = some pcb ∧ pcb.Tcbs[Tid]? = some tcb ∧
      s1 = s.set 0 { pcb with Tcbs := pcb.Tcbs.set Tid tcb1 } ∧
      entry s 0 Tid = some tcb ∧ entry s1 0 Tid = some tcb1 ∧
      tcb.Status = .Ready ∧ tcb1.Status = .Running ∧ tcb1.ThreadId = tcb.ThreadId ∧
      (∀ p t, (p ≠ 0 ∨ t ≠ Tid) → entry s1 p t = entry s p t) ∧
      s1.length = s.length ∧
      (∀ (p : Nat) (q1 : PROCESS_CONTROL_BLOCK), s1[p]? = some q1 → ∃ q, s[p]? = some q ∧ q1.ProcessId = q.ProcessId ∧
        q1.NumberOfThreads = q.NumberOfThreads ∧ q1.DataSection = q.DataSection ∧
        q1.Tcbs.length = q.Tcbs.length) := by
  obtain ⟨T, pcb, tcb, tcb1, hT, hp, _, ht, hrdy, _, hadm, hs1⟩ := osAdd_eq_success h
  obtain ⟨_, htcb1⟩ := admitTcb_eq_ok.mp hadm
  have hlt : 0 < s.length := (List.getElem?_eq_some.mp hp).1
  refine ⟨T, pcb, tcb, tcb1, hT, hp, ht, hs1, entry_eq_some.mpr ⟨pcb, hp, ht⟩, ?_, hrdy,
    ?_, ?_, ?_, ?_, ?_⟩
  · rw [hs1]
    exact entry_put_self hp ht tcb1
  · rw [htcb1]
  · rw [htcb1]
  · intro p t hne
    rw [hs1]
    exact entry_put_other hp tcb1 p t hne
  · rw [hs1]
    simp [put]
  · intro p q1 hq1
    rw [hs1] at hq1
    by_cases hp0 : p = 0
    · subst hp0
      rw [put_getElem? hp] at hq1
      cases hq1
      exact ⟨pcb, hp, rfl, rfl, rfl, by simp⟩
    · unfold put at hq1
      rw [List.getElem?_set_ne (Ne.symm hp0)] at hq1
      exact ⟨q1, hq1, rfl, rfl, rfl, rfl⟩

/-- Instance of C4: on the booted table of `smallCfg` exactly entry 0 of process 0 goes from
`Ready` to `Running`. -/
theorem osAddForegroundThread_success_frame_witness :
    ∃ Tid pcb tcb tcb1, Tid < smallCfg.MAXIMUM_NUMBER_OF_THREADS ∧
      bootedSmall[0]? = some pcb ∧ pcb.Tcbs[Tid]? = some tcb ∧
      admittedSmall = bootedSmall.set 0 { pcb with Tcbs := pcb.Tcbs.set Tid tcb1 } ∧
      entry bootedSmall 0 Tid = some tcb ∧ entry admittedSmall 0 Tid = some tcb1 ∧
      tcb.Status = .Ready ∧ tcb1.Status = .Running ∧ tcb1.ThreadId = tcb.ThreadId ∧
      (∀ p t, (p ≠ 0 ∨ t ≠ Tid) → entry admittedSmall p t = entry bootedSmall p t) ∧
      admittedSmall.length = bootedSmall.length ∧
      (∀ (p : Nat) (q1 : PROCESS_CONTROL_BLOCK), admittedSmall[p]? = some q1 →
        ∃ q, bootedSmall[p]? = some q ∧
        q1.ProcessId = q.ProcessId ∧ q1.NumberOfThreads = q.NumberOfThreads ∧
        q1.DataSection = q.DataSection ∧ q1.Tcbs.length = q.Tcbs.length) :=
  osAddForegroundThread_success_frame smallCfg 3 bootedSmall admittedSmall 0x8001 64 7
    (by decide)

/-! ## Admission: the stack frame (C5, C6) -/

theorem admittedStack_pc {cfg : Config} {D : Nat} (Thread : Nat) {mem : List Nat}
    (hR9 : D = 0 ∨ cfg.STACK_LOCATION_R9 ≠ cfg.STACK_LOCATION_PC)
    (hlt : cfg.STACK_LOCATION_PC < mem.length) :
    (admittedStack cfg D Thread mem)[cfg.STACK_LOCATION_PC]? = some (toUint32 Thread) := by
  unfold admittedStack
  by_cases hD : D = 0
  · simp [hD, List.getElem?_set, hlt]
  · have hne : cfg.STACK_LOCATION_R9 ≠ cfg.STACK_LOCATION_PC := hR9.resolve_left hD
    simp [hD, List.getElem?_set, hlt, hne]

theorem admittedStack_psr {cfg : Config} {D : Nat} (Thread : Nat) {mem : List Nat}
    (h1 : cfg.STACK_LOCATION_PSR ≠ cfg.STACK_LOCATION_PC)
    (h2 : cfg.STACK_LOCATION_PSR ≠ cfg.END_OF_STACK)
    (hR9 : D = 0 ∨ cfg.STACK_LOCATION_R9 ≠ cfg.STACK_LOCATION_PSR)
    (hlt : cfg.STACK_LOCATION_PSR < mem.length) :
    (admittedStack cfg D Thread mem)[cfg.STACK_LOCATION_PSR]?
      = some cfg.DEFAULT_STACK_PSR_VALUE := by
  unfold admittedStack
  by_cases hD : D = 0
  · simp [hD, List.getElem?_set, hlt, Ne.symm h1, Ne.symm h2]
  · have hne : cfg.STACK_LOCATION_R9 ≠ cfg.STACK_LOCATION_PSR := hR9.resolve_left hD
    simp [hD, List.getElem?_set, hlt, hne, Ne.symm h1, Ne.symm h2]

theorem admittedStack_end {cfg : Config} {D : Nat} (Thread : Nat) {mem : List Nat}
    (h1 : cfg.STACK_LOCATION_PC ≠ cfg.END_OF_STACK)
    (hR9 : D = 0 ∨ cfg.STACK_LOCATION_R9 ≠ cfg.END_OF_STACK)
    (hlt : cfg.END_OF_STACK < mem.length) :
    (admittedStack cfg D Thread mem)[cfg.END_OF_STACK]? = some 0x12345678 := by
  unfold admittedStack
  by_cases hD : D = 0
  · simp [hD, List.getElem?_set, hlt, h1]
  · have hne : cfg.STACK_LOCATION_R9 ≠ cfg.END_OF_STACK := hR9.resolve_left hD
    simp [hD, List.getElem?_set, hlt, hne, h1]

theorem admittedStack_r9 {cfg : Config} {D : Nat} (Thread : Nat) {mem : List Nat}
    (hD : D ≠ 0) (hlt : cfg.STACK_LOCATION_R9 < mem.length) :
    (admittedStack cfg D Thread mem)[cfg.STACK_LOCATION_R9]? = some (toUint32 D) := by
  unfold admittedStack
  simp [hD, List.getElem?_set, hlt]

/-- C5: when the call with entry point `E` returns `OsSuccess`, process 0 has a null
`DataSection`, and the slot indices `STACK_LOCATION_PSR`, `STACK_LOCATION_PC` and
`END_OF_STACK` are pairwise distinct (a successful return implies they are inside
`StackMem`), the admitted entry, which is the lowest-indexed `Ready` one, holds after the
call: `E` as a 32-bit word in the program-counter slot, `DEFAULT_STACK_PSR_VALUE` in the
status slot, `0x12345678` in the sentinel slot, and a stack pointer to
`StackMem[INITIAL_STACK_POINTER]`. -/
theorem osAddForegroundThread_frame_null_data (cfg : Config) (fuel : Nat)
    (s s1 : PcbTable) (E StackSize Priority : Nat) (pcb : PROCESS_CONTROL_BLOCK)
    (h : osAddForegroundThread cfg fuel s E StackSize Priority = .ok (.OsSuccess, s1))
    (h0 : s[0]? = some pcb) (hD : pcb.DataSection = 0)
    (h1 : cfg.STACK_LOCATION_PSR ≠ cfg.STACK_LOCATION_PC)
    (h2 : cfg.STACK_LOCATION_PSR ≠ cfg.END_OF_STACK)
    (h3 : cfg.STACK_LOCATION_PC ≠ cfg.END_OF_STACK) :
    ∃ Tid tcb tcb1, Tid < cfg.MAXIMUM_NUMBER_OF_THREADS ∧
      entry s 0 Tid = some tcb ∧ tcb.Status = .Ready ∧ NoReadyBelow s 0 Tid ∧
      entry s1 0 Tid = some tcb1 ∧
      tcb1.StackMem[cfg.STACK_LOCATION_PC]? = some (toUint32 E) ∧
      tcb1.StackMem[cfg.STACK_LOCATION_PSR]? = some cfg.DEFAULT_STACK_PSR_VALUE ∧
      tcb1.StackMem[cfg.END_OF_STACK]? = some 0x12345678 ∧
      tcb1.StackPointer = some cfg.INITIAL_STACK_POINTER := by
  obtain ⟨T, pcb1, tcb, tcb1, hT, hp, _, ht, hrdy, hlow, hadm, hs1⟩ := osAdd_eq_success h
  rw [h0] at hp
  cases hp
  obtain ⟨⟨_, hpsr, hend, hpc, _⟩, htcb1⟩ := admitTcb_eq_ok.mp hadm
  refine ⟨T, tcb, tcb1, hT, entry_eq_some.mpr ⟨pcb, h0, ht⟩, hrdy, hlow, ?_, ?_, ?_, ?_, ?_⟩
  · rw [hs1]
    exact entry_put_self h0 ht tcb1
  · rw [htcb1]
    exact admittedStack_pc E (Or.inl hD) hpc
  · rw [htcb1]
    exact admittedStack_psr E h1 h2 (Or.inl hD) hpsr
  · rw [htcb1]
    exact admittedStack_end E h3 (Or.inl hD) hend
  · rw [htcb1]

/-- Instance of C5: the first admission on the booted table of `smallCfg`. -/
theorem osAddForegroundThread_frame_null_data_witness :
    ∃ Tid tcb tcb1, Tid < smallCfg.MAXIMUM_NUMBER_OF_THREADS ∧
      entry bootedSmall 0 Tid = some tcb ∧ tcb.Status = .Ready ∧
      NoReadyBelow bootedSmall 0 Tid ∧
      entry admittedSmall 0 Tid = some tcb1 ∧
      tcb1.StackMem[smallCfg.STACK_LOCATION_PC]? = some (toUint32 0x8001) ∧
      tcb1.StackMem[smallCfg.STACK_LOCATION_PSR]? = some smallCfg.DEFAULT_STACK_PSR_VALUE ∧
      tcb1.StackMem[smallCfg.END_OF_STACK]? = some 0x12345678 ∧
      tcb1.StackPointer = some smallCfg.INITIAL_STACK_POINTER :=
  osAddForegroundThread_frame_null_data smallCfg 3 bootedSmall admittedSmall 0x8001 64 7
    bootedSmallPcb (by decide) rfl rfl (by decide) (by decide) (by decide)

/-- C6: when process 0 has the non-null `DataSection` `D` and the call returns `OsSuccess`,
the admitted entry holds the 32-bit value of `D` in the `STACK_LOCATION_R9` slot and its
stack pointer points to `StackMem[INITIAL_STACK_POINTER]`; when moreover the four slot
indices are pairwise distinct, the program-counter, status and sentinel slots hold the
values of C5. -/
theorem osAddForegroundThread_frame_data_section (cfg : Config) (fuel : Nat)
    (s s1 : PcbTable) (E StackSize Priority : Nat) (pcb : PROCESS_CONTROL_BLOCK)
    (h : osAddForegroundThread cfg fuel s E StackSize Priority = .ok (.OsSuccess, s1))
    (h0 : s[0]? = some pcb) (hD : pcb.DataSection ≠ 0) :
    ∃ Tid tcb tcb1, Tid < cfg.MAXIMUM_NUMBER_OF_THREADS ∧
      entry s 0 Tid = some tcb ∧ tcb.Status = .Ready ∧ NoReadyBelow s 0 Tid ∧
      entry s1 0 Tid = some tcb1 ∧
      tcb1.StackMem[cfg.STACK_LOCATION_R9]? = some (toUint32 pcb.DataSection) ∧
      tcb1.StackPointer = some cfg.INITIAL_STACK_POINTER ∧
      (cfg.STACK_LOCATION_PSR ≠ cfg.STACK_LOCATION_PC →
        cfg.STACK_LOCATION_PSR ≠ cfg.END_OF_STACK →
        cfg.STACK_LOCATION_PC ≠ cfg.END_OF_STACK →
        cfg.STACK_LOCATION_R9 ≠ cfg.STACK_LOCATION_PSR →
        cfg.STACK_LOCATION_R9 ≠ cfg.STACK_LOCATION_PC →
        cfg.STACK_LOCATION_R9 ≠ cfg.END_OF_STACK →
        tcb1.StackMem[cfg.STACK_LOCATION_PC]? = some (toUint32 E) ∧
        tcb1.StackMem[cfg.STACK_LOCATION_PSR]? = some cfg.DEFAULT_STACK_PSR_VALUE ∧
        tcb1.StackMem[cfg.END_OF_STACK]? = some 0x12345678) := by
  obtain ⟨T, pcb1, tcb, tcb1, hT, hp, _, ht, hrdy, hlow, hadm, hs1⟩ := osAdd_eq_success h
  rw [h0] at hp
  cases hp
  obtain ⟨⟨_, hpsr, hend, hpc, hr9⟩, htcb1⟩ := admitTcb_eq_ok.mp hadm
  refine ⟨T, tcb, tcb1, hT, entry_eq_some.mpr ⟨pcb, h0, ht⟩, hrdy, hlow, ?_, ?_, ?_, ?_⟩
  · rw [hs1]
    exact entry_put_self h0 ht tcb1
  · rw [htcb1]
    exact admittedStack_r9 E hD (hr9 hD)
  · rw [htcb1]
  · intro h1 h2 h3 h4 h5 h6
    rw [htcb1]
    exact ⟨admittedStack_pc E (Or.inr h5) hpc, admittedStack_psr E h1 h2 (Or.inr h4) hpsr,
      admittedStack_end E h3 (Or.inr h6) hend⟩

/-- Instance of C6: admission into `dataSmall`, whose process 0 has its data section at
`0x20000400`. -/
theorem osAddForegroundThread_frame_data_section_witness :
    ∃ Tid tcb tcb1, Tid < smallCfg.MAXIMUM_NUMBER_OF_THREADS ∧
      entry dataSmall 0 Tid = some tcb ∧ tcb.Status = .Ready ∧ NoReadyBelow dataSmall 0 Tid ∧
      entry admittedData 0 Tid = some tcb1 ∧
      tcb1.StackMem[smallCfg.STACK_LOCATION_R9]? = some (toUint32 dataSmallPcb.DataSection) ∧
      tcb1.StackPointer = some smallCfg.INITIAL_STACK_POINTER ∧
      (smallCfg.STACK_LOCATION_PSR ≠ smallCfg.STACK_LOCATION_PC →
        smallCfg.STACK_LOCATION_PSR ≠ smallCfg.END_OF_STACK →
        smallCfg.STACK_LOCATION_PC ≠ smallCfg.END_OF_STACK →
        smallCfg.STACK_LOCATION_R9 ≠ smallCfg.STACK_LOCATION_PSR →
        smallCfg.STACK_LOCATION_R9 ≠ smallCfg.STACK_LOCATION_PC →
        smallCfg.STACK_LOCATION_R9 ≠ smallCfg.END_OF_STACK →
        tcb1.StackMem[smallCfg.STACK_LOCATION_PC]? = some (toUint32 0x8005) ∧
        tcb1.StackMem[smallCfg.STACK_LOCATION_PSR]?
          = some smallCfg.DEFAULT_STACK_PSR_VALUE ∧
        tcb1.StackMem[smallCfg.END_OF_STACK]? = some 0x12345678) :=
  osAddForegroundThread_frame_data_section smallCfg 3 dataSmall admittedData 0x8005 64 9
    dataSmallPcb (by decide) rfl (by decide)

/-! ## Admission: the `StackSize` argument (C10) -/

/-- C10: the `StackSize` argument is ignored: two calls that differ only in `StackSize`
return the same status and produce the same table (and fail alike). -/
theorem osAddForegroundThread_ignores_stackSize (cfg : Config) (fuel : Nat) (s : PcbTable)
    (Thread Priority StackSize1 StackSize2 : Nat) :
    osAddForegroundThread cfg fuel s Thread StackSize1 Priority
      = osAddForegroundThread cfg fuel s Thread StackSize2 Priority :=
  rfl

/-! ## `pcbAndTcbInit`: closed form -/

theorem set_eq_self {α : Type} {l : List α} {i : Nat} {a : α} (h : l[i]? = some a) :
    l.set i a = l := by
  apply List.ext_getElem?
  intro n
  rw [List.getElem?_set]
  by_cases hn : i = n
  · subst hn
    have hlt : i < l.length := (List.getElem?_eq_some.mp h).1
    simp [hlt, h]
  · simp [hn]

theorem setThreadIdsFrom_length (k : Nat) (Tcbs : List THREAD_CONTROL_BLOCK) :
    (setThreadIdsFrom k Tcbs).length = Tcbs.length := by
  unfold setThreadIdsFrom
  simp

theorem setThreadIdsFrom_of_length_le {k : Nat} {Tcbs : List THREAD_CONTROL_BLOCK}
    (h : Tcbs.length ≤ k) : setThreadIdsFrom k Tcbs = Tcbs := by
  apply List.ext_getElem?
  intro n
  unfold setThreadIdsFrom
  rw [List.getElem?_mapIdx]
  cases hn : Tcbs[n]? with
  | none => rfl
  | some x =>
    have hlt : n < Tcbs.length := (List.getElem?_eq_some.mp hn).1
    have hk : ¬ k ≤ n := by omega
    simp [hk]

theorem setThreadIdsFrom_step {k : Nat} {Tcbs : List THREAD_CONTROL_BLOCK}
    {tcb : THREAD_CONTROL_BLOCK} (h : Tcbs[k]? = some tcb) :
    setThreadIdsFrom (k + 1) (Tcbs.set k { tcb with ThreadId := k })
      = setThreadIdsFrom k Tcbs := by
  have hlt : k < Tcbs.length := (List.getElem?_eq_some.mp h).1
  apply List.ext_getElem?
  intro n
  unfold setThreadIdsFrom
  rw [List.getElem?_mapIdx, List.getElem?_mapIdx, List.getElem?_set]
  by_cases hn : k = n
  · subst hn
    simp [hlt, h]
  · simp only [hn, if_false]
    cases Tcbs[n]? with
    | none => rfl
    | some x =>
      by_cases hkn : k ≤ n
      · have h1 : k + 1 ≤ n := by omega
        simp [hkn, h1]
      · have h1 : ¬ k + 1 ≤ n := by omega
        simp [hkn, h1]

/-- The inner loop of `pcbAndTcbInit`, when the capacity fits the 8-bit counter: it sets the
identifiers of the entries from `Tid` on. -/
theorem threadLoop_eq {cfg : Config} {Pid : Nat}
    (h255 : cfg.MAXIMUM_NUMBER_OF_THREADS ≤ 255) :
    ∀ (fuel Tid : Nat) (s : PcbTable) (pcb : PROCESS_CONTROL_BLOCK),
      s[Pid]? = some pcb → pcb.Tcbs.length = cfg.MAXIMUM_NUMBER_OF_THREADS →
      Tid ≤ cfg.MAXIMUM_NUMBER_OF_THREADS → cfg.MAXIMUM_NUMBER_OF_THREADS - Tid < fuel →
      pcbAndTcbInit.threadLoop cfg Pid fuel Tid s
        = .ok (s.set Pid { pcb with Tcbs := setThreadIdsFrom Tid pcb.Tcbs }) := by
  intro fuel
  induction fuel with
  | zero =>
    intro Tid s pcb _ _ _ h
    omega
  | succ n ih =>
    intro Tid s pcb hp hlen hle hfuel
    unfold pcbAndTcbInit.threadLoop
    by_cases hlt : Tid < cfg.MAXIMUM_NUMBER_OF_THREADS
    · rw [if_pos hlt]
      have hT : Tid < pcb.Tcbs.length := by omega
      have ht : pcb.Tcbs[Tid]? = some pcb.Tcbs[Tid] := List.getElem?_eq_getElem hT
      rw [modifyTcb_of_entry hp ht, Exec.bind_ok, Exec.bind_ok, incUint8_of_lt (by omega)]
      rw [ih (Tid + 1) _ _ (put_getElem? hp Tid _) (by simpa using hlen) (by omega)
        (by omega)]
      simp only [put, List.set_set, setThreadIdsFrom_step ht]
    · rw [if_neg hlt]
      have hge : pcb.Tcbs.length ≤ Tid := by omega
      rw [setThreadIdsFrom_of_length_le hge]
      rw [set_eq_self hp]

theorem setIdsFrom_length (k : Nat) (s : PcbTable) : (setIdsFrom k s).length = s.length := by
  unfold setIdsFrom
  simp

theorem setIdsFrom_of_length_le {k : Nat} {s : PcbTable} (h : s.length ≤ k) :
    setIdsFrom k s = s := by
  apply List.ext_getElem?
  intro n
  unfold setIdsFrom
  rw [List.getElem?_mapIdx]
  cases hn : s[n]? with
  | none => rfl
  | some x =>
    have hlt : n < s.length := (List.getElem?_eq_some.mp hn).1
    have hk : ¬ k ≤ n := by omega
    simp [hk]

theorem setIdsFrom_step {k : Nat} {s : PcbTable} {pcb : PROCESS_CONTROL_BLOCK}
    (h : s[k]? = some pcb) :
    setIdsFrom (k + 1)
        (s.set k { pcb with ProcessId := k, Tcbs := setThreadIdsFrom 0 pcb.Tcbs })
      = setIdsFrom k s := by
  have hlt : k < s.length := (List.getElem?_eq_some.mp h).1
  apply List.ext_getElem?
  intro n
  unfold setIdsFrom
  rw [List.getElem?_mapIdx, List.getElem?_mapIdx, List.getElem?_set]
  by_cases hn : k = n
  · subst hn
    simp [hlt, h]
  · simp only [hn, if_false]
    cases s[n]? with
    | none => rfl
    | some x =>
      by_cases hkn : k ≤ n
      · have h1 : k + 1 ≤ n := by omega
        simp [hkn, h1]
      · have h1 : ¬ k + 1 ≤ n := by omega
        simp [hkn, h1]

/-- The outer loop of `pcbAndTcbInit`, when both capacities fit the 8-bit counters: it sets
the identifiers of the processes from `Pid` on and of all their threads. -/
theorem processLoop_eq {cfg : Config} {bound : Nat}
    (hP : cfg.MAXIMUM_NUMBER_OF_PROCESSES ≤ 255) (hT : cfg.MAXIMUM_NUMBER_OF_THREADS ≤ 255)
    (hbound : cfg.MAXIMUM_NUMBER_OF_THREADS < bound) :
    ∀ (fuel Pid : Nat) (s : PcbTable),
      s.length = cfg.MAXIMUM_NUMBER_OF_PROCESSES →
      (∀ (p : Nat) (pcb : PROCESS_CONTROL_BLOCK), s[p]? = some pcb →
        pcb.Tcbs.length = cfg.MAXIMUM_NUMBER_OF_THREADS) →
      Pid ≤ cfg.MAXIMUM_NUMBER_OF_PROCESSES → cfg.MAXIMUM_NUMBER_OF_PROCESSES - Pid < fuel →
      pcbAndTcbInit.processLoop cfg bound fuel Pid s = .ok (setIdsFrom Pid s) := by
  intro fuel
  induction fuel with
  | zero =>
    intro Pid s _ _ _ h
    omega
  | succ n ih =>
    intro Pid s hlen hshape hle hfuel
    unfold pcbAndTcbInit.processLoop
    by_cases hlt : Pid < cfg.MAXIMUM_NUMBER_OF_PROCESSES
    · rw [if_pos hlt]
      have hPl : Pid < s.length := by omega
      have hp : s[Pid]? = some s[Pid] := List.getElem?_eq_getElem hPl
      have hp1 : (s.set Pid { s[Pid] with ProcessId := Pid })[Pid]?
          = some { s[Pid] with ProcessId := Pid } := by
        simp [List.getElem?_set, hPl]
      unfold modifyPcb
      rw [hp]
      simp only [Exec.bind_ok]
      rw [threadLoop_eq hT bound 0 _ _ hp1 (hshape Pid s[Pid] hp) (Nat.zero_le _) (by omega)]
      simp only [Exec.bind_ok, List.set_set]
      rw [incUint8_of_lt (by omega)]
      rw [ih (Pid + 1) _ (by simpa using hlen) ?_ (by omega) (by omega)]
      · rw [setIdsFrom_step hp]
      · intro p pcb hpcb
        rw [List.getElem?_set] at hpcb
        by_cases hpp : Pid = p
        · subst hpp
          simp only [hPl, if_true, Option.some.injEq] at hpcb
          rw [← hpcb]
          simp only [setThreadIdsFrom_length]
          exact hshape Pid _ hp
        · simp only [hpp, if_false] at hpcb
          exact hshape p pcb hpcb
    · rw [if_neg hlt]
      rw [setIdsFrom_of_length_le (by omega)]

/-- With both capacities at most 255 and enough iterations allowed, `pcbAndTcbInit` returns
the table with every identifier set to its index. -/
theorem pcbAndTcbInit_eq {cfg : Config} {fuel : Nat} {s : PcbTable}
    (hwf : WellFormed cfg s)
    (hP : cfg.MAXIMUM_NUMBER_OF_PROCESSES ≤ 255) (hT : cfg.MAXIMUM_NUMBER_OF_THREADS ≤ 255)
    (hfP : cfg.MAXIMUM_NUMBER_OF_PROCESSES < fuel)
    (hfT : cfg.MAXIMUM_NUMBER_OF_THREADS < fuel) :
    pcbAndTcbInit cfg fuel s = .ok (setIdsFrom 0 s) := by
  unfold pcbAndTcbInit
  exact processLoop_eq hP hT hfT fuel 0 s hwf.1 (wellFormed_shape hwf) (Nat.zero_le _)
    (by omega)

theorem setThreadIdsFrom_zero_getElem? (Tcbs : List THREAD_CONTROL_BLOCK) (t : Nat) :
    (setThreadIdsFrom 0 Tcbs)[t]? = Tcbs[t]?.map fun Tcb => { Tcb with ThreadId := t } := by
  unfold setThreadIdsFrom
  rw [List.getElem?_mapIdx]
  simp

theorem setIdsFrom_zero_getElem? (s : PcbTable) (p : Nat) :
    (setIdsFrom 0 s)[p]?
      = s[p]?.map fun Pcb =>
          { Pcb with ProcessId := p, Tcbs := setThreadIdsFrom 0 Pcb.Tcbs } := by
  unfold setIdsFrom
  rw [List.getElem?_mapIdx]
  simp

/-! ## `pcbAndTcbInit`: what it leaves alone -/

theorem modifyTcb_eq_ok {s s1 : PcbTable} {Pid Tid : Nat}
    {f : THREAD_CONTROL_BLOCK → Exec THREAD_CONTROL_BLOCK}
    (h : modifyTcb s Pid Tid f = .ok s1) :
    ∃ pcb tcb tcb1, s[Pid]? = some pcb ∧ pcb.Tcbs[Tid]? = some tcb ∧ f tcb = .ok tcb1 ∧
      s1 = put s Pid Tid pcb tcb1 := by
  cases hp : s[Pid]? with
  | none =>
    unfold modifyTcb at h
    simp [hp] at h
  | some pcb =>
    cases ht : pcb.Tcbs[Tid]? with
    | none =>
      unfold modifyTcb at h
      simp [hp, ht] at h
    | some tcb =>
      rw [modifyTcb_of_entry hp ht] at h
      obtain ⟨tcb1, h1, h2⟩ := Exec.bind_eq_ok.mp h
      cases h2
      exact ⟨pcb, tcb, tcb1, rfl, ht, h1, rfl⟩

theorem eraseIds_set {s : PcbTable} {Pid : Nat} {pcb pcb1 : PROCESS_CONTROL_BLOCK}
    (hp : s[Pid]? = some pcb) (he : eraseProcessIds pcb1 = eraseProcessIds pcb) :
    eraseIds (s.set Pid pcb1) = eraseIds s := by
  unfold eraseIds
  rw [List.map_set, he]
  apply set_eq_self
  rw [List.getElem?_map, hp]
  rfl

theorem eraseProcessIds_set_threadId {pcb : PROCESS_CONTROL_BLOCK} {Tid : Nat}
    {tcb : THREAD_CONTROL_BLOCK} (ht : pcb.Tcbs[Tid]? = some tcb) (x : Nat) :
    eraseProcessIds { pcb with Tcbs := pcb.Tcbs.set Tid { tcb with ThreadId := x } }
      = eraseProcessIds pcb := by
  unfold eraseProcessIds
  simp only [List.map_set]
  have h : (List.map eraseThreadId pcb.Tcbs).set Tid (eraseThreadId { tcb with ThreadId := x })
      = List.map eraseThreadId pcb.Tcbs := by
    apply set_eq_self
    rw [List.getElem?_map, ht]
    rfl
  rw [h]

theorem threadLoop_eraseIds {cfg : Config} {Pid : Nat} :
    ∀ (fuel Tid : Nat) (s s1 : PcbTable),
      pcbAndTcbInit.threadLoop cfg Pid fuel Tid s = .ok s1 → eraseIds s1 = eraseIds s := by
  intro fuel
  induction fuel with
  | zero =>
    intro Tid s s1 h
    simp [pcbAndTcbInit.threadLoop] at h
  | succ n ih =>
    intro Tid s s1 h
    unfold pcbAndTcbInit.threadLoop at h
    by_cases hlt : Tid < cfg.MAXIMUM_NUMBER_OF_THREADS
    · rw [if_pos hlt] at h
      obtain ⟨s2, h2, h3⟩ := Exec.bind_eq_ok.mp h
      obtain ⟨pcb, tcb, tcb1, hp, ht, hf, hs2⟩ := modifyTcb_eq_ok h2
      cases hf
      rw [ih _ s2 s1 h3, hs2]
      exact eraseIds_set hp (eraseProcessIds_set_threadId ht Tid)
    · rw [if_neg hlt] at h
      cases h
      rfl

theorem processLoop_eraseIds {cfg : Config} {bound : Nat} :
    ∀ (fuel Pid : Nat) (s s1 : PcbTable),
      pcbAndTcbInit.processLoop cfg bound fuel Pid s = .ok s1 →
      eraseIds s1 = eraseIds s := by
  intro fuel
  induction fuel with
  | zero =>
    intro Pid s s1 h
    simp [pcbAndTcbInit.processLoop] at h
  | succ n ih =>
    intro Pid s s1 h
    unfold pcbAndTcbInit.processLoop at h
    by_cases hlt : Pid < cfg.MAXIMUM_NUMBER_OF_PROCESSES
    · rw [if_pos hlt] at h
      obtain ⟨s2, h2, h⟩ := Exec.bind_eq_ok.mp h
      obtain ⟨s3, h3, h4⟩ := Exec.bind_eq_ok.mp h
      rw [ih _ s3 s1 h4, threadLoop_eraseIds _ _ s2 s3 h3]
      unfold modifyPcb at h2
      cases hp : s[Pid]? with
      | none => simp [hp] at h2
      | some pcb =>
        simp only [hp, Exec.ok.injEq] at h2
        rw [← h2]
        exact eraseIds_set hp rfl
    · rw [if_neg hlt] at h
      cases h
      rfl

/-- Whatever `pcbAndTcbInit` returns differs from the table it was given in identifiers
only. -/
theorem pcbAndTcbInit_eraseIds {cfg : Config} {fuel : Nat} {s s1 : PcbTable}
    (h : pcbAndTcbInit cfg fuel s = .ok s1) : eraseIds s1 = eraseIds s :=
  processLoop_eraseIds fuel 0 s s1 h

/-- Two tables that agree up to identifiers have the same shape and agree on every other
field. -/
theorem fields_of_eraseIds_eq {s s1 : PcbTable} (h : eraseIds s1 = eraseIds s) :
    s1.length = s.length ∧
    ∀ (p : Nat) (pcb1 : PROCESS_CONTROL_BLOCK), s1[p]? = some pcb1 →
      ∃ pcb, s[p]? = some pcb ∧ pcb1.NumberOfThreads = pcb.NumberOfThreads ∧
        pcb1.DataSection = pcb.DataSection ∧ pcb1.Tcbs.length = pcb.Tcbs.length ∧
        ∀ (t : Nat) (tcb1 : THREAD_CONTROL_BLOCK), pcb1.Tcbs[t]? = some tcb1 →
          ∃ tcb, pcb.Tcbs[t]? = some tcb ∧ tcb1.Status = tcb.Status ∧
            tcb1.Priority = tcb.Priority ∧ tcb1.StackPointer = tcb.StackPointer ∧
            tcb1.StackMem = tcb.StackMem := by
  constructor
  · have := congrArg List.length h
    simpa [eraseIds] using this
  · intro p pcb1 hp1
    have hp := congrArg (fun l => l[p]?) h
    simp only [eraseIds, List.getElem?_map, hp1, Option.map_some'] at hp
    cases hs : s[p]? with
    | none => simp [hs] at hp
    | some pcb =>
      simp only [hs, Option.map_some', Option.some.injEq] at hp
      have hN : pcb1.NumberOfThreads = pcb.NumberOfThreads := by
        have := congrArg PROCESS_CONTROL_BLOCK.NumberOfThreads hp
        exact this
      have hD : pcb1.DataSection = pcb.DataSection := by
        have := congrArg PROCESS_CONTROL_BLOCK.DataSection hp
        exact this
      have hT : pcb1.Tcbs.map eraseThreadId = pcb.Tcbs.map eraseThreadId := by
        have := congrArg PROCESS_CONTROL_BLOCK.Tcbs hp
        exact this
      refine ⟨pcb, rfl, hN, hD, ?_, ?_⟩
      · have := congrArg List.length hT
        simpa using this
      · intro t tcb1 ht1
        have ht := congrArg (fun l => l[t]?) hT
        simp only [List.getElem?_map, ht1, Option.map_some'] at ht
        cases hs2 : pcb.Tcbs[t]? with
        | none => simp [hs2] at ht
        | some tcb =>
          simp only [hs2, Option.map_some', Option.some.injEq] at ht
          have e1 := congrArg THREAD_CONTROL_BLOCK.Status ht
          have e2 := congrArg THREAD_CONTROL_BLOCK.Priority ht
          have e3 := congrArg THREAD_CONTROL_BLOCK.StackPointer ht
          have e4 := congrArg THREAD_CONTROL_BLOCK.StackMem ht
          exact ⟨tcb, rfl, e1, e2, e3, e4⟩

theorem wellFormed_of_eraseIds_eq {cfg : Config} {s s1 : PcbTable}
    (h : eraseIds s1 = eraseIds s) (hwf : WellFormed cfg s) : WellFormed cfg s1 := by
  obtain ⟨hlen, hf⟩ := fields_of_eraseIds_eq h
  refine ⟨hlen.trans hwf.1, ?_⟩
  intro pcb1 hmem1
  obtain ⟨p, hp1⟩ := List.mem_iff_getElem?.mp hmem1
  obtain ⟨pcb, hp, _, _, hl, ht⟩ := hf p pcb1 hp1
  obtain ⟨hl0, hstk⟩ := hwf.2 pcb (List.mem_iff_getElem?.mpr ⟨p, hp⟩)
  refine ⟨hl.trans hl0, ?_⟩
  intro tcb1 htm1
  obtain ⟨t, ht1⟩ := List.mem_iff_getElem?.mp htm1
  obtain ⟨tcb, htcb, _, _, _, hmem⟩ := ht t tcb1 ht1
  rw [hmem]
  exact hstk tcb (List.mem_iff_getElem?.mpr ⟨t, htcb⟩)

theorem wellFormed_Pcbs (cfg : Config) : WellFormed cfg (Pcbs cfg) := by
  refine ⟨by simp [Pcbs], ?_⟩
  intro pcb hmem
  have hpcb : pcb = zeroPcb cfg := (List.mem_replicate.mp hmem).2
  subst hpcb
  refine ⟨by simp [zeroPcb], ?_⟩
  intro tcb htm
  have htcb : tcb = zeroTcb cfg := (List.mem_replicate.mp htm).2
  subst htcb
  simp [zeroTcb]

/-! ## Bootstrap of the table (C8, C9) -/

/-- C8: for every well-formed prior table, with both capacities at most 255 (and the loops
allowed more iterations than the capacities), `pcbAndTcbInit` returns, and in the table it
returns every process index `p < MAXIMUM_NUMBER_OF_PROCESSES` has `Pcbs[p].ProcessId = p`
and every thread index `t < MAXIMUM_NUMBER_OF_THREADS` has `Pcbs[p].Tcbs[t].ThreadId = t`. -/
theorem pcbAndTcbInit_identifiers (cfg : Config) (fuel : Nat) (s : PcbTable)
    (hwf : WellFormed cfg s)
    (hP : cfg.MAXIMUM_NUMBER_OF_PROCESSES ≤ 255) (hT : cfg.MAXIMUM_NUMBER_OF_THREADS ≤ 255)
    (hfP : cfg.MAXIMUM_NUMBER_OF_PROCESSES < fuel)
    (hfT : cfg.MAXIMUM_NUMBER_OF_THREADS < fuel) :
    ∃ s1, pcbAndTcbInit cfg fuel s = .ok s1 ∧
      ∀ p, p < cfg.MAXIMUM_NUMBER_OF_PROCESSES →
        ∃ pcb, s1[p]? = some pcb ∧ pcb.ProcessId = p ∧
          ∀ t, t < cfg.MAXIMUM_NUMBER_OF_THREADS →
            ∃ tcb, pcb.Tcbs[t]? = some tcb ∧ tcb.ThreadId = t := by
  refine ⟨setIdsFrom 0 s, pcbAndTcbInit_eq hwf hP hT hfP hfT, ?_⟩
  intro p hp
  have hpl : p < s.length := by
    rw [hwf.1]
    exact hp
  have hsp : s[p]? = some s[p] := List.getElem?_eq_getElem hpl
  refine ⟨_, by rw [setIdsFrom_zero_getElem?, hsp]; rfl, rfl, ?_⟩
  intro t ht
  have htl : t < s[p].Tcbs.length := by
    rw [wellFormed_shape hwf p _ hsp]
    exact ht
  have hst : s[p].Tcbs[t]? = some s[p].Tcbs[t] := List.getElem?_eq_getElem htl
  exact ⟨_, by rw [setThreadIdsFrom_zero_getElem?, hst]; rfl, rfl⟩

/-- Instance of C8 on a table of `smallCfg` with arbitrary identifiers. -/
theorem pcbAndTcbInit_identifiers_witness :
    WellFormed smallCfg scrambledSmall ∧
    ∃ s1, pcbAndTcbInit smallCfg 3 scrambledSmall = .ok s1 ∧
      ∀ p, p < smallCfg.MAXIMUM_NUMBER_OF_PROCESSES →
        ∃ pcb, s1[p]? = some pcb ∧ pcb.ProcessId = p ∧
          ∀ t, t < smallCfg.MAXIMUM_NUMBER_OF_THREADS →
            ∃ tcb, pcb.Tcbs[t]? = some tcb ∧ tcb.ThreadId = t :=
  ⟨by decide,
    pcbAndTcbInit_identifiers smallCfg 3 scrambledSmall (by decide) (by decide) (by decide)
      (by decide) (by decide)⟩

/-- C9: `pcbAndTcbInit` applied to the power-on table returns when both capacities are at
most 255 (and the loops are allowed more iterations than the capacities); whenever it
returns, the returned table has the full shape, every process has `NumberOfThreads = 0`
and every thread entry of every process has status `Ready`. -/
theorem pcbAndTcbInit_boot_default (cfg : Config) (fuel : Nat) :
    (cfg.MAXIMUM_NUMBER_OF_PROCESSES ≤ 255 → cfg.MAXIMUM_NUMBER_OF_THREADS ≤ 255 →
      cfg.MAXIMUM_NUMBER_OF_PROCESSES < fuel → cfg.MAXIMUM_NUMBER_OF_THREADS < fuel →
      ∃ s1, pcbAndTcbInit cfg fuel (Pcbs cfg) = .ok s1) ∧
    ∀ s1, pcbAndTcbInit cfg fuel (Pcbs cfg) = .ok s1 →
      WellFormed cfg s1 ∧
      ∀ pcb ∈ s1, pcb.NumberOfThreads = 0 ∧ ∀ tcb ∈ pcb.Tcbs, tcb.Status = .Ready := by
  constructor
  · intro hP hT hfP hfT
    exact ⟨_, pcbAndTcbInit_eq (wellFormed_Pcbs cfg) hP hT hfP hfT⟩
  · intro s1 h
    have he := pcbAndTcbInit_eraseIds h
    refine ⟨wellFormed_of_eraseIds_eq he (wellFormed_Pcbs cfg), ?_⟩
    obtain ⟨_, hf⟩ := fields_of_eraseIds_eq he
    intro pcb1 hmem1
    obtain ⟨p, hp1⟩ := List.mem_iff_getElem?.mp hmem1
    obtain ⟨pcb, hp, hN, _, _, ht⟩ := hf p pcb1 hp1
    have hpcb : pcb = zeroPcb cfg :=
      (List.mem_replicate.mp (List.mem_iff_getElem?.mpr ⟨p, hp⟩)).2
    subst hpcb
    refine ⟨hN, ?_⟩
    intro tcb1 htm1
    obtain ⟨t, ht1⟩ := List.mem_iff_getElem?.mp htm1
    obtain ⟨tcb, htcb, hS, _, _, _⟩ := ht t tcb1 ht1
    have hz : tcb = zeroTcb cfg :=
      (List.mem_replicate.mp (List.mem_iff_getElem?.mpr ⟨t, htcb⟩)).2
    subst hz
    exact hS

/-- Instance of C9 for `smallCfg`: the loops return `bootedSmall`, in which both entries are
`Ready` and the thread count is 0. -/
theorem pcbAndTcbInit_boot_default_witness :
    (∃ s1, pcbAndTcbInit smallCfg 3 (Pcbs smallCfg) = .ok s1) ∧
    WellFormed smallCfg bootedSmall ∧
    ∀ pcb ∈ bootedSmall, pcb.NumberOfThreads = 0 ∧ ∀ tcb ∈ pcb.Tcbs, tcb.Status = .Ready :=
  ⟨(pcbAndTcbInit_boot_default smallCfg 3).1 (by decide) (by decide) (by decide) (by decide),
    (pcbAndTcbInit_boot_default smallCfg 3).2 bootedSmall (by decide)⟩

/-! ## Loops that do not exit -/

/-- With a thread capacity of 256 or more the inner loop of `pcbAndTcbInit` does not exit:
the 8-bit counter stays below the capacity. -/
theorem threadLoop_timeout {cfg : Config} {Pid : Nat}
    (hwide : 256 ≤ cfg.MAXIMUM_NUMBER_OF_THREADS) :
    ∀ (fuel Tid : Nat) (s : PcbTable), Tid < 256 →
      (∃ pcb, s[Pid]? = some pcb ∧ 256 ≤ pcb.Tcbs.length) →
      pcbAndTcbInit.threadLoop cfg Pid fuel Tid s = .timeout := by
  intro fuel
  induction fuel with
  | zero =>
    intro Tid s _ _
    rfl
  | succ n ih =>
    intro Tid s hTid hs
    obtain ⟨pcb, hp, hlen⟩ := hs
    unfold pcbAndTcbInit.threadLoop
    rw [if_pos (by omega)]
    have hT : Tid < pcb.Tcbs.length := by omega
    have ht : pcb.Tcbs[Tid]? = some pcb.Tcbs[Tid] := List.getElem?_eq_getElem hT
    rw [modifyTcb_of_entry hp ht, Exec.bind_ok, Exec.bind_ok]
    apply ih _ _ (incUint8_lt Tid)
    exact ⟨_, put_getElem? hp Tid _, by simpa using hlen⟩

/-- With a thread capacity of 256 or more `pcbAndTcbInit` does not return when process 0
exists. -/
theorem pcbAndTcbInit_timeout {cfg : Config} {s : PcbTable} {pcb : PROCESS_CONTROL_BLOCK}
    (hwide : 256 ≤ cfg.MAXIMUM_NUMBER_OF_THREADS) (hP : 0 < cfg.MAXIMUM_NUMBER_OF_PROCESSES)
    (hp : s[0]? = some pcb) (hlen : 256 ≤ pcb.Tcbs.length) (fuel : Nat) :
    pcbAndTcbInit cfg fuel s = .timeout := by
  unfold pcbAndTcbInit
  cases fuel with
  | zero => rfl
  | succ n =>
    unfold pcbAndTcbInit.processLoop
    rw [if_pos hP]
    unfold modifyPcb
    rw [hp]
    simp only [Exec.bind_ok]
    have hlt : 0 < s.length := (List.getElem?_eq_some.mp hp).1
    rw [threadLoop_timeout hwide (n + 1) 0 _ (by omega)
      ⟨{ pcb with ProcessId := 0 }, by simp [List.getElem?_set, hlt], hlen⟩]
    rfl

/-- With a thread capacity of 256 or more the scan of `osAddForegroundThread` does not exit
when none of the first 256 entries is `Ready`. -/
theorem scan_timeout {cfg : Config} {Pid Thread Priority : Nat} {s : PcbTable}
    (hwide : 256 ≤ cfg.MAXIMUM_NUMBER_OF_THREADS)
    (hs : ∀ j, j < 256 → ∃ tcb, entry s Pid j = some tcb ∧ tcb.Status ≠ .Ready) :
    ∀ (fuel Tid : Nat), Tid < 256 →
      osAddForegroundThread.scan cfg Pid Thread Priority fuel Tid s = .timeout := by
  intro fuel
  induction fuel with
  | zero =>
    intro Tid _
    rfl
  | succ n ih =>
    intro Tid hTid
    obtain ⟨tcb, he, hne⟩ := hs Tid hTid
    unfold osAddForegroundThread.scan
    rw [if_pos (by omega), readTcb_eq_ok.mpr he, Exec.bind_ok, if_neg hne]
    exact ih _ (incUint8_lt Tid)

/-! ## Filling the capacity (C7) -/

/-- C7 (as stated, refuted): with a capacity of 256 threads `pcbAndTcbInit` does not return
on the power-on table, however many iterations its loops are allowed, so no booted table is
reached; and on a table whose 256 thread entries are all `Running` a further call does not
return either, rather than returning `OsOutOfResource`. -/
theorem admission_wide_capacity_counterexample :
    (∀ fuel, pcbAndTcbInit wideCfg fuel (Pcbs wideCfg) = .timeout) ∧
    (∀ fuel Thread StackSize Priority,
      osAddForegroundThread wideCfg fuel runningWide Thread StackSize Priority
        = .timeout) := by
  constructor
  · intro fuel
    have hp : (Pcbs wideCfg)[0]? = some (zeroPcb wideCfg) := rfl
    have hlen : 256 ≤ (zeroPcb wideCfg).Tcbs.length := by
      show 256 ≤ (List.replicate wideCfg.MAXIMUM_NUMBER_OF_THREADS (zeroTcb wideCfg)).length
      rw [List.length_replicate]
      decide
    exact pcbAndTcbInit_timeout (by decide) (by decide) hp hlen fuel
  · intro fuel Thread StackSize Priority
    unfold osAddForegroundThread
    have hr : readPcb runningWide 0 = .ok
        { ProcessId := 0, NumberOfThreads := 0, DataSection := 0,
          Tcbs := (List.range 256).map fun t =>
            { ThreadId := t, Status := .Running, Priority := t + 1, StackPointer := some 1,
              StackMem := [0x12345678, 0, 0x8001, 0x01000000] } } := rfl
    rw [hr, Exec.bind_ok, if_neg (by decide)]
    apply scan_timeout (by decide) _ fuel 0 (by decide)
    intro j hj
    refine ⟨{ ThreadId := j, Status := .Running, Priority := j + 1, StackPointer := some 1,
              StackMem := [0x12345678, 0, 0x8001, 0x01000000] }, ?_, by simp⟩
    unfold entry runningWide
    simp [runningWidePcb, List.getElem?_range hj]

theorem wellFormed_put {cfg : Config} {s : PcbTable} {Pid Tid : Nat}
    {pcb : PROCESS_CONTROL_BLOCK} {tcb1 : THREAD_CONTROL_BLOCK}
    (hwf : WellFormed cfg s) (hp : s[Pid]? = some pcb)
    (hlen : tcb1.StackMem.length = cfg.STACK_SIZE) :
    WellFormed cfg (put s Pid Tid pcb tcb1) := by
  obtain ⟨hl, hall⟩ := hwf
  obtain ⟨hpl, hps⟩ := hall pcb (List.mem_iff_getElem?.mpr ⟨Pid, hp⟩)
  refine ⟨by simpa [put] using hl, ?_⟩
  intro q hq
  rcases List.mem_or_eq_of_mem_set hq with hmem | heq
  · exact hall q hmem
  · subst heq
    refine ⟨by simpa using hpl, ?_⟩
    intro x hx
    rcases List.mem_or_eq_of_mem_set hx with hxm | hxe
    · exact hps x hxm
    · subst hxe
      exact hlen

theorem getElem?_append_singleton_ne (prios : List Nat) (x t : Nat)
    (h : t ≠ prios.length) : (prios ++ [x])[t]? = prios[t]? := by
  by_cases hlt : t < prios.length
  · exact List.getElem?_append_left hlt
  · have hge : prios.length ≤ t := by omega
    rw [List.getElem?_append_right hge, List.getElem?_eq_none hge]
    have h1 : 1 ≤ t - prios.length := by omega
    exact List.getElem?_eq_none (by simpa using h1)

/-- The table returned by `pcbAndTcbInit` on the power-on table is well formed, with every
thread entry of process 0 numbered and `Ready`. -/
theorem filled_boot {cfg : Config} {fuel : Nat} {s0 : PcbTable}
    (hP1 : 1 ≤ cfg.MAXIMUM_NUMBER_OF_PROCESSES)
    (hP : cfg.MAXIMUM_NUMBER_OF_PROCESSES ≤ 255) (hT : cfg.MAXIMUM_NUMBER_OF_THREADS ≤ 255)
    (hfP : cfg.MAXIMUM_NUMBER_OF_PROCESSES < fuel)
    (hfT : cfg.MAXIMUM_NUMBER_OF_THREADS < fuel)
    (h : pcbAndTcbInit cfg fuel (Pcbs cfg) = .ok s0) : Filled cfg [] s0 := by
  have hwf := wellFormed_of_eraseIds_eq (pcbAndTcbInit_eraseIds h) (wellFormed_Pcbs cfg)
  rw [pcbAndTcbInit_eq (wellFormed_Pcbs cfg) hP hT hfP hfT] at h
  cases h
  have hz : (Pcbs cfg)[0]? = some (zeroPcb cfg) := by
    unfold Pcbs
    rw [List.getElem?_replicate, if_pos (by omega)]
  have h0 : (setIdsFrom 0 (Pcbs cfg))[0]?
      = some { zeroPcb cfg with
          ProcessId := 0, Tcbs := setThreadIdsFrom 0 (zeroPcb cfg).Tcbs } := by
    rw [setIdsFrom_zero_getElem?, hz]
    rfl
  refine ⟨hwf, ?_, _, h0, rfl, rfl⟩
  intro t ht
  refine ⟨{ zeroTcb cfg with ThreadId := t }, ?_, rfl, rfl⟩
  unfold entry
  rw [h0]
  show (setThreadIdsFrom 0 (zeroPcb cfg).Tcbs)[t]? = _
  rw [setThreadIdsFrom_zero_getElem?]
  unfold zeroPcb
  simp only [List.getElem?_replicate, if_pos ht]
  rfl

/-- One more admission on a table filled up to `prios`, below the capacity. -/
theorem filled_step {cfg : Config} {fuel : Nat} {prios : List Nat} {s : PcbTable}
    (Thread StackSize Priority : Nat)
    (hfill : Filled cfg prios s) (hk : prios.length < cfg.MAXIMUM_NUMBER_OF_THREADS)
    (hT : cfg.MAXIMUM_NUMBER_OF_THREADS ≤ 255) (hfT : cfg.MAXIMUM_NUMBER_OF_THREADS < fuel)
    (hslots : SlotsInRange cfg 0 cfg.STACK_SIZE) :
    ∃ s1, osAddForegroundThread cfg fuel s Thread StackSize Priority = .ok (.OsSuccess, s1) ∧
      Filled cfg (prios ++ [Priority]) s1 := by
  obtain ⟨hwf, hpre, pcb, h0, hN, hD⟩ := hfill
  obtain ⟨tcbk, hek, _, hsk⟩ := hpre prios.length hk
  rw [List.getElem?_eq_none (le_refl _)] at hsk
  obtain ⟨pcbk, hpk, htk⟩ := entry_eq_some.mp hek
  rw [h0] at hpk
  cases hpk
  obtain ⟨⟨st, s1⟩, hr⟩ := osAdd_returns cfg fuel s Thread StackSize Priority pcb hwf h0
    hT hfT (by rw [hD]; exact hslots)
  have hst : st = .OsSuccess := by
    cases st with
    | OsSuccess => rfl
    | OsOutOfResource =>
      exfalso
      obtain ⟨_, pcb2, hp2, hcase⟩ := osAdd_eq_outOfResource hr
      rw [h0] at hp2
      cases hp2
      rcases hcase with h | h
      · omega
      · exact h prios.length hk tcbk hek hsk
  subst hst
  obtain ⟨T, pcb1, tcb, tcb1, _, hp, _, ht, hrdy, hlow, hadm, hs1⟩ := osAdd_eq_success hr
  rw [h0] at hp
  cases hp
  have hTk : T = prios.length := by
    by_contra hne
    rcases Nat.lt_or_gt_of_ne hne with hlt | hgt
    · obtain ⟨x, hx, _, hxs⟩ := hpre T (by omega)
      rw [List.getElem?_eq_getElem hlt] at hxs
      rw [entry_eq_some.mpr ⟨pcb, h0, ht⟩] at hx
      cases hx
      rw [hxs.1] at hrdy
      cases hrdy
    · exact hlow prios.length hgt tcbk hek hsk
  subst hTk
  rw [htk] at ht
  cases ht
  obtain ⟨_, htcb1⟩ := admitTcb_eq_ok.mp hadm
  have hmemk : tcbk ∈ pcb.Tcbs := List.mem_iff_getElem?.mpr ⟨_, htk⟩
  have hstk := (hwf.2 pcb (List.mem_iff_getElem?.mpr ⟨0, h0⟩)).2 tcbk hmemk
  refine ⟨s1, hr, ?_, ?_, { pcb with Tcbs := pcb.Tcbs.set prios.length tcb1 },
    by rw [hs1]; exact put_getElem? h0 _ _, hN, hD⟩
  · rw [hs1]
    apply wellFormed_put hwf h0
    rw [htcb1]
    simp only [admittedStack_length]
    exact hstk
  · intro t ht
    by_cases htk2 : t = prios.length
    · subst htk2
      obtain ⟨x, hx, hid, _⟩ := hpre prios.length ht
      rw [hek] at hx
      cases hx
      refine ⟨tcb1, by rw [hs1]; exact entry_put_self h0 htk tcb1, ?_, ?_⟩
      · rw [htcb1]
        exact hid
      · rw [List.getElem?_append_right (le_refl _)]
        simp only [Nat.sub_self, List.getElem?_cons_zero]
        rw [htcb1]
        exact ⟨rfl, rfl⟩
    · obtain ⟨x, hx, hid, hxs⟩ := hpre t ht
      refine ⟨x, ?_, hid, ?_⟩
      · rw [hs1, entry_put_other h0 tcb1 0 t (Or.inr htk2)]
        exact hx
      · rw [getElem?_append_singleton_ne prios Priority t htk2]
        exact hxs

/-- A call on a table filled up to the capacity returns `OsOutOfResource`. -/
theorem filled_full {cfg : Config} {fuel : Nat} {prios : List Nat} {s : PcbTable}
    (Thread StackSize Priority : Nat)
    (hfill : Filled cfg prios s) (hk : prios.length = cfg.MAXIMUM_NUMBER_OF_THREADS)
    (hT : cfg.MAXIMUM_NUMBER_OF_THREADS ≤ 255) (hfT : cfg.MAXIMUM_NUMBER_OF_THREADS < fuel)
    (hslots : SlotsInRange cfg 0 cfg.STACK_SIZE) :
    osAddForegroundThread cfg fuel s Thread StackSize Priority
      = .ok (.OsOutOfResource, s) := by
  obtain ⟨hwf, hpre, pcb, h0, _, hD⟩ := hfill
  obtain ⟨⟨st, s1⟩, hr⟩ := osAdd_returns cfg fuel s Thread StackSize Priority pcb hwf h0
    hT hfT (by rw [hD]; exact hslots)
  have hst : st = .OsOutOfResource := by
    cases st with
    | OsOutOfResource => rfl
    | OsSuccess =>
      exfalso
      obtain ⟨T, pcb2, tcb, _, hTlt, hp2, _, ht, hrdy, _, _, _⟩ := osAdd_eq_success hr
      obtain ⟨x, hx, _, hxs⟩ := hpre T hTlt
      rw [entry_eq_some.mpr ⟨pcb2, hp2, ht⟩] at hx
      cases hx
      rw [List.getElem?_eq_getElem (by omega)] at hxs
      rw [hxs.1] at hrdy
      cases hrdy
  subst hst
  rw [hr, (osAdd_eq_outOfResource hr).1]

/-- Consecutive admissions on a table filled up to `prios`, within the capacity, all
succeed. -/
theorem filled_calls {cfg : Config} {fuel : Nat}
    (hT : cfg.MAXIMUM_NUMBER_OF_THREADS ≤ 255) (hfT : cfg.MAXIMUM_NUMBER_OF_THREADS < fuel)
    (hslots : SlotsInRange cfg 0 cfg.STACK_SIZE) :
    ∀ (calls : List (Nat × Nat × Nat)) (prios : List Nat) (s : PcbTable),
      Filled cfg prios s → prios.length + calls.length ≤ cfg.MAXIMUM_NUMBER_OF_THREADS →
      ∃ s1, osAddForegroundThreadCalls cfg fuel s calls
          = .ok (List.replicate calls.length .OsSuccess, s1) ∧
        Filled cfg (prios ++ calls.map callPriority) s1 := by
  intro calls
  induction calls with
  | nil =>
    intro prios s hfill _
    exact ⟨s, rfl, by simpa using hfill⟩
  | cons call rest ih =>
    intro prios s hfill hlen
    simp only [List.length_cons] at hlen
    obtain ⟨s1, h1, hfill1⟩ :=
      filled_step call.1 call.2.1 call.2.2 hfill (by omega) hT hfT hslots
    obtain ⟨s2, h2, hfill2⟩ := ih (prios ++ [call.2.2]) s1 hfill1 (by simp; omega)
    refine ⟨s2, ?_, ?_⟩
    · unfold osAddForegroundThreadCalls
      rw [h1, Exec.bind_ok, h2, Exec.bind_ok]
      rfl
    · simpa [callPriority] using hfill2

/-- C7 (amended): for every capacity `N = MAXIMUM_NUMBER_OF_THREADS ≤ 255`, with at least
one and at most 255 processes and the frame slots inside `StackMem`: `pcbAndTcbInit` on the
power-on table returns a table `s0`; for every `k ≤ N` the first `k` of any `N` calls all
return `OsSuccess` and leave the entries with `ThreadId` below `k` `Running` with the
priorities supplied in order and the other entries `Ready` (so call `k` admits the entry
with `ThreadId = k - 1`); after the `N` calls every thread of process 0 is `Running`, and
any further call returns `OsOutOfResource` and leaves the table as it is. -/
theorem admission_fills_capacity (cfg : Config) (fuel : Nat)
    (calls : List (Nat × Nat × Nat))
    (hP1 : 1 ≤ cfg.MAXIMUM_NUMBER_OF_PROCESSES)
    (hP : cfg.MAXIMUM_NUMBER_OF_PROCESSES ≤ 255) (hT : cfg.MAXIMUM_NUMBER_OF_THREADS ≤ 255)
    (hfP : cfg.MAXIMUM_NUMBER_OF_PROCESSES < fuel)
    (hfT : cfg.MAXIMUM_NUMBER_OF_THREADS < fuel)
    (hslots : SlotsInRange cfg 0 cfg.STACK_SIZE)
    (hlen : calls.length = cfg.MAXIMUM_NUMBER_OF_THREADS) :
    ∃ s0, pcbAndTcbInit cfg fuel (Pcbs cfg) = .ok s0 ∧
      (∀ k, k ≤ cfg.MAXIMUM_NUMBER_OF_THREADS →
        ∃ sk, osAddForegroundThreadCalls cfg fuel s0 (calls.take k)
            = .ok (List.replicate k .OsSuccess, sk) ∧
          AdmittedPrefix cfg ((calls.take k).map callPriority) sk) ∧
      ∃ sN, osAddForegroundThreadCalls cfg fuel s0 calls
          = .ok (List.replicate cfg.MAXIMUM_NUMBER_OF_THREADS .OsSuccess, sN) ∧
        (∀ t, t < cfg.MAXIMUM_NUMBER_OF_THREADS →
          ∃ tcb, entry sN 0 t = some tcb ∧ tcb.ThreadId = t ∧ tcb.Status = .Running) ∧
        ∀ Thread StackSize Priority,
          osAddForegroundThread cfg fuel sN Thread StackSize Priority
            = .ok (.OsOutOfResource, sN) := by
  have hboot : pcbAndTcbInit cfg fuel (Pcbs cfg) = .ok (setIdsFrom 0 (Pcbs cfg)) :=
    pcbAndTcbInit_eq (wellFormed_Pcbs cfg) hP hT hfP hfT
  have hfill0 := filled_boot hP1 hP hT hfP hfT hboot
  refine ⟨_, hboot, ?_, ?_⟩
  · intro k hk
    have hkl : (calls.take k).length = k := by
      rw [List.length_take]
      omega
    obtain ⟨sk, h1, h2⟩ := filled_calls hT hfT hslots (calls.take k) [] _ hfill0
      (by simp only [List.length_nil, hkl]; omega)
    rw [hkl] at h1
    exact ⟨sk, h1, by simpa using h2.2.1⟩
  · obtain ⟨sN, h1, h2⟩ := filled_calls hT hfT hslots calls [] _ hfill0
      (by simp only [List.length_nil, hlen]; omega)
    rw [hlen] at h1
    simp only [List.nil_append] at h2
    have hpl : (calls.map callPriority).length = cfg.MAXIMUM_NUMBER_OF_THREADS := by
      rw [List.length_map, hlen]
    refine ⟨sN, h1, ?_, ?_⟩
    · intro t ht
      obtain ⟨tcb, he, hid, hs⟩ := h2.2.1 t ht
      rw [List.getElem?_eq_getElem (by omega)] at hs
      exact ⟨tcb, he, hid, hs.1⟩
    · intro Thread StackSize Priority
      exact filled_full Thread StackSize Priority h2 hpl hT hfT hslots

/-- Instance of C7 (amended): the scenario with capacity 4 and priorities 1, 2, 3, 4. -/
theorem admission_fills_capacity_witness :
    SlotsInRange scenarioCfg 0 scenarioCfg.STACK_SIZE ∧
    ∃ s0, pcbAndTcbInit scenarioCfg 5 (Pcbs scenarioCfg) = .ok s0 ∧
      (∀ k, k ≤ scenarioCfg.MAXIMUM_NUMBER_OF_THREADS →
        ∃ sk, osAddForegroundThreadCalls scenarioCfg 5 s0 (scenarioCalls.take k)
            = .ok (List.replicate k .OsSuccess, sk) ∧
          AdmittedPrefix scenarioCfg ((scenarioCalls.take k).map callPriority) sk) ∧
      ∃ sN, osAddForegroundThreadCalls scenarioCfg 5 s0 scenarioCalls
          = .ok (List.replicate scenarioCfg.MAXIMUM_NUMBER_OF_THREADS .OsSuccess, sN) ∧
        (∀ t, t < scenarioCfg.MAXIMUM_NUMBER_OF_THREADS →
          ∃ tcb, entry sN 0 t = some tcb ∧ tcb.ThreadId = t ∧ tcb.Status = .Running) ∧
        ∀ Thread StackSize Priority,
          osAddForegroundThread scenarioCfg 5 sN Thread StackSize Priority
            = .ok (.OsOutOfResource, sN) :=
  ⟨by decide,
    admission_fills_capacity scenarioCfg 5 scenarioCalls (by decide) (by decide) (by decide)
      (by decide) (by decide) (by decide) (by decide)⟩

/-! ## `pcbAndTcbInit`: what a return implies -/

/-- With a thread capacity of 256 or more the inner loop of `pcbAndTcbInit` never returns a
table. -/
theorem threadLoop_ne_ok_of_wide {cfg : Config} {Pid : Nat}
    (hwide : 256 ≤ cfg.MAXIMUM_NUMBER_OF_THREADS) :
    ∀ (fuel Tid : Nat) (s s1 : PcbTable), Tid < 256 →
      pcbAndTcbInit.threadLoop cfg Pid fuel Tid s ≠ .ok s1 := by
  intro fuel
  induction fuel with
  | zero =>
    intro Tid s s1 _ h
    simp [pcbAndTcbInit.threadLoop] at h
  | succ n ih =>
    intro Tid s s1 hTid h
    unfold pcbAndTcbInit.threadLoop at h
    rw [if_pos (by omega)] at h
    obtain ⟨s2, _, h3⟩ := Exec.bind_eq_ok.mp h
    exact ih _ s2 s1 (incUint8_lt Tid) h3

/-- When the inner loop of `pcbAndTcbInit` returns, it was allowed more iterations than it
had entries left. -/
theorem threadLoop_ok_fuel {cfg : Config} {Pid : Nat}
    (h255 : cfg.MAXIMUM_NUMBER_OF_THREADS ≤ 255) :
    ∀ (fuel Tid : Nat) (s s1 : PcbTable), Tid ≤ cfg.MAXIMUM_NUMBER_OF_THREADS →
      pcbAndTcbInit.threadLoop cfg Pid fuel Tid s = .ok s1 →
      cfg.MAXIMUM_NUMBER_OF_THREADS - Tid < fuel := by
  intro fuel
  induction fuel with
  | zero =>
    intro Tid s s1 _ h
    simp [pcbAndTcbInit.threadLoop] at h
  | succ n ih =>
    intro Tid s s1 hle h
    unfold pcbAndTcbInit.threadLoop at h
    by_cases hlt : Tid < cfg.MAXIMUM_NUMBER_OF_THREADS
    · rw [if_pos hlt] at h
      obtain ⟨s2, _, h3⟩ := Exec.bind_eq_ok.mp h
      rw [incUint8_of_lt (by omega)] at h3
      have := ih (Tid + 1) s2 s1 (by omega) h3
      omega
    · omega

/-- With a process capacity of 256 or more the outer loop of `pcbAndTcbInit` never returns a
table. -/
theorem processLoop_ne_ok_of_wide {cfg : Config} {bound : Nat}
    (hwide : 256 ≤ cfg.MAXIMUM_NUMBER_OF_PROCESSES) :
    ∀ (fuel Pid : Nat) (s s1 : PcbTable), Pid < 256 →
      pcbAndTcbInit.processLoop cfg bound fuel Pid s ≠ .ok s1 := by
  intro fuel
  induction fuel with
  | zero =>
    intro Pid s s1 _ h
    simp [pcbAndTcbInit.processLoop] at h
  | succ n ih =>
    intro Pid s s1 hPid h
    unfold pcbAndTcbInit.processLoop at h
    rw [if_pos (by omega)] at h
    obtain ⟨s2, _, h⟩ := Exec.bind_eq_ok.mp h
    obtain ⟨s3, _, h4⟩ := Exec.bind_eq_ok.mp h
    exact ih _ s3 s1 (incUint8_lt Pid) h4

/-- When the outer loop of `pcbAndTcbInit` returns, it was allowed more iterations than it
had processes left, and if it had any left the thread capacity fits the 8-bit counter and
the inner loops were allowed more iterations than the thread capacity. -/
theorem processLoop_ok_bounds {cfg : Config} {bound : Nat}
    (h255 : cfg.MAXIMUM_NUMBER_OF_PROCESSES ≤ 255) :
    ∀ (fuel Pid : Nat) (s s1 : PcbTable), Pid ≤ cfg.MAXIMUM_NUMBER_OF_PROCESSES →
      pcbAndTcbInit.processLoop cfg bound fuel Pid s = .ok s1 →
      cfg.MAXIMUM_NUMBER_OF_PROCESSES - Pid < fuel ∧
      (Pid < cfg.MAXIMUM_NUMBER_OF_PROCESSES →
        cfg.MAXIMUM_NUMBER_OF_THREADS ≤ 255 ∧ cfg.MAXIMUM_NUMBER_OF_THREADS < bound) := by
  intro fuel
  induction fuel with
  | zero =>
    intro Pid s s1 _ h
    simp [pcbAndTcbInit.processLoop] at h
  | succ n ih =>
    intro Pid s s1 hle h
    unfold pcbAndTcbInit.processLoop at h
    by_cases hlt : Pid < cfg.MAXIMUM_NUMBER_OF_PROCESSES
    · rw [if_pos hlt] at h
      obtain ⟨s2, _, h⟩ := Exec.bind_eq_ok.mp h
      obtain ⟨s3, h3, h4⟩ := Exec.bind_eq_ok.mp h
      rw [incUint8_of_lt (by omega)] at h4
      have hrec := (ih (Pid + 1) s3 s1 (by omega) h4).1
      have hT : cfg.MAXIMUM_NUMBER_OF_THREADS ≤ 255 := by
        by_contra hc
        exact threadLoop_ne_ok_of_wide (by omega) bound 0 s2 s3 (by omega) h3
      have hb := threadLoop_ok_fuel hT bound 0 s2 s3 (Nat.zero_le _) h3
      exact ⟨by omega, fun _ => ⟨hT, by omega⟩⟩
    · exact ⟨by omega, fun hc => absurd hc hlt⟩

/-- When `pcbAndTcbInit` returns, the process capacity fits the 8-bit counter and, unless
there is no process at all, so does the thread capacity; the loops were allowed more
iterations than the capacities. -/
theorem pcbAndTcbInit_ok_bounds {cfg : Config} {fuel : Nat} {s s1 : PcbTable}
    (h : pcbAndTcbInit cfg fuel s = .ok s1) :
    cfg.MAXIMUM_NUMBER_OF_PROCESSES ≤ 255 ∧ cfg.MAXIMUM_NUMBER_OF_PROCESSES < fuel ∧
    (0 < cfg.MAXIMUM_NUMBER_OF_PROCESSES →
      cfg.MAXIMUM_NUMBER_OF_THREADS ≤ 255 ∧ cfg.MAXIMUM_NUMBER_OF_THREADS < fuel) := by
  unfold pcbAndTcbInit at h
  have hP : cfg.MAXIMUM_NUMBER_OF_PROCESSES ≤ 255 := by
    by_contra hc
    exact processLoop_ne_ok_of_wide (by omega) fuel 0 s s1 (by omega) h
  have hb := processLoop_ok_bounds hP fuel 0 s s1 (Nat.zero_le _) h
  exact ⟨hP, by omega, hb.2⟩

theorem setThreadIdsFrom_zero_idem (Tcbs : List THREAD_CONTROL_BLOCK) :
    setThreadIdsFrom 0 (setThreadIdsFrom 0 Tcbs) = setThreadIdsFrom 0 Tcbs := by
  apply List.ext_getElem?
  intro n
  rw [setThreadIdsFrom_zero_getElem?, setThreadIdsFrom_zero_getElem?]
  cases Tcbs[n]? <;> rfl

theorem setIdsFrom_zero_idem (s : PcbTable) :
    setIdsFrom 0 (setIdsFrom 0 s) = setIdsFrom 0 s := by
  apply List.ext_getElem?
  intro n
  rw [setIdsFrom_zero_getElem?, setIdsFrom_zero_getElem?]
  cases s[n]? with
  | none => rfl
  | some pcb =>
    simp only [Option.map_some', setThreadIdsFrom_zero_idem]

/-- A table returned by `pcbAndTcbInit` is returned unchanged by a second run. -/
theorem pcbAndTcbInit_again {cfg : Config} {fuel : Nat} {s s1 : PcbTable}
    (hwf : WellFormed cfg s) (h : pcbAndTcbInit cfg fuel s = .ok s1) :
    pcbAndTcbInit cfg fuel s1 = .ok s1 := by
  obtain ⟨hP, hfP, hT⟩ := pcbAndTcbInit_ok_bounds h
  have hwf1 := wellFormed_of_eraseIds_eq (pcbAndTcbInit_eraseIds h) hwf
  by_cases hP0 : 0 < cfg.MAXIMUM_NUMBER_OF_PROCESSES
  · obtain ⟨hT255, hfT⟩ := hT hP0
    rw [pcbAndTcbInit_eq hwf hP hT255 hfP hfT] at h
    cases h
    rw [pcbAndTcbInit_eq hwf1 hP hT255 hfP hfT, setIdsFrom_zero_idem]
  · have hs : s = [] := List.eq_nil_of_length_eq_zero (by rw [hwf.1]; omega)
    have hs1 : s1 = [] := List.eq_nil_of_length_eq_zero (by rw [hwf1.1]; omega)
    rw [hs] at h
    rw [hs1]
    rw [hs1] at h
    exact h

/-! ## Idempotence and frame of `pcbAndTcbInit` (C13, C15) -/

/-- C13: `pcbAndTcbInit` is idempotent on every well-formed table: running it on its own
result gives that result again (and a run that does not return does not return when
repeated); with both capacities at most 255 and enough iterations allowed it does
return. -/
theorem pcbAndTcbInit_idempotent (cfg : Config) (fuel : Nat) (s : PcbTable)
    (hwf : WellFormed cfg s) :
    (pcbAndTcbInit cfg fuel s).bind (pcbAndTcbInit cfg fuel) = pcbAndTcbInit cfg fuel s ∧
    (cfg.MAXIMUM_NUMBER_OF_PROCESSES ≤ 255 → cfg.MAXIMUM_NUMBER_OF_THREADS ≤ 255 →
      cfg.MAXIMUM_NUMBER_OF_PROCESSES < fuel → cfg.MAXIMUM_NUMBER_OF_THREADS < fuel →
      ∃ s1, pcbAndTcbInit cfg fuel s = .ok s1 ∧ pcbAndTcbInit cfg fuel s1 = .ok s1) := by
  constructor
  · cases h : pcbAndTcbInit cfg fuel s with
    | ok s1 =>
      rw [Exec.bind_ok]
      exact pcbAndTcbInit_again hwf h
    | fault => rfl
    | timeout => rfl
  · intro hP hT hfP hfT
    have h := pcbAndTcbInit_eq hwf hP hT hfP hfT
    exact ⟨_, h, pcbAndTcbInit_again hwf h⟩

/-- Instance of C13 on a table of `smallCfg` with arbitrary identifiers. -/
theorem pcbAndTcbInit_idempotent_witness :
    WellFormed smallCfg scrambledSmall ∧
    (pcbAndTcbInit smallCfg 3 scrambledSmall).bind (pcbAndTcbInit smallCfg 3)
      = pcbAndTcbInit smallCfg 3 scrambledSmall ∧
    ∃ s1, pcbAndTcbInit smallCfg 3 scrambledSmall = .ok s1 ∧
      pcbAndTcbInit smallCfg 3 s1 = .ok s1 :=
  ⟨by decide,
    (pcbAndTcbInit_idempotent smallCfg 3 scrambledSmall (by decide)).1,
    (pcbAndTcbInit_idempotent smallCfg 3 scrambledSmall (by decide)).2
      (by decide) (by decide) (by decide) (by decide)⟩

/-- C15 (as stated, refuted): on the table `admittedSmall`, in which entry 0 of process 0 has
been admitted, `pcbAndTcbInit` returns the table as it is: entry 0 is still `Running`, with
its priority and stack frame, and not `Ready`. -/
theorem pcbAndTcbInit_keeps_running_counterexample :
    pcbAndTcbInit smallCfg 3 admittedSmall = .ok admittedSmall ∧
    ∃ tcb, entry admittedSmall 0 0 = some tcb ∧ tcb.Status = .Running ∧
      tcb.Status ≠ .Ready := by
  refine ⟨by decide, ⟨_, rfl, rfl, by decide⟩⟩

/-- C15 (amended): calling `pcbAndTcbInit` again does not wipe live thread state.  On every
well-formed table it returns when both capacities are at most 255 (and enough iterations
are allowed); whatever it returns has the same shape, and every thread entry keeps its
`Status`, `Priority`, `StackPointer` and `StackMem`: an admitted entry stays `Running`. -/
theorem pcbAndTcbInit_keeps_thread_state (cfg : Config) (fuel : Nat) (s : PcbTable)
    (hwf : WellFormed cfg s) :
    (cfg.MAXIMUM_NUMBER_OF_PROCESSES ≤ 255 → cfg.MAXIMUM_NUMBER_OF_THREADS ≤ 255 →
      cfg.MAXIMUM_NUMBER_OF_PROCESSES < fuel → cfg.MAXIMUM_NUMBER_OF_THREADS < fuel →
      ∃ s1, pcbAndTcbInit cfg fuel s = .ok s1) ∧
    ∀ s1, pcbAndTcbInit cfg fuel s = .ok s1 →
      WellFormed cfg s1 ∧
      ∀ (p t : Nat) (tcb : THREAD_CONTROL_BLOCK), entry s p t = some tcb →
        ∃ tcb1, entry s1 p t = some tcb1 ∧ tcb1.Status = tcb.Status ∧
          tcb1.Priority = tcb.Priority ∧ tcb1.StackPointer = tcb.StackPointer ∧
          tcb1.StackMem = tcb.StackMem := by
  constructor
  · intro hP hT hfP hfT
    exact ⟨_, pcbAndTcbInit_eq hwf hP hT hfP hfT⟩
  · intro s1 h
    have he := pcbAndTcbInit_eraseIds h
    refine ⟨wellFormed_of_eraseIds_eq he hwf, ?_⟩
    obtain ⟨_, hf⟩ := fields_of_eraseIds_eq he.symm
    intro p t tcb hent
    obtain ⟨pcb, hp, ht⟩ := entry_eq_some.mp hent
    obtain ⟨pcb1, hp1, _, _, _, hth⟩ := hf p pcb hp
    obtain ⟨tcb1, ht1, e1, e2, e3, e4⟩ := hth t tcb ht
    exact ⟨tcb1, entry_eq_some.mpr ⟨pcb1, hp1, ht1⟩, e1.symm, e2.symm, e3.symm, e4.symm⟩

/-- Instance of C15 (amended) on `admittedSmall`. -/
theorem pcbAndTcbInit_keeps_thread_state_witness :
    WellFormed smallCfg admittedSmall ∧
    (∃ s1, pcbAndTcbInit smallCfg 3 admittedSmall = .ok s1) ∧
    WellFormed smallCfg admittedSmall ∧
    ∀ (p t : Nat) (tcb : THREAD_CONTROL_BLOCK), entry admittedSmall p t = some tcb →
      ∃ tcb1, entry admittedSmall p t = some tcb1 ∧ tcb1.Status = tcb.Status ∧
        tcb1.Priority = tcb.Priority ∧ tcb1.StackPointer = tcb.StackPointer ∧
        tcb1.StackMem = tcb.StackMem :=
  ⟨by decide,
    (pcbAndTcbInit_keeps_thread_state smallCfg 3 admittedSmall (by decide)).1
      (by decide) (by decide) (by decide) (by decide),
    (pcbAndTcbInit_keeps_thread_state smallCfg 3 admittedSmall (by decide)).2
      admittedSmall (by decide)⟩

/-! ## Admission: the stack words that are not written (C16) -/

theorem admittedStack_other {cfg : Config} {D : Nat} (Thread : Nat) (mem : List Nat) {i : Nat}
    (h1 : i ≠ cfg.STACK_LOCATION_PSR) (h2 : i ≠ cfg.END_OF_STACK)
    (h3 : i ≠ cfg.STACK_LOCATION_PC) (h4 : D = 0 ∨ i ≠ cfg.STACK_LOCATION_R9) :
    (admittedStack cfg D Thread mem)[i]? = mem[i]? := by
  unfold admittedStack
  by_cases hD : D = 0
  · simp [hD, List.getElem?_set, Ne.symm h1, Ne.symm h2, Ne.symm h3]
  · have h5 : i ≠ cfg.STACK_LOCATION_R9 := h4.resolve_left hD
    simp [hD, List.getElem?_set, Ne.symm h1, Ne.symm h2, Ne.symm h3, Ne.symm h5]

/-- In the table returned by `pcbAndTcbInit` on the power-on table every process has a null
`DataSection` and every stack word is 0. -/
theorem booted_zero_fields {cfg : Config} {fuel : Nat} {s : PcbTable}
    (h : pcbAndTcbInit cfg fuel (Pcbs cfg) = .ok s) :
    ∀ (p : Nat) (pcb : PROCESS_CONTROL_BLOCK), s[p]? = some pcb →
      pcb.NumberOfThreads = 0 ∧ pcb.DataSection = 0 ∧
      ∀ (t : Nat) (tcb : THREAD_CONTROL_BLOCK), pcb.Tcbs[t]? = some tcb →
        tcb.Status = .Ready ∧ tcb.StackMem = List.replicate cfg.STACK_SIZE 0 := by
  obtain ⟨_, hf⟩ := fields_of_eraseIds_eq (pcbAndTcbInit_eraseIds h)
  intro p pcb1 hp1
  obtain ⟨pcb, hp, hN, hD, _, ht⟩ := hf p pcb1 hp1
  have hpcb : pcb = zeroPcb cfg :=
    (List.mem_replicate.mp (List.mem_iff_getElem?.mpr ⟨p, hp⟩)).2
  subst hpcb
  refine ⟨hN, hD, ?_⟩
  intro t tcb1 ht1
  obtain ⟨tcb, htcb, hS, _, _, hM⟩ := ht t tcb1 ht1
  have hz : tcb = zeroTcb cfg :=
    (List.mem_replicate.mp (List.mem_iff_getElem?.mpr ⟨t, htcb⟩)).2
  subst hz
  exact ⟨hS, hM⟩

/-- C16: when the call returns `OsSuccess`, the stack of the admitted entry keeps its length
and differs from its pre-call contents at most at the indices `STACK_LOCATION_PSR`,
`END_OF_STACK`, `STACK_LOCATION_PC` and `STACK_LOCATION_R9`; when `DataSection` of process 0
is null the `STACK_LOCATION_R9` index is not written either, so a slot at that index distinct
from the other three keeps its pre-call value, which is 0 on the table returned by
`pcbAndTcbInit` on the power-on table. -/
theorem osAddForegroundThread_stack_words_kept (cfg : Config) (fuel : Nat)
    (s s1 : PcbTable) (E StackSize Priority : Nat) (pcb : PROCESS_CONTROL_BLOCK)
    (h : osAddForegroundThread cfg fuel s E StackSize Priority = .ok (.OsSuccess, s1))
    (h0 : s[0]? = some pcb) :
    ∃ Tid tcb tcb1, Tid < cfg.MAXIMUM_NUMBER_OF_THREADS ∧
      entry s 0 Tid = some tcb ∧ tcb.Status = .Ready ∧ NoReadyBelow s 0 Tid ∧
      entry s1 0 Tid = some tcb1 ∧ tcb1.StackMem.length = tcb.StackMem.length ∧
      (∀ i, i ≠ cfg.STACK_LOCATION_PSR → i ≠ cfg.END_OF_STACK →
        i ≠ cfg.STACK_LOCATION_PC → i ≠ cfg.STACK_LOCATION_R9 →
        tcb1.StackMem[i]? = tcb.StackMem[i]?) ∧
      (pcb.DataSection = 0 →
        ∀ i, i ≠ cfg.STACK_LOCATION_PSR → i ≠ cfg.END_OF_STACK →
          i ≠ cfg.STACK_LOCATION_PC → tcb1.StackMem[i]? = tcb.StackMem[i]?) ∧
      (∀ fuel0, pcbAndTcbInit cfg fuel0 (Pcbs cfg) = .ok s →
        pcb.DataSection = 0 ∧
        (cfg.STACK_LOCATION_R9 ≠ cfg.STACK_LOCATION_PSR →
          cfg.STACK_LOCATION_R9 ≠ cfg.END_OF_STACK →
          cfg.STACK_LOCATION_R9 ≠ cfg.STACK_LOCATION_PC →
          cfg.STACK_LOCATION_R9 < cfg.STACK_SIZE →
          tcb1.StackMem[cfg.STACK_LOCATION_R9]? = some 0)) := by
  obtain ⟨T, pcb1, tcb, tcb1, hT, hp, _, ht, hrdy, hlow, hadm, hs1⟩ := osAdd_eq_success h
  rw [h0] at hp
  cases hp
  obtain ⟨_, htcb1⟩ := admitTcb_eq_ok.mp hadm
  refine ⟨T, tcb, tcb1, hT, entry_eq_some.mpr ⟨pcb, h0, ht⟩, hrdy, hlow, ?_, ?_, ?_, ?_, ?_⟩
  · rw [hs1]
    exact entry_put_self h0 ht tcb1
  · rw [htcb1]
    exact admittedStack_length cfg pcb.DataSection E tcb.StackMem
  · intro i h1 h2 h3 h4
    rw [htcb1]
    exact admittedStack_other E tcb.StackMem h1 h2 h3 (Or.inr h4)
  · intro hD i h1 h2 h3
    rw [htcb1]
    exact admittedStack_other E tcb.StackMem h1 h2 h3 (Or.inl hD)
  · intro fuel0 hboot
    obtain ⟨_, hD, hth⟩ := booted_zero_fields hboot 0 pcb h0
    refine ⟨hD, ?_⟩
    intro h1 h2 h3 hlt
    rw [htcb1]
    show (admittedStack cfg pcb.DataSection E tcb.StackMem)[cfg.STACK_LOCATION_R9]? = some 0
    rw [admittedStack_other E tcb.StackMem h1 h2 h3 (Or.inl hD), (hth T tcb ht).2,
      List.getElem?_replicate, if_pos hlt]

/-- Instance of C16: the first admission on the booted table of `smallCfg`. -/
theorem osAddForegroundThread_stack_words_kept_witness :
    ∃ Tid tcb tcb1, Tid < smallCfg.MAXIMUM_NUMBER_OF_THREADS ∧
      entry bootedSmall 0 Tid = some tcb ∧ tcb.Status = .Ready ∧
      NoReadyBelow bootedSmall 0 Tid ∧
      entry admittedSmall 0 Tid = some tcb1 ∧ tcb1.StackMem.length = tcb.StackMem.length ∧
      (∀ i, i ≠ smallCfg.STACK_LOCATION_PSR → i ≠ smallCfg.END_OF_STACK →
        i ≠ smallCfg.STACK_LOCATION_PC → i ≠ smallCfg.STACK_LOCATION_R9 →
        tcb1.StackMem[i]? = tcb.StackMem[i]?) ∧
      (bootedSmallPcb.DataSection = 0 →
        ∀ i, i ≠ smallCfg.STACK_LOCATION_PSR → i ≠ smallCfg.END_OF_STACK →
          i ≠ smallCfg.STACK_LOCATION_PC → tcb1.StackMem[i]? = tcb.StackMem[i]?) ∧
      (∀ fuel0, pcbAndTcbInit smallCfg fuel0 (Pcbs smallCfg) = .ok bootedSmall →
        bootedSmallPcb.DataSection = 0 ∧
        (smallCfg.STACK_LOCATION_R9 ≠ smallCfg.STACK_LOCATION_PSR →
          smallCfg.STACK_LOCATION_R9 ≠ smallCfg.END_OF_STACK →
          smallCfg.STACK_LOCATION_R9 ≠ smallCfg.STACK_LOCATION_PC →
          smallCfg.STACK_LOCATION_R9 < smallCfg.STACK_SIZE →
          tcb1.StackMem[smallCfg.STACK_LOCATION_R9]? = some 0)) :=
  osAddForegroundThread_stack_words_kept smallCfg 3 bootedSmall admittedSmall 0x8001 64 7
    bootedSmallPcb (by decide) rfl

/-! ## Indices stay in range (C18) -/

theorem shape_of_eraseIds_eq {cfg : Config} {s s1 : PcbTable}
    (he : eraseIds s1 = eraseIds s) (hlen : s.length = cfg.MAXIMUM_NUMBER_OF_PROCESSES)
    (hshape : ∀ (p : Nat) (pcb : PROCESS_CONTROL_BLOCK), s[p]? = some pcb →
      pcb.Tcbs.length = cfg.MAXIMUM_NUMBER_OF_THREADS) :
    s1.length = cfg.MAXIMUM_NUMBER_OF_PROCESSES ∧
    ∀ (p : Nat) (pcb : PROCESS_CONTROL_BLOCK), s1[p]? = some pcb →
      pcb.Tcbs.length = cfg.MAXIMUM_NUMBER_OF_THREADS := by
  obtain ⟨hl, hf⟩ := fields_of_eraseIds_eq he
  refine ⟨hl.trans hlen, ?_⟩
  intro p pcb1 hp1
  obtain ⟨pcb, hp, _, _, hL, _⟩ := hf p pcb1 hp1
  rw [hL]
  exact hshape p pcb hp

/-- The inner loop of `pcbAndTcbInit` makes no out-of-range access when the process entry
has `MAXIMUM_NUMBER_OF_THREADS` thread entries. -/
theorem threadLoop_ne_fault {cfg : Config} {Pid : Nat} :
    ∀ (fuel Tid : Nat) (s : PcbTable),
      (∃ pcb, s[Pid]? = some pcb ∧ pcb.Tcbs.length = cfg.MAXIMUM_NUMBER_OF_THREADS) →
      pcbAndTcbInit.threadLoop cfg Pid fuel Tid s ≠ .fault := by
  intro fuel
  induction fuel with
  | zero =>
    intro Tid s _ h
    simp [pcbAndTcbInit.threadLoop] at h
  | succ n ih =>
    intro Tid s hs
    obtain ⟨pcb, hp, hlen⟩ := hs
    unfold pcbAndTcbInit.threadLoop
    by_cases hlt : Tid < cfg.MAXIMUM_NUMBER_OF_THREADS
    · rw [if_pos hlt]
      have hT : Tid < pcb.Tcbs.length := by omega
      have ht : pcb.Tcbs[Tid]? = some pcb.Tcbs[Tid] := List.getElem?_eq_getElem hT
      rw [modifyTcb_of_entry hp ht, Exec.bind_ok, Exec.bind_ok]
      exact ih _ _ ⟨_, put_getElem? hp Tid _, by simpa using hlen⟩
    · rw [if_neg hlt]
      simp

/-- The outer loop of `pcbAndTcbInit` makes no out-of-range access on a table of the declared
shape. -/
theorem processLoop_ne_fault {cfg : Config} {bound : Nat} :
    ∀ (fuel Pid : Nat) (s : PcbTable),
      s.length = cfg.MAXIMUM_NUMBER_OF_PROCESSES →
      (∀ (p : Nat) (pcb : PROCESS_CONTROL_BLOCK), s[p]? = some pcb →
        pcb.Tcbs.length = cfg.MAXIMUM_NUMBER_OF_THREADS) →
      pcbAndTcbInit.processLoop cfg bound fuel Pid s ≠ .fault := by
  intro fuel
  induction fuel with
  | zero =>
    intro Pid s _ _ h
    simp [pcbAndTcbInit.processLoop] at h
  | succ n ih =>
    intro Pid s hlen hshape
    unfold pcbAndTcbInit.processLoop
    by_cases hlt : Pid < cfg.MAXIMUM_NUMBER_OF_PROCESSES
    · rw [if_pos hlt]
      have hPl : Pid < s.length := by omega
      have hp : s[Pid]? = some s[Pid] := List.getElem?_eq_getElem hPl
      have hp1 : (s.set Pid { s[Pid] with ProcessId := Pid })[Pid]?
          = some { s[Pid] with ProcessId := Pid } := by
        simp [List.getElem?_set, hPl]
      have he1 : eraseIds (s.set Pid { s[Pid] with ProcessId := Pid }) = eraseIds s :=
        eraseIds_set hp rfl
      unfold modifyPcb
      rw [hp]
      simp only [Exec.bind_ok]
      cases hloop : pcbAndTcbInit.threadLoop cfg Pid bound 0
          (s.set Pid { s[Pid] with ProcessId := Pid }) with
      | ok s2 =>
        rw [Exec.bind_ok]
        have he2 := (threadLoop_eraseIds bound 0 _ s2 hloop).trans he1
        obtain ⟨hl2, hs2⟩ := shape_of_eraseIds_eq he2 hlen hshape
        exact ih _ s2 hl2 hs2
      | fault =>
        exact absurd hloop (threadLoop_ne_fault bound 0 _ ⟨_, hp1, hshape Pid s[Pid] hp⟩)
      | timeout => simp
    · rw [if_neg hlt]
      simp

/-- The scan of `osAddForegroundThread` makes no out-of-range access when the process entry
has at least `MAXIMUM_NUMBER_OF_THREADS` thread entries and the written stack slots are
inside every stack. -/
theorem scan_ne_fault {cfg : Config} {Pid Thread Priority : Nat} {s : PcbTable}
    {pcb : PROCESS_CONTROL_BLOCK} (hp : s[Pid]? = some pcb)
    (hlen : cfg.MAXIMUM_NUMBER_OF_THREADS ≤ pcb.Tcbs.length)
    (hslots : ∀ tcb ∈ pcb.Tcbs, SlotsInRange cfg pcb.DataSection tcb.StackMem.length) :
    ∀ (fuel Tid : Nat),
      osAddForegroundThread.scan cfg Pid Thread Priority fuel Tid s ≠ .fault := by
  intro fuel
  induction fuel with
  | zero =>
    intro Tid h
    simp [osAddForegroundThread.scan] at h
  | succ n ih =>
    intro Tid
    unfold osAddForegroundThread.scan
    by_cases hlt : Tid < cfg.MAXIMUM_NUMBER_OF_THREADS
    · rw [if_pos hlt]
      have hT : Tid < pcb.Tcbs.length := by omega
      have ht : pcb.Tcbs[Tid]? = some pcb.Tcbs[Tid] := List.getElem?_eq_getElem hT
      have hread : readTcb s Pid Tid = .ok pcb.Tcbs[Tid] :=
        readTcb_eq_ok.mpr (entry_eq_some.mpr ⟨pcb, hp, ht⟩)
      rw [hread, Exec.bind_ok]
      by_cases hr : pcb.Tcbs[Tid].Status = .Ready
      · rw [if_pos hr, found_of_entry cfg hp ht]
        have hmem : pcb.Tcbs[Tid] ∈ pcb.Tcbs := List.getElem_mem hT
        have hok : admitTcb cfg pcb.DataSection Thread Priority pcb.Tcbs[Tid] = .ok _ :=
          admitTcb_eq_ok.mpr ⟨hslots _ hmem, rfl⟩
        rw [hok]
        simp
      · rw [if_neg hr]
        exact ih _
    · rw [if_neg hlt]
      simp

/-- On a well-formed table `stackInitForTcb` returns for every entry when its three stack
indices are in range. -/
theorem stackInitForTcb_returns {cfg : Config} {s : PcbTable} {Pid Tid : Nat}
    (hwf : WellFormed cfg s) (hPid : Pid < cfg.MAXIMUM_NUMBER_OF_PROCESSES)
    (hTid : Tid < cfg.MAXIMUM_NUMBER_OF_THREADS)
    (hI : cfg.INITIAL_STACK_POINTER ≤ cfg.STACK_SIZE)
    (hPSR : cfg.STACK_LOCATION_PSR < cfg.STACK_SIZE)
    (hEND : cfg.END_OF_STACK < cfg.STACK_SIZE) :
    ∃ s1, stackInitForTcb cfg s Pid Tid = .ok s1 := by
  have hPl : Pid < s.length := by
    rw [hwf.1]
    exact hPid
  have hp : s[Pid]? = some s[Pid] := List.getElem?_eq_getElem hPl
  obtain ⟨hlen, hstk⟩ := hwf.2 s[Pid] (List.getElem_mem hPl)
  have hTl : Tid < s[Pid].Tcbs.length := by
    rw [hlen]
    exact hTid
  have ht : s[Pid].Tcbs[Tid]? = some s[Pid].Tcbs[Tid] := List.getElem?_eq_getElem hTl
  have hmem := hstk _ (List.getElem_mem hTl)
  unfold stackInitForTcb
  rw [modifyTcb_of_entry hp ht]
  simp [pointStack, storeStack, modifyTcb_put hp ht, hmem, hI, hPSR, hEND]

/-- C18: with bounds-checked indexing, on a well-formed table and under the configuration
preconditions (`MAXIMUM_NUMBER_OF_PROCESSES ≥ 1` and the five stack indices below the length
of `StackMem`), `pcbAndTcbInit` and `osAddForegroundThread` never take the out-of-range
branch, whatever number of iterations is allowed, and `stackInitForTcb` returns for every
process index below `MAXIMUM_NUMBER_OF_PROCESSES` and thread index below
`MAXIMUM_NUMBER_OF_THREADS`, in particular for the entry admission calls it on. -/
theorem no_out_of_range_access (cfg : Config) (fuel : Nat) (s : PcbTable)
    (Thread StackSize Priority : Nat) (hwf : WellFormed cfg s)
    (hP1 : 1 ≤ cfg.MAXIMUM_NUMBER_OF_PROCESSES)
    (hI : cfg.INITIAL_STACK_POINTER < cfg.STACK_SIZE)
    (hPSR : cfg.STACK_LOCATION_PSR < cfg.STACK_SIZE)
    (hPC : cfg.STACK_LOCATION_PC < cfg.STACK_SIZE)
    (hR9 : cfg.STACK_LOCATION_R9 < cfg.STACK_SIZE)
    (hEND : cfg.END_OF_STACK < cfg.STACK_SIZE) :
    pcbAndTcbInit cfg fuel s ≠ .fault ∧
    osAddForegroundThread cfg fuel s Thread StackSize Priority ≠ .fault ∧
    ∀ Pid Tid, Pid < cfg.MAXIMUM_NUMBER_OF_PROCESSES → Tid < cfg.MAXIMUM_NUMBER_OF_THREADS →
      ∃ s1, stackInitForTcb cfg s Pid Tid = .ok s1 := by
  refine ⟨?_, ?_, ?_⟩
  · unfold pcbAndTcbInit
    exact processLoop_ne_fault fuel 0 s hwf.1 (wellFormed_shape hwf)
  · have h0l : 0 < s.length := by
      rw [hwf.1]
      exact hP1
    have h0 : s[0]? = some s[0] := List.getElem?_eq_getElem h0l
    obtain ⟨hlen, hstk⟩ := hwf.2 s[0] (List.getElem_mem h0l)
    unfold osAddForegroundThread readPcb
    rw [h0]
    simp only [Exec.bind_ok]
    by_cases hn : s[0].NumberOfThreads = cfg.MAXIMUM_NUMBER_OF_THREADS
    · rw [if_pos hn]
      simp
    · rw [if_neg hn]
      apply scan_ne_fault h0 (le_of_eq hlen.symm)
      intro tcb htcb
      rw [hstk tcb htcb]
      exact ⟨le_of_lt hI, hPSR, hEND, hPC, fun _ => hR9⟩
  · intro Pid Tid hPid hTid
    exact stackInitForTcb_returns hwf hPid hTid (le_of_lt hI) hPSR hEND

/-- Instance of C18 on `dataSmall`, whose process 0 has a data section. -/
theorem no_out_of_range_access_witness :
    WellFormed smallCfg dataSmall ∧
    pcbAndTcbInit smallCfg 3 dataSmall ≠ .fault ∧
    osAddForegroundThread smallCfg 3 dataSmall 0x8005 64 9 ≠ .fault ∧
    ∀ Pid Tid, Pid < smallCfg.MAXIMUM_NUMBER_OF_PROCESSES →
      Tid < smallCfg.MAXIMUM_NUMBER_OF_THREADS →
      ∃ s1, stackInitForTcb smallCfg dataSmall Pid Tid = .ok s1 :=
  ⟨by decide,
    no_out_of_range_access smallCfg 3 dataSmall 0x8005 64 9 (by decide) (by decide)
      (by decide) (by decide) (by decide) (by decide) (by decide)⟩

/-! ## The thread count of process 0 (C14, C20) -/

theorem runningCount_set {Tcbs : List THREAD_CONTROL_BLOCK} {T : Nat}
    {tcb tcb1 : THREAD_CONTROL_BLOCK} (ht : Tcbs[T]? = some tcb)
    (h0 : tcb.Status = .Ready) (h1 : tcb1.Status = .Running) :
    runningCount (Tcbs.set T tcb1) = runningCount Tcbs + 1 := by
  obtain ⟨hlt, hget⟩ := List.getElem?_eq_some.mp ht
  unfold runningCount
  rw [List.countP_set _ _ _ _ hlt, hget]
  simp [h0, h1]

/-- In every reachable table process 0 has thread count 0 and no data section, and its
number of `Running` entries is the number of calls that returned `OsSuccess`. -/
theorem reached_invariant {cfg : Config} (hP1 : 1 ≤ cfg.MAXIMUM_NUMBER_OF_PROCESSES)
    {sts : List OS_STATUS} {s : PcbTable} (hr : Reached cfg sts s) :
    WellFormed cfg s ∧ cfg.MAXIMUM_NUMBER_OF_THREADS ≤ 255 ∧
    ∃ pcb, s[0]? = some pcb ∧ pcb.NumberOfThreads = 0 ∧ pcb.DataSection = 0 ∧
      runningCount pcb.Tcbs = successCount sts := by
  induction hr with
  | boot fuel s0 h =>
    have hwf := wellFormed_of_eraseIds_eq (pcbAndTcbInit_eraseIds h) (wellFormed_Pcbs cfg)
    have hb := (pcbAndTcbInit_ok_bounds h).2.2 (by omega)
    have h0l : 0 < s0.length := by
      rw [hwf.1]
      exact hP1
    have h0 : s0[0]? = some s0[0] := List.getElem?_eq_getElem h0l
    obtain ⟨hN, hD, hth⟩ := booted_zero_fields h 0 s0[0] h0
    refine ⟨hwf, hb.1, s0[0], h0, hN, hD, ?_⟩
    show runningCount s0[0].Tcbs = 0
    unfold runningCount
    rw [List.countP_eq_zero]
    intro tcb hmem
    obtain ⟨t, ht⟩ := List.mem_iff_getElem?.mp hmem
    simp [(hth t tcb ht).1]
  | call fuel sts s Thread StackSize Priority st s1 _ hcall ih =>
    obtain ⟨hwf, h255, pcb, h0, hN, hD, hcount⟩ := ih
    cases st with
    | OsOutOfResource =>
      have hs1 := (osAdd_eq_outOfResource hcall).1
      subst hs1
      refine ⟨hwf, h255, pcb, h0, hN, hD, ?_⟩
      rw [hcount]
      simp [successCount, List.countP_append]
    | OsSuccess =>
      obtain ⟨T, pcb1, tcb, tcb1, _, hp, _, ht, hrdy, _, hadm, hs1⟩ := osAdd_eq_success hcall
      rw [h0] at hp
      cases hp
      obtain ⟨_, htcb1⟩ := admitTcb_eq_ok.mp hadm
      have hrun : tcb1.Status = .Running := by rw [htcb1]
      have hmem : tcb ∈ pcb.Tcbs := List.mem_iff_getElem?.mpr ⟨T, ht⟩
      have hstk := (hwf.2 pcb (List.mem_iff_getElem?.mpr ⟨0, h0⟩)).2 tcb hmem
      have hwf1 : WellFormed cfg s1 := by
        rw [hs1]
        apply wellFormed_put hwf h0
        rw [htcb1]
        simp only [admittedStack_length]
        exact hstk
      refine ⟨hwf1, h255, { pcb with Tcbs := pcb.Tcbs.set T tcb1 },
        by rw [hs1]; exact put_getElem? h0 _ _, hN, hD, ?_⟩
      show runningCount (pcb.Tcbs.set T tcb1) = _
      rw [runningCount_set ht hrdy hrun, hcount]
      simp [successCount, List.countP_append]

/-- C14 (the code at the failing input): after `pcbAndTcbInit` and one successful call on
the configuration `smallCfg`, the reached table `admittedSmall` has one `Running` entry in
process 0, one call has returned `OsSuccess`, and `Pcbs[0].NumberOfThreads` is still 0. -/
theorem numberOfThreads_not_counted :
    Reached smallCfg [.OsSuccess] admittedSmall ∧
    ∃ pcb, admittedSmall[0]? = some pcb ∧ pcb.NumberOfThreads = 0 ∧
      runningCount pcb.Tcbs = 1 ∧ successCount [.OsSuccess] = 1 := by
  refine ⟨?_, admittedSmallPcb, rfl, rfl, by decide, by decide⟩
  exact Reached.call 3 [] bootedSmall 0x8001 64 7 .OsSuccess admittedSmall
    (Reached.boot 3 bootedSmall (by decide)) (by decide)

/-- C20: `osAddForegroundThread` never writes `NumberOfThreads`: in every table reachable
from the booted table by calls of `osAddForegroundThread` (with at least one process and a
thread capacity of at least 1) `Pcbs[0].NumberOfThreads` is 0, so the early-return test is
false; a call returns `OsOutOfResource` exactly when no thread entry of process 0 is
`Ready`; a call returns when it is allowed more iterations than the capacity and the frame
slots are inside `StackMem`; and at most `MAXIMUM_NUMBER_OF_THREADS` of the calls made so
far have returned `OsSuccess`. -/
theorem numberOfThreads_stays_zero (cfg : Config) (sts : List OS_STATUS) (s : PcbTable)
    (hP1 : 1 ≤ cfg.MAXIMUM_NUMBER_OF_PROCESSES) (hT1 : 1 ≤ cfg.MAXIMUM_NUMBER_OF_THREADS)
    (hr : Reached cfg sts s) :
    ∃ pcb, s[0]? = some pcb ∧ pcb.NumberOfThreads = 0 ∧
      pcb.NumberOfThreads ≠ cfg.MAXIMUM_NUMBER_OF_THREADS ∧
      (∀ fuel Thread StackSize Priority st s1,
        osAddForegroundThread cfg fuel s Thread StackSize Priority = .ok (st, s1) →
        (st = .OsOutOfResource ↔ ∀ tcb ∈ pcb.Tcbs, tcb.Status ≠ .Ready)) ∧
      (∀ fuel Thread StackSize Priority, cfg.MAXIMUM_NUMBER_OF_THREADS < fuel →
        SlotsInRange cfg 0 cfg.STACK_SIZE →
        ∃ st s1, osAddForegroundThread cfg fuel s Thread StackSize Priority
          = .ok (st, s1)) ∧
      successCount sts ≤ cfg.MAXIMUM_NUMBER_OF_THREADS := by
  obtain ⟨hwf, h255, pcb, h0, hN, hD, hcount⟩ := reached_invariant hP1 hr
  have hlen := wellFormed_shape hwf 0 pcb h0
  refine ⟨pcb, h0, hN, by omega, ?_, ?_, ?_⟩
  · intro fuel Thread StackSize Priority st s1 hcall
    cases st with
    | OsOutOfResource =>
      obtain ⟨_, pcb1, hp, hcase⟩ := osAdd_eq_outOfResource hcall
      rw [h0] at hp
      cases hp
      have hall : ∀ tcb ∈ pcb.Tcbs, tcb.Status ≠ .Ready := by
        rcases hcase with h | h
        · omega
        · intro tcb htcb
          obtain ⟨n, hn⟩ := List.mem_iff_getElem?.mp htcb
          have hnlt : n < pcb.Tcbs.length := (List.getElem?_eq_some.mp hn).1
          exact h n (by omega) tcb (entry_eq_some.mpr ⟨pcb, h0, hn⟩)
      exact ⟨fun _ => hall, fun _ => rfl⟩
    | OsSuccess =>
      obtain ⟨T, pcb1, tcb, _, _, hp, _, ht, hrdy, _, _, _⟩ := osAdd_eq_success hcall
      rw [h0] at hp
      cases hp
      have hnot : ¬ ∀ tcb ∈ pcb.Tcbs, tcb.Status ≠ .Ready :=
        fun h => h tcb (List.mem_iff_getElem?.mpr ⟨T, ht⟩) hrdy
      exact ⟨fun h => OS_STATUS.noConfusion h, fun h => absurd h hnot⟩
  · intro fuel Thread StackSize Priority hfuel hslots
    obtain ⟨⟨st, s1⟩, hcall⟩ := osAdd_returns cfg fuel s Thread StackSize Priority pcb hwf h0
      h255 hfuel (by rw [hD]; exact hslots)
    exact ⟨st, s1, hcall⟩
  · rw [← hcount, ← hlen]
    exact List.countP_le_length _

/-- Instance of C20 on the table reached by one successful call on `smallCfg`. -/
theorem numberOfThreads_stays_zero_witness :
    Reached smallCfg [.OsSuccess] admittedSmall ∧
    ∃ pcb, admittedSmall[0]? = some pcb ∧ pcb.NumberOfThreads = 0 ∧
      pcb.NumberOfThreads ≠ smallCfg.MAXIMUM_NUMBER_OF_THREADS ∧
      (∀ fuel Thread StackSize Priority st s1,
        osAddForegroundThread smallCfg fuel admittedSmall Thread StackSize Priority
          = .ok (st, s1) →
        (st = .OsOutOfResource ↔ ∀ tcb ∈ pcb.Tcbs, tcb.Status ≠ .Ready)) ∧
      (∀ fuel Thread StackSize Priority, smallCfg.MAXIMUM_NUMBER_OF_THREADS < fuel →
        SlotsInRange smallCfg 0 smallCfg.STACK_SIZE →
        ∃ st s1, osAddForegroundThread smallCfg fuel admittedSmall Thread StackSize Priority
          = .ok (st, s1)) ∧
      successCount [.OsSuccess] ≤ smallCfg.MAXIMUM_NUMBER_OF_THREADS :=
  ⟨Reached.call 3 [] bootedSmall 0x8001 64 7 .OsSuccess admittedSmall
      (Reached.boot 3 bootedSmall (by decide)) (by decide),
    numberOfThreads_stays_zero smallCfg [.OsSuccess] admittedSmall (by decide) (by decide)
      (Reached.call 3 [] bootedSmall 0x8001 64 7 .OsSuccess admittedSmall
        (Reached.boot 3 bootedSmall (by decide)) (by decide))⟩

/-! ## The logged functions compute what the plain ones compute -/

@[simp] theorem Exec.map_ok {α β : Type} (f : α → β) (a : α) :
    (Exec.ok a).map f = .ok (f a) := rfl

@[simp] theorem Exec.map_fault {α β : Type} (f : α → β) :
    (Exec.fault : Exec α).map f = .fault := rfl

@[simp] theorem Exec.map_timeout {α β : Type} (f : α → β) :
    (Exec.timeout : Exec α).map f = .timeout := rfl

theorem Exec.map_eq_ok {α β : Type} {f : α → β} {x : Exec α} {b : β}
    (h : x.map f = .ok b) : ∃ a, x = .ok a ∧ f a = b := by
  cases x with
  | ok a =>
    simp only [Exec.map_ok, Exec.ok.injEq] at h
    exact ⟨a, rfl, h⟩
  | fault => simp at h
  | timeout => simp at h

theorem Exec.map_eq_timeout {α β : Type} {f : α → β} {x : Exec α}
    (h : x.map f = .timeout) : x = .timeout := by
  cases x <;> simp at h ⊢

@[simp] theorem log_table (e : Event) (m : Machine) : (Traced.log e m).table = m.table := rfl

@[simp] theorem log_interruptsEnabled (e : Event) (m : Machine) :
    (Traced.log e m).interruptsEnabled = m.interruptsEnabled := rfl

@[simp] theorem log_trace (e : Event) (m : Machine) :
    (Traced.log e m).trace = m.trace ++
      [{ event := e, interruptsEnabled := m.interruptsEnabled, table := m.table }] := rfl

/-- Sequencing preserves the correspondence between a logged and a plain execution. -/
theorem map_bind_refines {α β : Type} {x : Exec Machine} {y : Exec PcbTable}
    {g : Machine → Exec α} {k : PcbTable → Exec β} {proj : α → β}
    (hxy : x.map Machine.table = y) (hgk : ∀ m, (g m).map proj = k m.table) :
    (x.bind g).map proj = y.bind k := by
  subst hxy
  cases x with
  | ok m => simp [hgk]
  | fault => rfl
  | timeout => rfl

theorem traced_modifyTcb_map (m : Machine) (Pid Tid : Nat)
    (f : THREAD_CONTROL_BLOCK → Exec THREAD_CONTROL_BLOCK) :
    (Traced.modifyTcb m Pid Tid f).map Machine.table = modifyTcb m.table Pid Tid f := by
  unfold Traced.modifyTcb
  cases modifyTcb m.table Pid Tid f <;> rfl

theorem traced_modifyPcb_map (m : Machine) (Pid : Nat)
    (f : PROCESS_CONTROL_BLOCK → PROCESS_CONTROL_BLOCK) :
    (Traced.modifyPcb m Pid f).map Machine.table = modifyPcb m.table Pid f := by
  unfold Traced.modifyPcb
  cases modifyPcb m.table Pid f <;> rfl

theorem traced_threadLoop_map {cfg : Config} {Pid : Nat} :
    ∀ (fuel Tid : Nat) (m : Machine),
      (Traced.pcbAndTcbInit.threadLoop cfg Pid fuel Tid m).map Machine.table
        = pcbAndTcbInit.threadLoop cfg Pid fuel Tid m.table := by
  intro fuel
  induction fuel with
  | zero =>
    intro Tid m
    rfl
  | succ n ih =>
    intro Tid m
    unfold Traced.pcbAndTcbInit.threadLoop pcbAndTcbInit.threadLoop
    by_cases hlt : Tid < cfg.MAXIMUM_NUMBER_OF_THREADS
    · rw [if_pos hlt, if_pos hlt]
      exact map_bind_refines (traced_modifyTcb_map m Pid Tid _) (ih _)
    · rw [if_neg hlt, if_neg hlt]
      rfl

theorem traced_processLoop_map {cfg : Config} {bound : Nat} :
    ∀ (fuel Pid : Nat) (m : Machine),
      (Traced.pcbAndTcbInit.processLoop cfg bound fuel Pid m).map Machine.table
        = pcbAndTcbInit.processLoop cfg bound fuel Pid m.table := by
  intro fuel
  induction fuel with
  | zero =>
    intro Pid m
    rfl
  | succ n ih =>
    intro Pid m
    unfold Traced.pcbAndTcbInit.processLoop pcbAndTcbInit.processLoop
    by_cases hlt : Pid < cfg.MAXIMUM_NUMBER_OF_PROCESSES
    · rw [if_pos hlt, if_pos hlt]
      apply map_bind_refines (traced_modifyPcb_map m Pid _)
      intro m1
      exact map_bind_refines (traced_threadLoop_map bound 0 m1) (ih _)
    · rw [if_neg hlt, if_neg hlt]
      rfl

/-- The logged `pcbAndTcbInit` returns the table the plain one returns, and fails as it
does. -/
theorem traced_pcbAndTcbInit_map (cfg : Config) (fuel : Nat) (m : Machine) :
    (Traced.pcbAndTcbInit cfg fuel m).map Machine.table = pcbAndTcbInit cfg fuel m.table :=
  traced_processLoop_map fuel 0 m

theorem traced_stackInitForTcb_map (cfg : Config) (m : Machine) (Pid Tid : Nat) :
    (Traced.stackInitForTcb cfg m Pid Tid).map Machine.table
      = stackInitForTcb cfg m.table Pid Tid := by
  unfold Traced.stackInitForTcb stackInitForTcb
  apply map_bind_refines (traced_modifyTcb_map _ Pid Tid _)
  intro m1
  apply map_bind_refines (traced_modifyTcb_map m1 Pid Tid _)
  intro m2
  exact traced_modifyTcb_map m2 Pid Tid _

theorem traced_found_map (cfg : Config) (m : Machine) (Pid Tid Thread Priority : Nat) :
    (Traced.osAddForegroundThread.found cfg m Pid Tid Thread Priority).map Machine.table
      = osAddForegroundThread.found cfg m.table Pid Tid Thread Priority := by
  unfold Traced.osAddForegroundThread.found osAddForegroundThread.found
  apply map_bind_refines (traced_modifyTcb_map m Pid Tid _)
  intro m1
  apply map_bind_refines (traced_stackInitForTcb_map cfg m1 Pid Tid)
  intro m2
  apply map_bind_refines (traced_modifyTcb_map m2 Pid Tid _)
  intro m3
  unfold Traced.readPcb
  cases hread : readPcb m3.table Pid with
  | fault => rfl
  | timeout => rfl
  | ok pcb =>
    simp only [Exec.bind_ok]
    by_cases hD : pcb.DataSection = 0
    · simp only [hD, ne_eq, not_true_eq_false, if_false, Exec.bind_ok]
      exact traced_modifyTcb_map _ Pid Tid _
    · simp only [hD, ne_eq, not_false_eq_true, if_true, log_table, hread, Exec.bind_ok]
      apply map_bind_refines (traced_modifyTcb_map _ Pid Tid _)
      intro m4
      exact traced_modifyTcb_map m4 Pid Tid _

theorem traced_scan_map {cfg : Config} {Pid Thread Priority : Nat} :
    ∀ (fuel Tid : Nat) (m : Machine),
      (Traced.osAddForegroundThread.scan cfg Pid Thread Priority fuel Tid m).map
          (fun r => (r.1, r.2.table))
        = osAddForegroundThread.scan cfg Pid Thread Priority fuel Tid m.table := by
  intro fuel
  induction fuel with
  | zero =>
    intro Tid m
    rfl
  | succ n ih =>
    intro Tid m
    unfold Traced.osAddForegroundThread.scan osAddForegroundThread.scan
    by_cases hlt : Tid < cfg.MAXIMUM_NUMBER_OF_THREADS
    · rw [if_pos hlt, if_pos hlt]
      unfold Traced.readTcb
      cases hread : readTcb m.table Pid Tid with
      | fault => rfl
      | timeout => rfl
      | ok tcb =>
        simp only [Exec.bind_ok]
        by_cases hr : tcb.Status = .Ready
        · rw [if_pos hr, if_pos hr]
          have hf := traced_found_map cfg (Traced.log (.readTcb Pid Tid) m) Pid Tid Thread
            Priority
          rw [log_table] at hf
          rw [← hf]
          cases Traced.osAddForegroundThread.found cfg (Traced.log (.readTcb Pid Tid) m)
            Pid Tid Thread Priority <;> rfl
        · rw [if_neg hr, if_neg hr]
          exact ih _ _
    · rw [if_neg hlt, if_neg hlt]
      rfl

/-- The logged `osAddForegroundThread` returns the status and the table the plain one
returns, and fails as it does. -/
theorem traced_osAddForegroundThread_map (cfg : Config) (fuel : Nat) (m : Machine)
    (Thread StackSize Priority : Nat) :
    (Traced.osAddForegroundThread cfg fuel m Thread StackSize Priority).map
        (fun r => (r.1, r.2.table))
      = osAddForegroundThread cfg fuel m.table Thread StackSize Priority := by
  unfold Traced.osAddForegroundThread osAddForegroundThread Traced.readPcb
  have ht : (Traced.disableInterrupts m).table = m.table := rfl
  rw [ht]
  cases hread : readPcb m.table 0 with
  | fault => rfl
  | timeout => rfl
  | ok pcb =>
    simp only [Exec.bind_ok]
    by_cases hn : pcb.NumberOfThreads = cfg.MAXIMUM_NUMBER_OF_THREADS
    · rw [if_pos hn, if_pos hn]
      rfl
    · rw [if_neg hn, if_neg hn]
      have hs : (Traced.osAddForegroundThread.scan cfg 0 Thread Priority fuel 0
            (Traced.log (.readPcb 0) (Traced.disableInterrupts m))).map
            (fun r => (r.1, r.2.table))
          = osAddForegroundThread.scan cfg 0 Thread Priority fuel 0
            (Traced.log (.readPcb 0) (Traced.disableInterrupts m)).table :=
        traced_scan_map fuel 0 _
      rw [log_table, ht] at hs
      rw [← hs]
      cases Traced.osAddForegroundThread.scan cfg 0 Thread Priority fuel 0
        (Traced.log (.readPcb 0) (Traced.disableInterrupts m)) <;> rfl

/-! ## Runs under an unchanged interrupt mask -/

theorem run_refl (P : Step → Prop) (m : Machine) : Run P m m :=
  ⟨rfl, [], by simp, by simp⟩

theorem run_trans {P : Step → Prop} {m m1 m2 : Machine} (h1 : Run P m m1)
    (h2 : Run P m1 m2) : Run P m m2 := by
  obtain ⟨hm1, b1, ht1, hb1⟩ := h1
  obtain ⟨hm2, b2, ht2, hb2⟩ := h2
  refine ⟨hm2.trans hm1, b1 ++ b2, by rw [ht2, ht1, List.append_assoc], ?_⟩
  intro st hst
  rcases List.mem_append.mp hst with h | h
  · exact hb1 st h
  · obtain ⟨ha, hb⟩ := hb2 st h
    exact ⟨ha.trans hm1, hb⟩

theorem run_mono {P Q : Step → Prop} {m m1 : Machine} (hPQ : ∀ st, P st → Q st)
    (h : Run P m m1) : Run Q m m1 := by
  obtain ⟨hm1, b1, ht1, hb1⟩ := h
  exact ⟨hm1, b1, ht1, fun st hst => ⟨(hb1 st hst).1, hPQ st (hb1 st hst).2⟩⟩

theorem run_write {P : Step → Prop} (e : Event) (m : Machine) (t : PcbTable)
    (h : P { event := e, interruptsEnabled := m.interruptsEnabled, table := m.table }) :
    Run P m { Traced.log e m with table := t } := by
  refine ⟨rfl, [{ event := e, interruptsEnabled := m.interruptsEnabled, table := m.table }],
    rfl, ?_⟩
  intro st hst
  rw [List.mem_singleton] at hst
  subst hst
  exact ⟨rfl, h⟩

theorem run_log {P : Step → Prop} (e : Event) (m : Machine)
    (h : P { event := e, interruptsEnabled := m.interruptsEnabled, table := m.table }) :
    Run P m (Traced.log e m) :=
  run_write e m m.table h

theorem traced_modifyTcb_ok {m m1 : Machine} {Pid Tid : Nat}
    {f : THREAD_CONTROL_BLOCK → Exec THREAD_CONTROL_BLOCK}
    (h : Traced.modifyTcb m Pid Tid f = .ok m1) :
    ∃ t, modifyTcb m.table Pid Tid f = .ok t ∧
      m1 = { Traced.log (.writeTcb Pid Tid) m with table := t } := by
  unfold Traced.modifyTcb at h
  obtain ⟨t, h1, h2⟩ := Exec.bind_eq_ok.mp h
  cases h2
  exact ⟨t, h1, rfl⟩

theorem traced_modifyPcb_ok {m m1 : Machine} {Pid : Nat}
    {f : PROCESS_CONTROL_BLOCK → PROCESS_CONTROL_BLOCK}
    (h : Traced.modifyPcb m Pid f = .ok m1) :
    ∃ t, modifyPcb m.table Pid f = .ok t ∧
      m1 = { Traced.log (.writePcb Pid) m with table := t } := by
  unfold Traced.modifyPcb at h
  obtain ⟨t, h1, h2⟩ := Exec.bind_eq_ok.mp h
  cases h2
  exact ⟨t, h1, rfl⟩

theorem traced_readPcb_ok {m : Machine} {Pid : Nat} {r : PROCESS_CONTROL_BLOCK × Machine}
    (h : Traced.readPcb m Pid = .ok r) :
    readPcb m.table Pid = .ok r.1 ∧ r.2 = Traced.log (.readPcb Pid) m := by
  unfold Traced.readPcb at h
  obtain ⟨pcb, h1, h2⟩ := Exec.bind_eq_ok.mp h
  cases h2
  exact ⟨h1, rfl⟩

theorem traced_readTcb_ok {m : Machine} {Pid Tid : Nat}
    {r : THREAD_CONTROL_BLOCK × Machine} (h : Traced.readTcb m Pid Tid = .ok r) :
    readTcb m.table Pid Tid = .ok r.1 ∧ r.2 = Traced.log (.readTcb Pid Tid) m := by
  unfold Traced.readTcb at h
  obtain ⟨tcb, h1, h2⟩ := Exec.bind_eq_ok.mp h
  cases h2
  exact ⟨h1, rfl⟩

theorem run_modifyTcb {P : Step → Prop} {m m1 : Machine} {Pid Tid : Nat}
    {f : THREAD_CONTROL_BLOCK → Exec THREAD_CONTROL_BLOCK}
    (h : Traced.modifyTcb m Pid Tid f = .ok m1)
    (hP : P { event := .writeTcb Pid Tid, interruptsEnabled := m.interruptsEnabled,
              table := m.table }) : Run P m m1 := by
  obtain ⟨t, _, hm1⟩ := traced_modifyTcb_ok h
  rw [hm1]
  exact run_write _ m t hP

theorem run_modifyPcb {P : Step → Prop} {m m1 : Machine} {Pid : Nat}
    {f : PROCESS_CONTROL_BLOCK → PROCESS_CONTROL_BLOCK}
    (h : Traced.modifyPcb m Pid f = .ok m1)
    (hP : P { event := .writePcb Pid, interruptsEnabled := m.interruptsEnabled,
              table := m.table }) : Run P m m1 := by
  obtain ⟨t, _, hm1⟩ := traced_modifyPcb_ok h
  rw [hm1]
  exact run_write _ m t hP

/-- The steps of the logged inner loop of `pcbAndTcbInit` are table events under the mask it
was started with. -/
theorem traced_threadLoop_run {cfg : Config} {Pid : Nat} :
    ∀ (fuel Tid : Nat) (m m1 : Machine),
      Traced.pcbAndTcbInit.threadLoop cfg Pid fuel Tid m = .ok m1 →
      Run (fun st => st.event.isTableEvent = true) m m1 := by
  intro fuel
  induction fuel with
  | zero =>
    intro Tid m m1 h
    simp [Traced.pcbAndTcbInit.threadLoop] at h
  | succ n ih =>
    intro Tid m m1 h
    unfold Traced.pcbAndTcbInit.threadLoop at h
    by_cases hlt : Tid < cfg.MAXIMUM_NUMBER_OF_THREADS
    · rw [if_pos hlt] at h
      obtain ⟨m2, h2, h3⟩ := Exec.bind_eq_ok.mp h
      exact run_trans (run_modifyTcb h2 rfl) (ih _ m2 m1 h3)
    · rw [if_neg hlt] at h
      cases h
      exact run_refl _ m

/-- The steps of the logged outer loop of `pcbAndTcbInit` are table events under the mask it
was started with. -/
theorem traced_processLoop_run {cfg : Config} {bound : Nat} :
    ∀ (fuel Pid : Nat) (m m1 : Machine),
      Traced.pcbAndTcbInit.processLoop cfg bound fuel Pid m = .ok m1 →
      Run (fun st => st.event.isTableEvent = true) m m1 := by
  intro fuel
  induction fuel with
  | zero =>
    intro Pid m m1 h
    simp [Traced.pcbAndTcbInit.processLoop] at h
  | succ n ih =>
    intro Pid m m1 h
    unfold Traced.pcbAndTcbInit.processLoop at h
    by_cases hlt : Pid < cfg.MAXIMUM_NUMBER_OF_PROCESSES
    · rw [if_pos hlt] at h
      obtain ⟨m2, h2, h⟩ := Exec.bind_eq_ok.mp h
      obtain ⟨m3, h3, h4⟩ := Exec.bind_eq_ok.mp h
      exact run_trans (run_modifyPcb h2 rfl)
        (run_trans (traced_threadLoop_run bound 0 m2 m3 h3) (ih _ m3 m1 h4))
    · rw [if_neg hlt] at h
      cases h
      exact run_refl _ m

/-- The steps of the logged `stackInitForTcb`: its invocation, on the table it is given, and
writes of the entry. -/
theorem traced_stackInitForTcb_run {cfg : Config} {m m1 : Machine} {Pid Tid : Nat}
    (h : Traced.stackInitForTcb cfg m Pid Tid = .ok m1) :
    Run (fun st => st.event = .writeTcb Pid Tid ∨
      (st.event = .stackInitForTcb Pid Tid ∧ st.table = m.table)) m m1 := by
  unfold Traced.stackInitForTcb at h
  obtain ⟨m2, h2, h⟩ := Exec.bind_eq_ok.mp h
  obtain ⟨m3, h3, h4⟩ := Exec.bind_eq_ok.mp h
  exact run_trans (run_log _ m (Or.inr ⟨rfl, rfl⟩))
    (run_trans (run_modifyTcb h2 (Or.inl rfl))
      (run_trans (run_modifyTcb h3 (Or.inl rfl)) (run_modifyTcb h4 (Or.inl rfl))))

/-- The steps of the logged admission body. -/
theorem traced_found_run {cfg : Config} {m m1 : Machine} {Pid Tid Thread Priority : Nat}
    (h : Traced.osAddForegroundThread.found cfg m Pid Tid Thread Priority = .ok m1) :
    Run (FoundStep m.table Pid Tid) m m1 := by
  unfold Traced.osAddForegroundThread.found at h
  obtain ⟨ma, ha, h⟩ := Exec.bind_eq_ok.mp h
  obtain ⟨mb, hb, h⟩ := Exec.bind_eq_ok.mp h
  obtain ⟨mc, hc, h⟩ := Exec.bind_eq_ok.mp h
  obtain ⟨r, hr, h⟩ := Exec.bind_eq_ok.mp h
  obtain ⟨md, hd, he⟩ := Exec.bind_eq_ok.mp h
  obtain ⟨ta, hta, hma⟩ := traced_modifyTcb_ok ha
  obtain ⟨pcb, tcb, tcb1, hp, ht, hf, hput⟩ := modifyTcb_eq_ok hta
  cases hf
  have htable : ma.table = put m.table Pid Tid pcb { tcb with Status := .Running } := by
    rw [hma]
    exact hput
  have hrun_b : Run (FoundStep m.table Pid Tid) ma mb := by
    apply run_mono _ (traced_stackInitForTcb_run hb)
    intro st hst
    rcases hst with hw | ⟨hev, htab⟩
    · exact Or.inl hw
    · exact Or.inr (Or.inr ⟨hev, pcb, tcb, hp, ht, htab.trans htable⟩)
  have hrun_r : Run (FoundStep m.table Pid Tid) mc r.2 := by
    rw [(traced_readPcb_ok hr).2]
    exact run_log _ mc (Or.inr (Or.inl rfl))
  have hrun_d : Run (FoundStep m.table Pid Tid) r.2 md := by
    by_cases hD : r.1.DataSection = 0
    · simp only [hD, ne_eq, not_true_eq_false, if_false, Exec.ok.injEq] at hd
      rw [← hd]
      exact run_refl _ _
    · simp only [hD, ne_eq, not_false_eq_true, if_true] at hd
      obtain ⟨r2, hr2, hw⟩ := Exec.bind_eq_ok.mp hd
      have h1 : Run (FoundStep m.table Pid Tid) r.2 r2.2 := by
        rw [(traced_readPcb_ok hr2).2]
        exact run_log _ r.2 (Or.inr (Or.inl rfl))
      exact run_trans h1 (run_modifyTcb hw (Or.inl rfl))
  exact run_trans (run_modifyTcb ha (Or.inl rfl))
    (run_trans hrun_b
      (run_trans (run_modifyTcb hc (Or.inl rfl))
        (run_trans hrun_r (run_trans hrun_d (run_modifyTcb he (Or.inl rfl))))))

/-- The steps of the logged scan. -/
theorem traced_scan_run {cfg : Config} {Pid Thread Priority : Nat} :
    ∀ (fuel Tid : Nat) (m : Machine) (st : OS_STATUS) (m1 : Machine),
      Traced.osAddForegroundThread.scan cfg Pid Thread Priority fuel Tid m = .ok (st, m1) →
      Run (ScanStep cfg m.table Pid) m m1 := by
  intro fuel
  induction fuel with
  | zero =>
    intro Tid m st m1 h
    simp [Traced.osAddForegroundThread.scan] at h
  | succ n ih =>
    intro Tid m st m1 h
    unfold Traced.osAddForegroundThread.scan at h
    by_cases hlt : Tid < cfg.MAXIMUM_NUMBER_OF_THREADS
    · rw [if_pos hlt] at h
      obtain ⟨r, hr, h⟩ := Exec.bind_eq_ok.mp h
      obtain ⟨hread, hr2⟩ := traced_readTcb_ok hr
      have hrun_r : Run (ScanStep cfg m.table Pid) m r.2 := by
        rw [hr2]
        exact run_log _ m (Or.inl ⟨Tid, hlt, rfl⟩)
      have htab : r.2.table = m.table := by rw [hr2]; rfl
      by_cases hrdy : r.1.Status = .Ready
      · rw [if_pos hrdy] at h
        obtain ⟨m2, hf, hres⟩ := Exec.bind_eq_ok.mp h
        cases hres
        have hfr := traced_found_run hf
        rw [htab] at hfr
        refine run_trans hrun_r (run_mono ?_ hfr)
        intro s hs
        exact Or.inr ⟨Tid, r.1, hlt, readTcb_eq_ok.mp hread, hrdy, hs⟩
      · rw [if_neg hrdy] at h
        have hrec := ih _ r.2 st m1 h
        rw [htab] at hrec
        exact run_trans hrun_r hrec
    · rw [if_neg hlt] at h
      cases h
      exact run_refl _ m

/-- The logged `osAddForegroundThread` runs, from the machine left by `disableInterrupts`,
to a machine on which it calls `enableInterrupts` last. -/
theorem traced_osAdd_run {cfg : Config} {fuel : Nat} {m m1 : Machine}
    {Thread StackSize Priority : Nat} {st : OS_STATUS}
    (h : Traced.osAddForegroundThread cfg fuel m Thread StackSize Priority = .ok (st, m1)) :
    ∃ m2, Run (CallStep cfg m.table) (Traced.disableInterrupts m) m2 ∧
      m1 = Traced.enableInterrupts m2 := by
  unfold Traced.osAddForegroundThread at h
  obtain ⟨r, hr, h⟩ := Exec.bind_eq_ok.mp h
  obtain ⟨_, hr2⟩ := traced_readPcb_ok hr
  have hrun_r : Run (CallStep cfg m.table) (Traced.disableInterrupts m) r.2 := by
    rw [hr2]
    exact run_log _ _ (Or.inl rfl)
  have htab : r.2.table = m.table := by rw [hr2]; rfl
  by_cases hn : r.1.NumberOfThreads = cfg.MAXIMUM_NUMBER_OF_THREADS
  · rw [if_pos hn] at h
    cases h
    exact ⟨r.2, hrun_r, rfl⟩
  · rw [if_neg hn] at h
    obtain ⟨q, hq, hres⟩ := Exec.bind_eq_ok.mp h
    cases hres
    have hs := traced_scan_run fuel 0 r.2 q.1 q.2 hq
    rw [htab] at hs
    exact ⟨q.2, run_trans hrun_r (run_mono (fun s hs => Or.inr hs) hs), rfl⟩

/-! ## The critical section of `osAddForegroundThread` (C11) -/

theorem callStep_isTableEvent {cfg : Config} {s : PcbTable} {st : Step}
    (h : CallStep cfg s st) : st.event.isTableEvent = true := by
  rcases h with h | ⟨j, _, h⟩ | ⟨T, tcb, _, _, _, h | h | ⟨h, _⟩⟩ <;> rw [h] <;> rfl

theorem isTableEvent_ne {e : Event} (h : e.isTableEvent = true) :
    e ≠ .disableInterrupts ∧ e ≠ .enableInterrupts ∧ e ≠ .setSystemClock ∧
      e ≠ .initializeUart := by
  cases e <;> simp [Event.isTableEvent] at h ⊢

/-- The trace and the mask of a returned call of the logged `osAddForegroundThread`. -/
theorem traced_osAdd_trace {cfg : Config} {fuel : Nat} {m m1 : Machine}
    {Thread StackSize Priority : Nat} {st : OS_STATUS}
    (h : Traced.osAddForegroundThread cfg fuel m Thread StackSize Priority = .ok (st, m1)) :
    m1.interruptsEnabled = true ∧
    ∃ body, m1.trace = m.trace ++
        ({ event := .disableInterrupts, interruptsEnabled := m.interruptsEnabled,
           table := m.table } :: body) ++
        [{ event := .enableInterrupts, interruptsEnabled := false, table := m1.table }] ∧
      ∀ s ∈ body, s.interruptsEnabled = false ∧ CallStep cfg m.table s := by
  obtain ⟨m2, ⟨hmask, body, htrace, hbody⟩, hm1⟩ := traced_osAdd_run h
  have hmask2 : m2.interruptsEnabled = false := hmask
  refine ⟨by rw [hm1]; rfl, body, ?_, hbody⟩
  have hd : (Traced.disableInterrupts m).trace = m.trace ++
      [{ event := .disableInterrupts, interruptsEnabled := m.interruptsEnabled,
         table := m.table }] := rfl
  have he : (Traced.enableInterrupts m2).trace = m2.trace ++
      [{ event := .enableInterrupts, interruptsEnabled := m2.interruptsEnabled,
         table := m2.table }] := rfl
  have ht : (Traced.enableInterrupts m2).table = m2.table := rfl
  rw [hm1, he, ht, htrace, hd, hmask2]
  simp

/-- C11: on every path on which `osAddForegroundThread` returns (early return, scan without
a `Ready` entry, admission), with the interrupt mask as explicit state: the steps of the call
are `disableInterrupts` first, `enableInterrupts` last, and in between only accesses to
`Pcbs` (and the invocation of `stackInitForTcb`), each with interrupts disabled; neither
interrupt call occurs in between, so each occurs once; and interrupts are enabled on
return whatever the mask was on entry.  The status and the table are those of the function
without logging. -/
theorem osAddForegroundThread_critical_section (cfg : Config) (fuel : Nat) (m m1 : Machine)
    (Thread StackSize Priority : Nat) (st : OS_STATUS)
    (h : Traced.osAddForegroundThread cfg fuel m Thread StackSize Priority = .ok (st, m1)) :
    osAddForegroundThread cfg fuel m.table Thread StackSize Priority
      = .ok (st, m1.table) ∧
    m1.interruptsEnabled = true ∧
    ∃ body, m1.trace = m.trace ++
        ({ event := .disableInterrupts, interruptsEnabled := m.interruptsEnabled,
           table := m.table } :: body) ++
        [{ event := .enableInterrupts, interruptsEnabled := false, table := m1.table }] ∧
      ∀ s ∈ body, s.interruptsEnabled = false ∧ s.event.isTableEvent = true ∧
        s.event ≠ .disableInterrupts ∧ s.event ≠ .enableInterrupts := by
  obtain ⟨hmask, body, htrace, hbody⟩ := traced_osAdd_trace h
  refine ⟨?_, hmask, body, htrace, ?_⟩
  · rw [← traced_osAddForegroundThread_map, h]
    rfl
  · intro s hs
    have ht := callStep_isTableEvent (hbody s hs).2
    exact ⟨(hbody s hs).1, ht, (isTableEvent_ne ht).1, (isTableEvent_ne ht).2.1⟩

/-- Instance of C11: the call `osAddForegroundThread (0x8001, 64, 7)` on the booted table of
`smallCfg`. -/
theorem osAddForegroundThread_critical_section_witness :
    osAddForegroundThread smallCfg 3 bootedMachine.table 0x8001 64 7
      = .ok (.OsSuccess, admittedMachine.table) ∧
    admittedMachine.interruptsEnabled = true ∧
    ∃ body, admittedMachine.trace = bootedMachine.trace ++
        ({ event := .disableInterrupts, interruptsEnabled := bootedMachine.interruptsEnabled,
           table := bootedMachine.table } :: body) ++
        [{ event := .enableInterrupts, interruptsEnabled := false,
           table := admittedMachine.table }] ∧
      ∀ s ∈ body, s.interruptsEnabled = false ∧ s.event.isTableEvent = true ∧
        s.event ≠ .disableInterrupts ∧ s.event ≠ .enableInterrupts :=
  osAddForegroundThread_critical_section smallCfg 3 bootedMachine admittedMachine 0x8001 64 7
    .OsSuccess (by decide)

/-! ## The invocation of `stackInitForTcb` (C17) -/

/-- C17 (as stated, refuted): in the call `osAddForegroundThread (0x8001, 64, 7)` on the
booted table of `smallCfg`, `stackInitForTcb` is invoked once, for entry 0 of process 0, and
at the moment of the invocation the status of that entry is `Running`, not `Ready`. -/
theorem stackInitForTcb_invoked_on_running_counterexample :
    (Traced.osAddForegroundThread smallCfg 3 bootedMachine 0x8001 64 7).map
        (fun r => (r.1, builderCalls r.2.trace))
      = .ok (.OsSuccess, [(0, 0, some .Running)]) := by
  decide

/-- C17 (amended): whenever `osAddForegroundThread` invokes `stackInitForTcb (Pid, Tid)`,
`Pid` is 0, `Tid` is below `MAXIMUM_NUMBER_OF_THREADS`, the entry had status `Ready` in the
table on entry to the call, and it has status `Running` in the table at the moment of the
invocation: the builder is never invoked on an entry that was not `Ready` when the call was
made. -/
theorem stackInitForTcb_invoked_on_found_entry (cfg : Config) (fuel : Nat) (m m1 : Machine)
    (Thread StackSize Priority : Nat) (st : OS_STATUS)
    (h : Traced.osAddForegroundThread cfg fuel m Thread StackSize Priority = .ok (st, m1)) :
    ∃ body, m1.trace = m.trace ++ body ∧
      ∀ c ∈ builderCalls body, ∃ Tid tcb, c = (0, Tid, some .Running) ∧
        Tid < cfg.MAXIMUM_NUMBER_OF_THREADS ∧ entry m.table 0 Tid = some tcb ∧
        tcb.Status = .Ready := by
  obtain ⟨_, body, htrace, hbody⟩ := traced_osAdd_trace h
  refine ⟨_, by rw [htrace, List.append_assoc], ?_⟩
  intro c hc
  unfold builderCalls at hc
  obtain ⟨s, hs, hsc⟩ := List.mem_filterMap.mp hc
  have hs2 : s ∈ body := by
    simp only [List.cons_append, List.mem_cons, List.mem_append, List.mem_singleton,
      List.not_mem_nil, or_false] at hs
    rcases hs with hs | hs | hs
    · rw [hs] at hsc
      simp at hsc
    · exact hs
    · rw [hs] at hsc
      simp at hsc
  rcases (hbody s hs2).2 with hev | ⟨j, _, hev⟩ | ⟨T, tcb, hT, hent, hrdy, hf⟩
  · simp [hev] at hsc
  · simp [hev] at hsc
  · rcases hf with hev | hev | ⟨hev, pcb, tcb0, hp, ht, htab⟩
    · simp [hev] at hsc
    · simp [hev] at hsc
    · simp only [hev, Option.some.injEq] at hsc
      refine ⟨T, tcb, ?_, hT, hent, hrdy⟩
      rw [← hsc, htab, entry_put_self hp ht]
      rfl

/-- Instance of C17 (amended): the call `osAddForegroundThread (0x8001, 64, 7)` on the booted
table of `smallCfg`. -/
theorem stackInitForTcb_invoked_on_found_entry_witness :
    ∃ body, admittedMachine.trace = bootedMachine.trace ++ body ∧
      ∀ c ∈ builderCalls body, ∃ Tid tcb, c = (0, Tid, some .Running) ∧
        Tid < smallCfg.MAXIMUM_NUMBER_OF_THREADS ∧
        entry bootedMachine.table 0 Tid = some tcb ∧ tcb.Status = .Ready :=
  stackInitForTcb_invoked_on_found_entry smallCfg 3 bootedMachine admittedMachine 0x8001 64 7
    .OsSuccess (by decide)

/-! ## The effect sequence of `osInit` (C12) -/

/-- C12: `osInit` performs `disableInterrupts`, `setSystemClock`, `initializeUart` and then
`pcbAndTcbInit`, in that order and each once: when it returns, its steps are these three
calls followed by the accesses of one run of `pcbAndTcbInit`, all but the first with
interrupts disabled; `enableInterrupts` is not among them and interrupts are disabled on
return.  It returns on a well-formed table when both capacities are at most 255 (and
enough iterations are allowed). -/
theorem osInit_effect_sequence (cfg : Config) (fuel : Nat) (m : Machine) :
    (WellFormed cfg m.table → cfg.MAXIMUM_NUMBER_OF_PROCESSES ≤ 255 →
      cfg.MAXIMUM_NUMBER_OF_THREADS ≤ 255 → cfg.MAXIMUM_NUMBER_OF_PROCESSES < fuel →
      cfg.MAXIMUM_NUMBER_OF_THREADS < fuel → ∃ m1, Traced.osInit cfg fuel m = .ok m1) ∧
    ∀ m1, Traced.osInit cfg fuel m = .ok m1 →
      Traced.pcbAndTcbInit cfg fuel
          { table := m.table, interruptsEnabled := false,
            trace := m.trace ++
              [{ event := .disableInterrupts, interruptsEnabled := m.interruptsEnabled,
                 table := m.table },
               { event := .setSystemClock, interruptsEnabled := false, table := m.table },
               { event := .initializeUart, interruptsEnabled := false, table := m.table }] }
        = .ok m1 ∧
      pcbAndTcbInit cfg fuel m.table = .ok m1.table ∧
      m1.interruptsEnabled = false ∧
      ∃ body, m1.trace = m.trace ++
          [{ event := .disableInterrupts, interruptsEnabled := m.interruptsEnabled,
             table := m.table },
           { event := .setSystemClock, interruptsEnabled := false, table := m.table },
           { event := .initializeUart, interruptsEnabled := false, table := m.table }] ++
          body ∧
        ∀ s ∈ body, s.interruptsEnabled = false ∧ s.event.isTableEvent = true ∧
          s.event ≠ .disableInterrupts ∧ s.event ≠ .enableInterrupts ∧
          s.event ≠ .setSystemClock ∧ s.event ≠ .initializeUart := by
  have hm3 : Traced.initializeUart (Traced.setSystemClock (Traced.disableInterrupts m))
      = { table := m.table, interruptsEnabled := false,
          trace := m.trace ++
            [{ event := .disableInterrupts, interruptsEnabled := m.interruptsEnabled,
               table := m.table },
             { event := .setSystemClock, interruptsEnabled := false, table := m.table },
             { event := .initializeUart, interruptsEnabled := false, table := m.table }] } := by
    simp [Traced.initializeUart, Traced.setSystemClock, Traced.disableInterrupts, Traced.log]
  constructor
  · intro hwf hP hT hfP hfT
    have hmap := traced_pcbAndTcbInit_map cfg fuel
      (Traced.initializeUart (Traced.setSystemClock (Traced.disableInterrupts m)))
    have htab : (Traced.initializeUart
        (Traced.setSystemClock (Traced.disableInterrupts m))).table = m.table := rfl
    rw [htab, pcbAndTcbInit_eq hwf hP hT hfP hfT] at hmap
    obtain ⟨m1, hm1, _⟩ := Exec.map_eq_ok hmap
    exact ⟨m1, hm1⟩
  · intro m1 h
    unfold Traced.osInit at h
    rw [hm3] at h
    have hrun := traced_processLoop_run fuel 0 _ m1 h
    obtain ⟨hmask, body, htrace, hbody⟩ := hrun
    refine ⟨h, ?_, hmask, body, htrace, ?_⟩
    · have hmap := traced_pcbAndTcbInit_map cfg fuel
        { table := m.table, interruptsEnabled := false,
          trace := m.trace ++
            [{ event := .disableInterrupts, interruptsEnabled := m.interruptsEnabled,
               table := m.table },
             { event := .setSystemClock, interruptsEnabled := false, table := m.table },
             { event := .initializeUart, interruptsEnabled := false, table := m.table }] }
      rw [h] at hmap
      exact hmap.symm
    · intro s hs
      obtain ⟨h1, h2⟩ := hbody s hs
      have hne := isTableEvent_ne h2
      exact ⟨h1, h2, hne.1, hne.2.1, hne.2.2.1, hne.2.2.2⟩

/-- Instance of C12: `osInit` on the power-on table of `smallCfg`. -/
theorem osInit_effect_sequence_witness :
    WellFormed smallCfg powerOnMachine.table ∧
    (∃ m1, Traced.osInit smallCfg 3 powerOnMachine = .ok m1) ∧
    pcbAndTcbInit smallCfg 3 powerOnMachine.table = .ok initMachine.table ∧
    initMachine.interruptsEnabled = false ∧
    ∃ body, initMachine.trace = powerOnMachine.trace ++
        [{ event := .disableInterrupts, interruptsEnabled := powerOnMachine.interruptsEnabled,
           table := powerOnMachine.table },
         { event := .setSystemClock, interruptsEnabled := false,
           table := powerOnMachine.table },
         { event := .initializeUart, interruptsEnabled := false,
           table := powerOnMachine.table }] ++
        body ∧
      ∀ s ∈ body, s.interruptsEnabled = false ∧ s.event.isTableEvent = true ∧
        s.event ≠ .disableInterrupts ∧ s.event ≠ .enableInterrupts ∧
        s.event ≠ .setSystemClock ∧ s.event ≠ .initializeUart :=
  ⟨by decide,
    (osInit_effect_sequence smallCfg 3 powerOnMachine).1 (by decide) (by decide) (by decide)
      (by decide) (by decide),
    ((osInit_effect_sequence smallCfg 3 powerOnMachine).2 initMachine (by decide)).2⟩

/-! ## Numbers of iterations (C19) -/

theorem run_countP_eq {P : Step → Prop} {m m1 : Machine} (f : Step → Bool)
    (h : Run P m m1) (hf : ∀ st, P st → f st = false) :
    m1.trace.countP f = m.trace.countP f := by
  obtain ⟨_, body, htrace, hbody⟩ := h
  have hz : body.countP f = 0 := by
    rw [List.countP_eq_zero]
    intro st hst
    rw [hf st (hbody st hst).2]
    simp
  rw [htrace, List.countP_append, hz, Nat.add_zero]

theorem writeTcbCount_modifyTcb {m m1 : Machine} {Pid Tid : Nat}
    {f : THREAD_CONTROL_BLOCK → Exec THREAD_CONTROL_BLOCK}
    (h : Traced.modifyTcb m Pid Tid f = .ok m1) :
    writeTcbCount m1.trace = writeTcbCount m.trace + 1 := by
  obtain ⟨t, _, hm1⟩ := traced_modifyTcb_ok h
  rw [hm1]
  simp [writeTcbCount, List.countP_append, Event.isWriteTcb]

/-- Each iteration of the inner loop of `pcbAndTcbInit` writes one thread entry, and the loop
started at `Tid` runs `MAXIMUM_NUMBER_OF_THREADS - Tid` iterations. -/
theorem traced_threadLoop_count {cfg : Config} {Pid : Nat}
    (h255 : cfg.MAXIMUM_NUMBER_OF_THREADS ≤ 255) :
    ∀ (fuel Tid : Nat) (m m1 : Machine), Tid ≤ cfg.MAXIMUM_NUMBER_OF_THREADS →
      Traced.pcbAndTcbInit.threadLoop cfg Pid fuel Tid m = .ok m1 →
      writeTcbCount m1.trace
        = writeTcbCount m.trace + (cfg.MAXIMUM_NUMBER_OF_THREADS - Tid) := by
  intro fuel
  induction fuel with
  | zero =>
    intro Tid m m1 _ h
    simp [Traced.pcbAndTcbInit.threadLoop] at h
  | succ n ih =>
    intro Tid m m1 hle h
    unfold Traced.pcbAndTcbInit.threadLoop at h
    by_cases hlt : Tid < cfg.MAXIMUM_NUMBER_OF_THREADS
    · rw [if_pos hlt] at h
      obtain ⟨m2, h2, h3⟩ := Exec.bind_eq_ok.mp h
      rw [incUint8_of_lt (by omega)] at h3
      rw [ih (Tid + 1) m2 m1 (by omega) h3, writeTcbCount_modifyTcb h2]
      omega
    · rw [if_neg hlt] at h
      cases h
      omega

/-- The outer loop of `pcbAndTcbInit` started at `Pid` runs
`(MAXIMUM_NUMBER_OF_PROCESSES - Pid) * MAXIMUM_NUMBER_OF_THREADS` inner iterations. -/
theorem traced_processLoop_count {cfg : Config} {bound : Nat}
    (hP : cfg.MAXIMUM_NUMBER_OF_PROCESSES ≤ 255) (hT : cfg.MAXIMUM_NUMBER_OF_THREADS ≤ 255) :
    ∀ (fuel Pid : Nat) (m m1 : Machine), Pid ≤ cfg.MAXIMUM_NUMBER_OF_PROCESSES →
      Traced.pcbAndTcbInit.processLoop cfg bound fuel Pid m = .ok m1 →
      writeTcbCount m1.trace = writeTcbCount m.trace +
        (cfg.MAXIMUM_NUMBER_OF_PROCESSES - Pid) * cfg.MAXIMUM_NUMBER_OF_THREADS := by
  intro fuel
  induction fuel with
  | zero =>
    intro Pid m m1 _ h
    simp [Traced.pcbAndTcbInit.processLoop] at h
  | succ n ih =>
    intro Pid m m1 hle h
    unfold Traced.pcbAndTcbInit.processLoop at h
    by_cases hlt : Pid < cfg.MAXIMUM_NUMBER_OF_PROCESSES
    · rw [if_pos hlt] at h
      obtain ⟨m2, h2, h⟩ := Exec.bind_eq_ok.mp h
      obtain ⟨m3, h3, h4⟩ := Exec.bind_eq_ok.mp h
      rw [incUint8_of_lt (by omega)] at h4
      have hc2 : writeTcbCount m2.trace = writeTcbCount m.trace := by
        have hrun : Run (fun st => st.event = .writePcb Pid) m m2 := run_modifyPcb h2 rfl
        apply run_countP_eq _ hrun
        intro st hst
        rw [hst]
        rfl
      have hc3 := traced_threadLoop_count hT bound 0 m2 m3 (Nat.zero_le _) h3
      have hk : cfg.MAXIMUM_NUMBER_OF_PROCESSES - Pid
          = (cfg.MAXIMUM_NUMBER_OF_PROCESSES - (Pid + 1)) + 1 := by omega
      rw [ih (Pid + 1) m3 m1 (by omega) h4, hc3, hc2, hk, Nat.add_mul]
      omega
    · rw [if_neg hlt] at h
      cases h
      have hz : cfg.MAXIMUM_NUMBER_OF_PROCESSES - Pid = 0 := by omega
      rw [hz, Nat.zero_mul, Nat.add_zero]

theorem foundStep_not_readTcb {s : PcbTable} {Pid Tid : Nat} {st : Step}
    (h : FoundStep s Pid Tid st) : st.event.isReadTcb = false := by
  rcases h with h | h | ⟨h, _⟩ <;> rw [h] <;> rfl

/-- The scan started at `Tid` reads at most `MAXIMUM_NUMBER_OF_THREADS - Tid` thread
entries. -/
theorem traced_scan_count {cfg : Config} {Pid Thread Priority : Nat}
    (h255 : cfg.MAXIMUM_NUMBER_OF_THREADS ≤ 255) :
    ∀ (fuel Tid : Nat) (m : Machine) (st : OS_STATUS) (m1 : Machine),
      Tid ≤ cfg.MAXIMUM_NUMBER_OF_THREADS →
      Traced.osAddForegroundThread.scan cfg Pid Thread Priority fuel Tid m = .ok (st, m1) →
      readTcbCount m1.trace
        ≤ readTcbCount m.trace + (cfg.MAXIMUM_NUMBER_OF_THREADS - Tid) := by
  intro fuel
  induction fuel with
  | zero =>
    intro Tid m st m1 _ h
    simp [Traced.osAddForegroundThread.scan] at h
  | succ n ih =>
    intro Tid m st m1 hle h
    unfold Traced.osAddForegroundThread.scan at h
    by_cases hlt : Tid < cfg.MAXIMUM_NUMBER_OF_THREADS
    · rw [if_pos hlt] at h
      obtain ⟨r, hr, h⟩ := Exec.bind_eq_ok.mp h
      obtain ⟨_, hr2⟩ := traced_readTcb_ok hr
      have hcr : readTcbCount r.2.trace = readTcbCount m.trace + 1 := by
        rw [hr2]
        simp [readTcbCount, List.countP_append, Event.isReadTcb]
      by_cases hrdy : r.1.Status = .Ready
      · rw [if_pos hrdy] at h
        obtain ⟨m2, hf, hres⟩ := Exec.bind_eq_ok.mp h
        cases hres
        have hcf : readTcbCount m1.trace = readTcbCount r.2.trace :=
          run_countP_eq _ (traced_found_run hf) (fun st hst => foundStep_not_readTcb hst)
        rw [hcf, hcr]
        omega
      · rw [if_neg hrdy] at h
        rw [incUint8_of_lt (by omega)] at h
        have := ih (Tid + 1) r.2 st m1 (by omega) h
        rw [hcr] at this
        omega
    · rw [if_neg hlt] at h
      cases h
      omega

/-- A returned call of the logged `osAddForegroundThread` has read at most
`MAXIMUM_NUMBER_OF_THREADS` thread entries. -/
theorem traced_osAdd_count {cfg : Config} {fuel : Nat} {m m1 : Machine}
    {Thread StackSize Priority : Nat} {st : OS_STATUS}
    (h255 : cfg.MAXIMUM_NUMBER_OF_THREADS ≤ 255)
    (h : Traced.osAddForegroundThread cfg fuel m Thread StackSize Priority = .ok (st, m1)) :
    readTcbCount m1.trace ≤ readTcbCount m.trace + cfg.MAXIMUM_NUMBER_OF_THREADS := by
  unfold Traced.osAddForegroundThread at h
  obtain ⟨r, hr, h⟩ := Exec.bind_eq_ok.mp h
  obtain ⟨_, hr2⟩ := traced_readPcb_ok hr
  have hcr : readTcbCount r.2.trace = readTcbCount m.trace := by
    rw [hr2]
    simp [readTcbCount, List.countP_append, Event.isReadTcb, Traced.disableInterrupts]
  have hce : ∀ m2 : Machine,
      readTcbCount (Traced.enableInterrupts m2).trace = readTcbCount m2.trace := by
    intro m2
    simp [readTcbCount, List.countP_append, Event.isReadTcb, Traced.enableInterrupts]
  by_cases hn : r.1.NumberOfThreads = cfg.MAXIMUM_NUMBER_OF_THREADS
  · rw [if_pos hn] at h
    cases h
    rw [hce, hcr]
    omega
  · rw [if_neg hn] at h
    obtain ⟨q, hq, hres⟩ := Exec.bind_eq_ok.mp h
    cases hres
    have := traced_scan_count h255 fuel 0 r.2 q.1 q.2 (Nat.zero_le _) hq
    rw [hce]
    rw [hcr] at this
    omega

/-- The scan exits within `MAXIMUM_NUMBER_OF_THREADS + 1` iterations when the capacity fits
the 8-bit counter and the thread entries below the capacity exist. -/
theorem scan_ne_timeout {cfg : Config} {Pid Thread Priority : Nat} {s : PcbTable}
    {pcb : PROCESS_CONTROL_BLOCK} (hp : s[Pid]? = some pcb)
    (h255 : cfg.MAXIMUM_NUMBER_OF_THREADS ≤ 255)
    (hlen : cfg.MAXIMUM_NUMBER_OF_THREADS ≤ pcb.Tcbs.length) :
    ∀ (fuel Tid : Nat), cfg.MAXIMUM_NUMBER_OF_THREADS - Tid < fuel →
      osAddForegroundThread.scan cfg Pid Thread Priority fuel Tid s ≠ .timeout := by
  intro fuel
  induction fuel with
  | zero =>
    intro Tid h
    omega
  | succ n ih =>
    intro Tid hfuel
    unfold osAddForegroundThread.scan
    by_cases hlt : Tid < cfg.MAXIMUM_NUMBER_OF_THREADS
    · rw [if_pos hlt]
      have hT : Tid < pcb.Tcbs.length := by omega
      have ht : pcb.Tcbs[Tid]? = some pcb.Tcbs[Tid] := List.getElem?_eq_getElem hT
      have hread : readTcb s Pid Tid = .ok pcb.Tcbs[Tid] :=
        readTcb_eq_ok.mpr (entry_eq_some.mpr ⟨pcb, hp, ht⟩)
      rw [hread, Exec.bind_ok]
      by_cases hr : pcb.Tcbs[Tid].Status = .Ready
      · rw [if_pos hr, found_of_entry cfg hp ht]
        have hnt := admitTcb_ne_timeout cfg pcb.DataSection Thread Priority pcb.Tcbs[Tid]
        cases hadm : admitTcb cfg pcb.DataSection Thread Priority pcb.Tcbs[Tid] with
        | ok t => simp
        | fault => simp
        | timeout => exact absurd hadm hnt
      · rw [if_neg hr]
        apply ih
        rw [incUint8_of_lt (by omega)]
        omega
    · rw [if_neg hlt]
      simp

/-- On a well-formed table `osAddForegroundThread` exits its scan when the capacity fits the
8-bit counter and more iterations are allowed than the capacity. -/
theorem osAdd_ne_timeout {cfg : Config} {fuel : Nat} {s : PcbTable}
    (Thread StackSize Priority : Nat) (hwf : WellFormed cfg s)
    (h255 : cfg.MAXIMUM_NUMBER_OF_THREADS ≤ 255)
    (hfuel : cfg.MAXIMUM_NUMBER_OF_THREADS < fuel) :
    osAddForegroundThread cfg fuel s Thread StackSize Priority ≠ .timeout := by
  unfold osAddForegroundThread readPcb
  cases h0 : s[0]? with
  | none => simp
  | some pcb =>
    simp only [Exec.bind_ok]
    by_cases hn : pcb.NumberOfThreads = cfg.MAXIMUM_NUMBER_OF_THREADS
    · rw [if_pos hn]
      simp
    · rw [if_neg hn]
      exact scan_ne_timeout h0 h255 (le_of_eq (wellFormed_shape hwf 0 pcb h0).symm) fuel 0
        (by omega)

/-- On a well-formed table with at least one process, `pcbAndTcbInit` does not return when a
capacity is 256 or more, however many iterations are allowed. -/
theorem pcbAndTcbInit_timeout_of_wide {cfg : Config} {s : PcbTable} (hwf : WellFormed cfg s)
    (hP1 : 1 ≤ cfg.MAXIMUM_NUMBER_OF_PROCESSES)
    (hwide : 256 ≤ cfg.MAXIMUM_NUMBER_OF_PROCESSES ∨ 256 ≤ cfg.MAXIMUM_NUMBER_OF_THREADS)
    (fuel : Nat) : pcbAndTcbInit cfg fuel s = .timeout := by
  cases h : pcbAndTcbInit cfg fuel s with
  | timeout => rfl
  | fault =>
    unfold pcbAndTcbInit at h
    exact absurd h (processLoop_ne_fault fuel 0 s hwf.1 (wellFormed_shape hwf))
  | ok s1 =>
    obtain ⟨hP, _, hT⟩ := pcbAndTcbInit_ok_bounds h
    have := (hT (by omega)).1
    omega

theorem wellFormed_runningWide : WellFormed wideCfg runningWide := by
  refine ⟨rfl, ?_⟩
  intro pcb hmem
  simp only [runningWide, List.mem_singleton] at hmem
  subst hmem
  refine ⟨by simp [wideCfg, runningWidePcb], ?_⟩
  intro tcb htcb
  simp only [runningWidePcb, List.mem_map] at htcb
  obtain ⟨t, _, ht⟩ := htcb
  rw [← ht]
  rfl

/-- C19: with the loop counters as 8-bit unsigned integers.  When both capacities are at most
255 (and more iterations are allowed than the capacities), on every well-formed table
`pcbAndTcbInit` returns after exactly `MAXIMUM_NUMBER_OF_PROCESSES` times
`MAXIMUM_NUMBER_OF_THREADS` inner iterations (each writes one thread entry), and
`osAddForegroundThread` exits its scan, having examined at most `MAXIMUM_NUMBER_OF_THREADS`
entries when it returns.  For a capacity of 256 or more the incremented counter is always
below the capacity: `pcbAndTcbInit` never returns (with at least one process), and
`osAddForegroundThread` never returns when the count test fails and no entry of process 0
is `Ready`. -/
theorem loops_terminate (cfg : Config) (fuel : Nat) (m : Machine)
    (Thread StackSize Priority : Nat) (hwf : WellFormed cfg m.table) :
    (cfg.MAXIMUM_NUMBER_OF_PROCESSES ≤ 255 → cfg.MAXIMUM_NUMBER_OF_THREADS ≤ 255 →
      cfg.MAXIMUM_NUMBER_OF_PROCESSES < fuel → cfg.MAXIMUM_NUMBER_OF_THREADS < fuel →
      (∃ m1 body, Traced.pcbAndTcbInit cfg fuel m = .ok m1 ∧ m1.trace = m.trace ++ body ∧
        writeTcbCount body
          = cfg.MAXIMUM_NUMBER_OF_PROCESSES * cfg.MAXIMUM_NUMBER_OF_THREADS) ∧
      Traced.osAddForegroundThread cfg fuel m Thread StackSize Priority ≠ .timeout ∧
      ∀ st m1,
        Traced.osAddForegroundThread cfg fuel m Thread StackSize Priority = .ok (st, m1) →
        ∃ body, m1.trace = m.trace ++ body ∧
          readTcbCount body ≤ cfg.MAXIMUM_NUMBER_OF_THREADS) ∧
    ((256 ≤ cfg.MAXIMUM_NUMBER_OF_PROCESSES ∨ 256 ≤ cfg.MAXIMUM_NUMBER_OF_THREADS) →
      1 ≤ cfg.MAXIMUM_NUMBER_OF_PROCESSES →
      ∀ fuel1, pcbAndTcbInit cfg fuel1 m.table = .timeout) ∧
    (256 ≤ cfg.MAXIMUM_NUMBER_OF_THREADS →
      ∀ pcb, m.table[0]? = some pcb →
        pcb.NumberOfThreads ≠ cfg.MAXIMUM_NUMBER_OF_THREADS →
        (∀ tcb ∈ pcb.Tcbs, tcb.Status ≠ .Ready) →
        ∀ fuel1, osAddForegroundThread cfg fuel1 m.table Thread StackSize Priority
          = .timeout) ∧
    (∀ N c, 256 ≤ N → incUint8 c < N) := by
  refine ⟨?_, ?_, ?_, ?_⟩
  · intro hP hT hfP hfT
    refine ⟨?_, ?_, ?_⟩
    · have hmap := traced_pcbAndTcbInit_map cfg fuel m
      rw [pcbAndTcbInit_eq hwf hP hT hfP hfT] at hmap
      obtain ⟨m1, hm1, _⟩ := Exec.map_eq_ok hmap
      obtain ⟨_, body, htrace, _⟩ := traced_processLoop_run fuel 0 m m1 hm1
      have hc := traced_processLoop_count hP hT fuel 0 m m1 (Nat.zero_le _) hm1
      refine ⟨m1, body, hm1, htrace, ?_⟩
      rw [htrace, Nat.sub_zero] at hc
      unfold writeTcbCount at hc ⊢
      rw [List.countP_append] at hc
      omega
    · intro hto
      have hmap := traced_osAddForegroundThread_map cfg fuel m Thread StackSize Priority
      rw [hto] at hmap
      exact osAdd_ne_timeout Thread StackSize Priority hwf hT hfT hmap.symm
    · intro st m1 h
      obtain ⟨_, body, htrace, _⟩ := traced_osAdd_trace h
      have hc := traced_osAdd_count hT h
      refine ⟨_, by rw [htrace, List.append_assoc], ?_⟩
      rw [htrace, List.append_assoc] at hc
      unfold readTcbCount at hc ⊢
      rw [List.countP_append] at hc
      omega
  · intro hwide hP1 fuel1
    exact pcbAndTcbInit_timeout_of_wide hwf hP1 hwide fuel1
  · intro hwide pcb h0 hn hall fuel1
    have hlen := wellFormed_shape hwf 0 pcb h0
    unfold osAddForegroundThread readPcb
    rw [h0]
    simp only [Exec.bind_ok]
    rw [if_neg hn]
    apply scan_timeout hwide _ fuel1 0 (by omega)
    intro j hj
    have hjl : j < pcb.Tcbs.length := by omega
    have ht : pcb.Tcbs[j]? = some pcb.Tcbs[j] := List.getElem?_eq_getElem hjl
    exact ⟨pcb.Tcbs[j], entry_eq_some.mpr ⟨pcb, h0, ht⟩, hall _ (List.getElem_mem hjl)⟩
  · intro N c hN
    have := incUint8_lt c
    omega

/-- Instance of C19: the capacities of `smallCfg` fit the counters, and the loops run 2 inner
iterations and examine at most 2 entries; the thread capacity of `wideCfg` is 256, and
`pcbAndTcbInit` and a call on 256 `Running` entries do not return. -/
theorem loops_terminate_witness :
    ((∃ m1 body, Traced.pcbAndTcbInit smallCfg 3 bootedMachine = .ok m1 ∧
        m1.trace = bootedMachine.trace ++ body ∧
        writeTcbCount body
          = smallCfg.MAXIMUM_NUMBER_OF_PROCESSES * smallCfg.MAXIMUM_NUMBER_OF_THREADS) ∧
      Traced.osAddForegroundThread smallCfg 3 bootedMachine 0x8001 64 7 ≠ .timeout ∧
      ∀ st m1, Traced.osAddForegroundThread smallCfg 3 bootedMachine 0x8001 64 7
          = .ok (st, m1) →
        ∃ body, m1.trace = bootedMachine.trace ++ body ∧
          readTcbCount body ≤ smallCfg.MAXIMUM_NUMBER_OF_THREADS) ∧
    (∀ fuel1, pcbAndTcbInit wideCfg fuel1 wideMachine.table = .timeout) ∧
    (∀ fuel1, osAddForegroundThread wideCfg fuel1 wideMachine.table 0x8001 64 7
      = .timeout) :=
  ⟨(loops_terminate smallCfg 3 bootedMachine 0x8001 64 7 (by decide)).1
      (by decide) (by decide) (by decide) (by decide),
    (loops_terminate wideCfg 3 wideMachine 0x8001 64 7 wellFormed_runningWide).2.1
      (Or.inr (by decide)) (by decide),
    (loops_terminate wideCfg 3 wideMachine 0x8001 64 7 wellFormed_runningWide).2.2.1
      (by decide) runningWidePcb rfl (by decide)
      (by
        intro tcb htcb
        simp only [runningWidePcb, List.mem_map] at htcb
        obtain ⟨t, _, ht⟩ := htcb
        rw [← ht]
        intro h
        cases h)⟩

end Soul
